import Mathlib

/-! Scrobbler: the listening inference engine.

A shallow embedding of the Go packages `resolver`, `playerevents`, `parser`,
`audioplayer`, `server` and `logreader`, followed by theorems about the engine, about the
parser, and about the line of a descriptor, the status server and the frame reader.

Conventions of the embedding.

* Go `int` and `uint` are taken at 64 bits.  A Go `int` is a Lean `Int` kept in the
  range `[-2^63, 2^63)` by `wrapInt`; a Go `uint` is a Lean `Nat`.
* A Go `string` is a sequence of bytes, and `len`, `strings.Index`, `strings.Split` and the
  slice expression count bytes.  A Go string is embedded as the Lean `String` that has
  one element per byte, the element with the code of that byte; every position and every
  length below therefore counts bytes.  A text of ASCII is its own embedding; `utf8` is
  the embedding of any other text, byte by byte in its UTF-8 form.
* The engine is a record that is passed explicitly.  The mutex, the channels and the
  ticker are not part of the record: a send on `emitter` or `errCh` appends to the list
  of values the operation returns.
* The resolver and the clock are the environment (`Env`).  Both may be stateful, so the
  answer of each depends on how many calls were made before; the engine record counts
  the calls in two ghost fields (`resolverCalls`, `clockReads`).
* A dereference of a nil pointer, a division by zero and a slice expression whose bounds
  are out of range are the outcome `panic`.
* A Go map has no iteration order: `Parse` takes the order in which it visits the entries
  of `Markers` as an argument.
* The verb `%d` of `fmt` is `formatInt` (`formatNat` for an unsigned value).
* A slice of bytes is a list of natural numbers below 256.
-/

/-! ## Machine integers and strings -/

/-- Two's complement wrap-around of a mathematical integer to a 64-bit Go `int`. -/
def wrapInt (x : Int) : Int :=
  (x + 9223372036854775808) % 18446744073709551616 - 9223372036854775808

/-- Go conversion `int(u)` of a `uint`. -/
def intOfUint (u : Nat) : Int := wrapInt (u : Int)

/-- Go `x / y` on `int` for `y ≠ 0`: truncated division (the quotient wraps for
`MinInt / -1`). -/
def goDiv (x y : Int) : Int := wrapInt (Int.tdiv x y)

/-- Go `strings.HasPrefix` on the bytes of the strings. -/
def hasPrefixList : List Char → List Char → Bool
  | _, [] => true
  | [], _ :: _ => false
  | a :: s, b :: t => a == b && hasPrefixList s t

/-- Go `strings.Contains` on the bytes of the strings. -/
def containsList : List Char → List Char → Bool
  | [], sub => hasPrefixList [] sub
  | a :: s, sub => hasPrefixList (a :: s) sub || containsList s sub

/-- Go `strings.Contains(s, substr)`. -/
def Contains (s substr : String) : Bool := containsList s.data substr.data

/-- The bytes of the UTF-8 form of a code point. -/
def utf8Bytes (c : Char) : List Nat :=
  if c.toNat < 128 then [c.toNat]
  else if c.toNat < 2048 then [192 + c.toNat / 64, 128 + c.toNat % 64]
  else if c.toNat < 65536 then
    [224 + c.toNat / 4096, 128 + c.toNat / 64 % 64, 128 + c.toNat % 64]
  else
    [240 + c.toNat / 262144, 128 + c.toNat / 4096 % 64, 128 + c.toNat / 64 % 64,
      128 + c.toNat % 64]

/-- The bytes of the UTF-8 form of a text, each as the element with its code. -/
def utf8List : List Char → List Char
  | [] => []
  | c :: t => (utf8Bytes c).map Char.ofNat ++ utf8List t

/-- The Go string of a text: one element per byte of its UTF-8 form, which is how a Go
source literal and a line of the log hold a text. -/
def utf8 (s : String) : String := String.mk (utf8List s.data)

/-! ## Package `resolver` -/

namespace resolver

/-- The struct `resolver.Content`. -/
structure Content where
  Artist : String
  Album : String
  Track : String
  TrackNumber : String
  Duration : Nat
  Rating : Bool
  StartedAt : Int
  MusicBrainzTID : String
  SampleRate : Int
  Bitrate : Int
  Channels : Int
  BitDepth : Int
  Attempted : Bool
deriving DecidableEq, Repr

/-- The zero value `Content{}`. -/
def Content.empty : Content :=
  { Artist := "", Album := "", Track := "", TrackNumber := "", Duration := 0,
    Rating := false, StartedAt := 0, MusicBrainzTID := "", SampleRate := 0,
    Bitrate := 0, Channels := 0, BitDepth := 0, Attempted := false }

/-- The method `Content.Valid`: are the fields required for the scrobbler filled. -/
def Content.Valid (c : Content) : Bool :=
  if c.Artist == "" || c.Track == "" || c.Duration == 0 || c.StartedAt == 0 then
    false
  else
    true

end resolver

/-! ## Package `playerevents` -/

namespace playerevents

/-- The interface `PlayerEvent`; its only implementation is `PlayerEventTrackListened`,
which carries a copy of the descriptor. -/
inductive PlayerEvent
  | PlayerEventTrackListened (Content : resolver.Content)
deriving DecidableEq, Repr

/-- The descriptor carried by a verdict. -/
def PlayerEvent.Content : PlayerEvent → resolver.Content
  | PlayerEventTrackListened c => c

/-- The verdict carries the rating `L` (listened). -/
def PlayerEvent.listened (v : PlayerEvent) : Bool := v.Content.Rating

end playerevents

/-! ## Package `parser`: the event types -/

namespace parser

/-- The interface `parser.Event` with its eight implementations; `other` stands for a
value of any other type that implements the interface. -/
inductive Event
  | EventPreparing
  | EventContentURI (URI : String)
  | EventEndOfStream
  | EventPlayerStateChange (Before After : String)
  | EventStorageMounted
  | EventStorageUnmounting
  | EventTrackDestroyed (TrackID : String)
  | EventTrackCreated (TrackID : String)
  | other (typeName : String)
deriving DecidableEq, Repr

end parser

/-! ## Package `audioplayer` -/

namespace audioplayer

open resolver playerevents parser

def StateStart : Int := 0
def StateStorageUnmounted : Int := 1
def StateStorageMounted : Int := 2
def StateWaitForResources : Int := 3
def StatePause : Int := 4
def StateExecuting : Int := 5
def StateUnknown : Int := 6
def StateInvalid : Int := 7
def StateLoaded : Int := 8
def StateIdle : Int := 9

/-- The map `State`, read as `State[name]`: a missing key gives the zero value. -/
def State (name : String) : Int :=
  if name = "OMX_StateWaitForResources" then StateWaitForResources
  else if name = "OMX_StatePause" then StatePause
  else if name = "OMX_StateExecuting" then StateExecuting
  else if name = "OMX_StateUnknown" then StateUnknown
  else if name = "OMX_StateInvalid" then StateInvalid
  else if name = "OMX_StateLoaded" then StateLoaded
  else if name = "OMX_StateIdle" then StateIdle
  else 0

def BeepIgnore : String := "WM_BEEP"

/-- The errors the engine reports. `other` is an error made elsewhere (by a resolver). -/
inductive Error
  | ErrStorageUnmounted
  | ErrUnknownEvent (typeName : String)
  | noResolverProvided
  | other (msg : String)
deriving DecidableEq, Repr

/-- What one call of `resolver.Resolver.Resolve` returns: the pointer (`none` is nil)
and the error (`none` is nil). -/
structure ResolveResult where
  content : Option Content
  err : Option Error
deriving DecidableEq, Repr

/-- An implementation of the interface `resolver.Resolver`: the answer to the call
number `n` (counted from 0) for a uri. -/
abbrev Resolver := Nat → String → ResolveResult

/-- An implementation of the interface `Clock`: `Now().Unix()` of the reading number
`n` (counted from 0). -/
abbrev Clock := Nat → Int

/-- The collaborators of the engine: the field `resolver` (`none` when `WithResolver`
was never called) and the field `clock`. -/
structure Env where
  resolver : Option Resolver
  clock : Clock

/-- The struct `Track`. -/
structure Track where
  ContentURI : String
  PlayingFor : Int
  TrackID : String
deriving DecidableEq, Repr

/-- The struct `AudioPlayer`. `CurrentTrack`, `NextTrack` and `CurrentContent` are
pointers that are never nil in a running engine (the one place that stores nil,
in `Tick`, panics at the next statement).  `resolverCalls` and `clockReads` are
ghost fields: the number of calls made so far to the resolver and to the clock. -/
structure AudioPlayer where
  State : Int
  StateBefore : Int
  CurrentTrack : Track
  NextTrack : Track
  Preparing : Bool
  CurrentContent : Content
  minimumListenDuration : Int
  divider : Int
  resolverCalls : Nat
  clockReads : Nat
deriving DecidableEq, Repr

def New : AudioPlayer :=
  { State := StateStart
    StateBefore := StateStart
    CurrentTrack := { ContentURI := "", PlayingFor := 0, TrackID := "" }
    NextTrack := { ContentURI := "", PlayingFor := 0, TrackID := "" }
    Preparing := false
    CurrentContent := Content.empty
    minimumListenDuration := 0
    divider := 2
    resolverCalls := 0
    clockReads := 0 }

def WithListenPercent (p : AudioPlayer) (percent : Int) : AudioPlayer :=
  let percent := if percent ≤ 0 ∨ percent > 100 then 50 else percent
  { p with divider := goDiv 100 percent }

def WithState (p : AudioPlayer) (state : Int) : AudioPlayer :=
  { p with State := state }

def WithContent (p : AudioPlayer) (c : Content) : AudioPlayer :=
  { p with CurrentContent := c }

def WithNextTrack (p : AudioPlayer) (uri : String) (playingFor : Int) : AudioPlayer :=
  { p with NextTrack := { p.NextTrack with ContentURI := uri, PlayingFor := playingFor } }

def WithCurrentTrack (p : AudioPlayer) (uri : String) (playingFor : Int) : AudioPlayer :=
  { p with CurrentTrack := { p.CurrentTrack with ContentURI := uri, PlayingFor := playingFor } }

/-- What `AudioPlayer.Resolve` does: it returns a pointer and an error, or panics. -/
inductive ResolveOutcome
  | ret (c : Option Content) (err : Option Error)
  | panic
deriving DecidableEq, Repr

/-- The method `AudioPlayer.Resolve`; the second component is the engine with the
call to the resolver counted. -/
def Resolve (env : Env) (p : AudioPlayer) (uri : String) : ResolveOutcome × AudioPlayer :=
  if uri = "" then
    (.ret (some Content.empty) none, p)
  else if Contains uri BeepIgnore then
    (.ret (some Content.empty) none, p)
  else
    match env.resolver with
    | none => (.ret (some Content.empty) (some Error.noResolverProvided), p)
    | some r =>
      let p1 := { p with resolverCalls := p.resolverCalls + 1 }
      match r p.resolverCalls uri with
      | { content := _, err := some e } => (.ret none (some e), p1)
      | { content := none, err := none } => (.panic, p1) -- `c.Track` in the debug line
      | { content := some c, err := none } => (.ret (some c) none, p1)

def SetContentURI (p : AudioPlayer) (uri : String) : AudioPlayer :=
  if p.Preparing && p.CurrentTrack.ContentURI != "" then
    { p with NextTrack := { p.NextTrack with ContentURI := uri }, Preparing := false }
  else
    { p with CurrentTrack := { p.CurrentTrack with ContentURI := uri, PlayingFor := 0 } }

def Stop (p : AudioPlayer) : AudioPlayer :=
  let p1 := { p with
    CurrentTrack := { p.CurrentTrack with PlayingFor := 0 }
    CurrentContent := { p.CurrentContent with Rating := false, StartedAt := 0, Attempted := false } }
  if p1.NextTrack.ContentURI != "" then
    { p1 with CurrentTrack := { p1.CurrentTrack with ContentURI := p1.NextTrack.ContentURI } }
  else
    p1

/-- The method `DestroyTrack`; the second component is what it sends on `emitter`. -/
def DestroyTrack (p : AudioPlayer) (s : String) : AudioPlayer × List PlayerEvent :=
  let out :=
    if !p.CurrentContent.Rating && p.CurrentContent.Valid && decide (p.CurrentTrack.PlayingFor > 2) then
      [PlayerEvent.PlayerEventTrackListened p.CurrentContent]
    else
      []
  let p1 := { p with CurrentContent := Content.empty }
  let p2 :=
    if p1.CurrentTrack.TrackID = s then
      { p1 with CurrentTrack := { TrackID := "", ContentURI := "", PlayingFor := 0 } }
    else p1
  let p3 :=
    if p2.NextTrack.TrackID = s then
      { p2 with NextTrack := { TrackID := "", ContentURI := "", PlayingFor := 0 } }
    else p2
  (p3, out)

def CreateTrack (p : AudioPlayer) (s : String) : AudioPlayer :=
  { p with CurrentTrack := { p.CurrentTrack with TrackID := s } }

/-- The method `SetState`; the second component is the error it returns. -/
def SetState (p : AudioPlayer) (before after : Int) : AudioPlayer × Option Error :=
  if p.State = StateStorageUnmounted ∧ after ≠ StateStorageMounted then
    (p, some Error.ErrStorageUnmounted)
  else if after = StateStorageUnmounted ∨ after = StateStorageMounted then
    ({ p with StateBefore := p.State, State := after }, none)
  else if p.State = StateStart then
    ({ p with StateBefore := after, State := after }, none)
  else if p.State ≠ before ∧ p.State ≠ StateStorageMounted ∧ p.State ≠ StateStorageUnmounted then
    (p, none)
  else
    let p1 := if after = StateLoaded then { p with Preparing := false } else p
    ({ p1 with StateBefore := p1.State, State := after }, none)

/-- What `Tick` does: it returns an error (or nil) after the sends on `emitter`, or it
panics. -/
inductive TickResult
  | ok (p : AudioPlayer) (emitted : List PlayerEvent) (err : Option Error)
  | panic
deriving DecidableEq, Repr

/-- The first statement of `Tick`, the resolution step: `inl q` when `Tick` goes on to
the rest of its body with the engine `q`, `inr r` when `Tick` ends here with `r`. -/
def tickResolve (env : Env) (p : AudioPlayer) : AudioPlayer ⊕ TickResult :=
  if !p.CurrentContent.Attempted && p.CurrentTrack.ContentURI != "" then
    match Resolve env p p.CurrentTrack.ContentURI with
    | (.panic, _) => .inr .panic
    | (.ret none _, _) => .inr .panic -- `p.CurrentContent.Attempted = true` on nil
    | (.ret (some c) (some e), p1) =>
      .inr (.ok { p1 with CurrentContent := { c with Attempted := true } } [] (some e))
    | (.ret (some c) none, p1) =>
      if p1.divider = 0 then .inr .panic
      else
        .inl { p1 with
          CurrentContent := { c with Attempted := true, Rating := false }
          minimumListenDuration := goDiv (intOfUint c.Duration) p1.divider }
  else
    .inl p

/-- The statements of `Tick` from `if p.State != StateExecuting` up to the test that
guards the send: the engine with `StartedAt` set and `PlayingFor` incremented. -/
def tickAdvance (env : Env) (p : AudioPlayer) : AudioPlayer :=
  let p1 :=
    if p.CurrentContent.StartedAt = 0 then
      { p with
        CurrentContent := { p.CurrentContent with StartedAt := env.clock p.clockReads }
        clockReads := p.clockReads + 1 }
    else p
  { p1 with CurrentTrack := { p1.CurrentTrack with PlayingFor := wrapInt (p1.CurrentTrack.PlayingFor + 1) } }

/-- The body of `Tick` after the resolution step. -/
def tickBody (env : Env) (p : AudioPlayer) : TickResult :=
  if p.State ≠ StateExecuting then
    .ok p [] none
  else
    let p2 := tickAdvance env p
    if !p2.CurrentContent.Valid then
      .ok p2 [] none
    else if decide (p2.CurrentTrack.PlayingFor ≥ p2.minimumListenDuration) && !p2.CurrentContent.Rating then
      let p3 := { p2 with CurrentContent := { p2.CurrentContent with Rating := true } }
      .ok p3 [PlayerEvent.PlayerEventTrackListened p3.CurrentContent] none
    else
      .ok p2 [] none

/-- The method `Tick`. -/
def Tick (env : Env) (p : AudioPlayer) : TickResult :=
  match tickResolve env p with
  | .inr r => r
  | .inl p1 => tickBody env p1

/-- One thing the loop of `Consume` selects: an event from `consumer` or a tick. -/
inductive Input
  | event (e : Event)
  | tick
deriving DecidableEq, Repr

/-- What handling a sequence of inputs has produced: the engine, the values sent on
`emitter` and on `errCh` in order, and whether the goroutine has panicked. -/
structure Run where
  player : AudioPlayer
  emitted : List PlayerEvent
  errors : List (Option Error)
  panicked : Bool
deriving DecidableEq, Repr

/-- One iteration of the loop of `Consume`. -/
def step (env : Env) (p : AudioPlayer) : Input → Run
  | .event (.EventPlayerStateChange b a) =>
    let r := SetState p (State b) (State a)
    { player := r.1, emitted := [], errors := [r.2], panicked := false }
  | .event .EventStorageUnmounting =>
    let r := SetState p p.StateBefore StateStorageUnmounted
    { player := Stop r.1, emitted := [], errors := [r.2], panicked := false }
  | .event .EventStorageMounted =>
    let r := SetState p p.StateBefore StateStorageMounted
    { player := r.1, emitted := [], errors := [r.2], panicked := false }
  | .event (.EventContentURI uri) =>
    { player := SetContentURI p uri, emitted := [], errors := [], panicked := false }
  | .event .EventEndOfStream =>
    { player := Stop p, emitted := [], errors := [], panicked := false }
  | .event .EventPreparing =>
    { player := { p with Preparing := true }, emitted := [], errors := [], panicked := false }
  | .event (.EventTrackDestroyed id) =>
    let r := DestroyTrack p id
    { player := r.1, emitted := r.2, errors := [], panicked := false }
  | .event (.EventTrackCreated id) =>
    { player := CreateTrack p id, emitted := [], errors := [], panicked := false }
  | .event (.other n) =>
    { player := p, emitted := [], errors := [some (Error.ErrUnknownEvent n)], panicked := false }
  | .tick =>
    match Tick env p with
    | .panic => { player := p, emitted := [], errors := [], panicked := true }
    | .ok p1 out none => { player := p1, emitted := out, errors := [], panicked := false }
    | .ok p1 out (some e) => { player := p1, emitted := out, errors := [some e], panicked := false }

/-- The loop of `Consume` over the inputs it selects, in order; a panic ends it. -/
def Consume (env : Env) (p : AudioPlayer) : List Input → Run
  | [] => { player := p, emitted := [], errors := [], panicked := false }
  | i :: rest =>
    let r := step env p i
    if r.panicked then r
    else
      let r2 := Consume env r.player rest
      { player := r2.player, emitted := r.emitted ++ r2.emitted,
        errors := r.errors ++ r2.errors, panicked := r2.panicked }

/-- The resolver of `player_test.go`. -/
def DumbResolver : Resolver := fun _ s =>
  { content := some { Content.empty with
      Artist := "artist", Album := "album", Track := s, TrackNumber := "1", Duration := 10 }
    err := none }

/-- The clock of `player_test.go`: it starts at 12345 and advances by one at each
reading. -/
def staticClock : Clock := fun n => 12345 + (n : Int)

/-- The environment of the tests of `player_test.go`. -/
def testEnv : Env := { resolver := some DumbResolver, clock := staticClock }

/-- A resolver that fails on every uri the way `DBResolver.Resolve` fails when a row
cannot be scanned: it returns `&Content{}` and an error. -/
def failingResolver : Resolver := fun _ _ =>
  { content := some Content.empty, err := some (Error.other "cannot scan row") }

/-- The six operations of the engine. -/
inductive Op
  | SetState (before after : Int)
  | SetContentURI (uri : String)
  | Stop
  | CreateTrack (s : String)
  | DestroyTrack (s : String)
  | Tick
deriving DecidableEq, Repr

/-- The engine after an operation; `none` when the operation panics. -/
def Op.run (env : Env) (p : AudioPlayer) : Op → Option AudioPlayer
  | .SetState b a => some (audioplayer.SetState p b a).1
  | .SetContentURI uri => some (audioplayer.SetContentURI p uri)
  | .Stop => some (audioplayer.Stop p)
  | .CreateTrack s => some (audioplayer.CreateTrack p s)
  | .DestroyTrack s => some (audioplayer.DestroyTrack p s).1
  | .Tick =>
    match audioplayer.Tick env p with
    | .ok p1 _ _ => some p1
    | .panic => none

/-- The inputs of one playback: the uri arrives, the track is created, the pipeline
goes to `Executing` (from the state named `b`), `k` ticks elapse, the track is
destroyed. -/
def playSequence (u t b : String) (k : Nat) : List Input :=
  [Input.event (Event.EventContentURI u), Input.event (Event.EventTrackCreated t),
    Input.event (Event.EventPlayerStateChange b "OMX_StateExecuting")] ++
  List.replicate k Input.tick ++ [Input.event (Event.EventTrackDestroyed t)]

/-- A resolver whose descriptors have the duration `2^63`, a value of `uint` that
`int` does not hold. -/
def hugeDurationResolver : Resolver := fun _ s =>
  { content := some { Content.empty with
      Artist := "artist", Track := s, Duration := 9223372036854775808 }
    err := none }

/-- The engine is in `Executing` with a resolved descriptor whose required metadata is
filled and that has no verdict yet; it has played for `i` seconds and the threshold
is `m`. -/
structure Playing (m i : Int) (p : AudioPlayer) : Prop where
  state : p.State = StateExecuting
  attempted : p.CurrentContent.Attempted = true
  rating : p.CurrentContent.Rating = false
  artist : p.CurrentContent.Artist ≠ ""
  track : p.CurrentContent.Track ≠ ""
  duration : p.CurrentContent.Duration ≠ 0
  playingFor : p.CurrentTrack.PlayingFor = i
  minimum : p.minimumListenDuration = m

/-- The engine is in `Executing` with a resolved descriptor whose listened verdict was
emitted. -/
structure Rated (p : AudioPlayer) : Prop where
  state : p.State = StateExecuting
  attempted : p.CurrentContent.Attempted = true
  rating : p.CurrentContent.Rating = true

/-- The engine after the uri `u` arrived, the track `t` was created and the pipeline
went to `Executing`, on a fresh engine with listen-percent 50. -/
def startedEngine (u t : String) : AudioPlayer :=
  { New with
    State := StateExecuting
    StateBefore := StateExecuting
    CurrentTrack := { ContentURI := u, PlayingFor := 0, TrackID := t } }

/-- The engine `startedEngine` after the resolution step of its first tick adopted the
descriptor `c`, with the threshold `m`. -/
def resolvedEngine (c : Content) (m : Int) (u t : String) : AudioPlayer :=
  { startedEngine u t with
    CurrentContent := { c with Attempted := true, Rating := false }
    minimumListenDuration := m
    resolverCalls := 1 }

/-- Handling the input in the engine state `p` assigns or clears
`CurrentTrack.ContentURI`: a uri routed to the current slot, a stop that pulls the uri
of the next slot, the destruction of the current track. -/
def assignsCurrentURI (p : AudioPlayer) : Input → Bool
  | .event (.EventContentURI _) => !(p.Preparing && p.CurrentTrack.ContentURI != "")
  | .event .EventEndOfStream => p.NextTrack.ContentURI != ""
  | .event .EventStorageUnmounting => p.NextTrack.ContentURI != ""
  | .event (.EventTrackDestroyed id) => p.CurrentTrack.TrackID == id
  | _ => false

/-- Handling the input in the engine state `p` ends a playback: a uri routed to the
current slot, every stop (`EndOfStream`, `StorageUnmounting`) and every destruction of
a track. -/
def endsPlayback (p : AudioPlayer) : Input → Bool
  | .event (.EventContentURI _) => !(p.Preparing && p.CurrentTrack.ContentURI != "")
  | .event .EventEndOfStream => true
  | .event .EventStorageUnmounting => true
  | .event (.EventTrackDestroyed _) => true
  | _ => false

/-- The largest number of listened verdicts (`Rating = true`) emitted within one span
of a run, where the spans are cut at the inputs that satisfy `cut`; `n` is the number
of listened verdicts of the span that is open when the run starts. -/
def maxListenedPerSpan (cut : AudioPlayer → Input → Bool) (env : Env) :
    AudioPlayer → Nat → List Input → Nat
  | _, n, [] => n
  | p, n, i :: rest =>
    let r := step env p i
    let l := (r.emitted.filter PlayerEvent.listened).length
    if r.panicked then n
    else if cut p i then max n (maxListenedPerSpan cut env r.player l rest)
    else maxListenedPerSpan cut env r.player (n + l) rest

/-- The inputs of a looped track: the uri arrives, the pipeline goes to `Executing`,
five ticks, end of stream, five ticks. -/
def loopSequence : List Input :=
  [Input.event (Event.EventContentURI "L"),
    Input.event (Event.EventPlayerStateChange "OMX_StatePause" "OMX_StateExecuting")] ++
  List.replicate 5 Input.tick ++ [Input.event Event.EventEndOfStream] ++
  List.replicate 5 Input.tick

/-- The values of `StartedAt` of the verdicts, in the order of emission. -/
def startedAts (out : List PlayerEvent) : List Int :=
  out.map fun v => v.Content.StartedAt

/-- For each input of a run, whether `cut` holds of it in the engine state in which it is
handled. -/
def cutsAlong (cut : AudioPlayer → Input → Bool) (env : Env) :
    AudioPlayer → List Input → List Bool
  | _, [] => []
  | p, i :: rest => cut p i :: cutsAlong cut env (step env p i).player rest

/-- The `StartedAt` of the descriptor is unset, or older than every reading the clock has
still to give. -/
def StampIsPast (env : Env) (p : AudioPlayer) : Prop :=
  p.CurrentContent.StartedAt = 0 ∨
    ∀ j, p.clockReads ≤ j → p.CurrentContent.StartedAt < env.clock j

/-- A value of `StartedAt` that a verdict emitted from the engine state `p` on can carry:
the one of the current descriptor if it is set and unrated, or a reading the clock has
still to give. -/
def FutureStamp (env : Env) (p : AudioPlayer) (s : Int) : Prop :=
  (p.CurrentContent.Rating = false ∧ s = p.CurrentContent.StartedAt ∧ s ≠ 0) ∨
    ∃ j, p.clockReads ≤ j ∧ s = env.clock j

/-- What one input does to `StartedAt` and to the clock, from `p` to `p'` with the verdicts
`out`: `StartedAt` is unset afterwards; or it is kept, with no reading (and the rating flag
was false if it is false afterwards or if a verdict was emitted); or it is the next reading
of the clock. -/
def StampStep (env : Env) (p p' : AudioPlayer) (out : List PlayerEvent) : Prop :=
  (p'.CurrentContent.StartedAt = 0 ∧ p.clockReads ≤ p'.clockReads) ∨
  (p'.CurrentContent.StartedAt = p.CurrentContent.StartedAt ∧ p'.clockReads = p.clockReads ∧
    (p'.CurrentContent.Rating = false → p.CurrentContent.Rating = false) ∧
    (out ≠ [] → p.CurrentContent.Rating = false)) ∨
  (p'.CurrentContent.StartedAt = env.clock p.clockReads ∧
    p'.clockReads = p.clockReads + 1)

/-- The descriptors of the resolver have `StartedAt = 0`. -/
def ResolverStampsZero (env : Env) : Prop :=
  ∀ r, env.resolver = some r → ∀ n uri c, (r n uri).content = some c → c.StartedAt = 0

/-- The states the audio pipeline reports, the values of the map `State`. -/
def pipelineStates : List Int :=
  [StateWaitForResources, StatePause, StateExecuting, StateUnknown, StateInvalid,
    StateLoaded, StateIdle]

/-- The zero value `Track{}`. -/
def Track.empty : Track := { ContentURI := "", PlayingFor := 0, TrackID := "" }

/-- The resolver of the environment never fails: the engine has one, and each of its
calls returns a descriptor and no error. -/
def ResolverNeverFails (env : Env) : Prop :=
  ∃ r, env.resolver = some r ∧
    ∀ (n : Nat) (uri : String), ∃ c, r n uri = { content := some c, err := none }

/-- The input is a `PlayerStateChange` event. -/
def isStateChange : Input → Bool
  | .event (.EventPlayerStateChange _ _) => true
  | _ => false

/-- The input is a tick or a `PlayerStateChange` event. -/
def isTickOrStateChange : Input → Bool
  | .tick => true
  | i => isStateChange i

/-- Six state changes reported by the pipeline after the unmount, with ticks between
them. -/
def unmountedSequence : List Input :=
  [Input.event (Event.EventPlayerStateChange "OMX_StateExecuting" "OMX_StatePause"),
   Input.tick,
   Input.event (Event.EventPlayerStateChange "OMX_StatePause" "OMX_StateIdle"),
   Input.event (Event.EventPlayerStateChange "OMX_StateIdle" "OMX_StateLoaded"),
   Input.tick,
   Input.tick,
   Input.event (Event.EventPlayerStateChange "OMX_StateLoaded" "OMX_StateIdle"),
   Input.event (Event.EventPlayerStateChange "OMX_StateIdle" "OMX_StatePause"),
   Input.event (Event.EventPlayerStateChange "OMX_StatePause" "OMX_StateExecuting"),
   Input.tick]

/-- The inputs of a change to the next track without playback: the uri `a` arrives, the
track `t` is created, the next track is prepared and its uri `b` arrives, the stream
ends. -/
def handoverSequence (a b t : String) : List Input :=
  [Input.event (Event.EventContentURI a), Input.event (Event.EventTrackCreated t),
    Input.event Event.EventPreparing, Input.event (Event.EventContentURI b),
    Input.event Event.EventEndOfStream]

/-- The descriptor that `DumbResolver` returns for the uri `s`. -/
def DumbContent (s : String) : Content :=
  { Content.empty with
    Artist := "artist", Album := "album", Track := s, TrackNumber := "1", Duration := 10 }

/-- The engine `p` after ticks in `Executing` have resolved the uri `u` with
`DumbResolver`, stamped the descriptor with the next reading of `staticClock` and
counted `k` seconds; `rated` tells whether the listened verdict was emitted. -/
def tickedEngine (p : AudioPlayer) (u : String) (k : Int) (rated : Bool) : AudioPlayer :=
  { p with
    CurrentTrack := { p.CurrentTrack with PlayingFor := k }
    CurrentContent :=
      { DumbContent u with
        Attempted := true, Rating := rated, StartedAt := staticClock p.clockReads }
    minimumListenDuration := 5
    resolverCalls := p.resolverCalls + 1
    clockReads := p.clockReads + 1 }

/-- The listened verdict of the uri `u` resolved by `DumbResolver`, with the stamp
`stamp`. -/
def listenedVerdict (u : String) (stamp : Int) : PlayerEvent :=
  PlayerEvent.PlayerEventTrackListened
    { DumbContent u with Attempted := true, Rating := true, StartedAt := stamp }

/-- The inputs of a playback of the uri `a` that hands over to the uri `b`: the uri `a`
arrives, the track `t` is created, the pipeline goes to `Executing` (from the state
named `bef`), five ticks elapse, the next track is prepared and its uri `b` arrives,
the stream ends. -/
def playedHandover (a b t bef : String) : List Input :=
  [Input.event (Event.EventContentURI a), Input.event (Event.EventTrackCreated t),
    Input.event (Event.EventPlayerStateChange bef "OMX_StateExecuting")] ++
  (List.replicate 5 Input.tick ++
    [Input.event Event.EventPreparing, Input.event (Event.EventContentURI b),
      Input.event Event.EventEndOfStream])

/-- One repetition of a looped track: the pipeline goes from `Pause` to `Executing`, five
ticks elapse, the stream ends, the pipeline goes to `Idle`, `Loaded`, `Idle`, `Pause`. -/
def loopRepetition : List Input :=
  [Input.event (Event.EventPlayerStateChange "OMX_StatePause" "OMX_StateExecuting")] ++
  (List.replicate 5 Input.tick ++
    [Input.event Event.EventEndOfStream,
      Input.event (Event.EventPlayerStateChange "OMX_StateExecuting" "OMX_StateIdle"),
      Input.event (Event.EventPlayerStateChange "OMX_StateIdle" "OMX_StateLoaded"),
      Input.event (Event.EventPlayerStateChange "OMX_StateLoaded" "OMX_StateIdle"),
      Input.event (Event.EventPlayerStateChange "OMX_StateIdle" "OMX_StatePause")])

/-- The inputs of `n` repetitions of a looped track. -/
def loopPlayback : Nat → List Input
  | 0 => []
  | n + 1 => loopRepetition ++ loopPlayback n

/-- The engine at the start of the repetition number `j` (counted from 0) of the looped
uri `l`: the fresh engine with listen-percent 50 and the uri `l` in the current slot,
and after a repetition the engine in `Pause` with the descriptor that `Stop` has reset. -/
def loopEngine (l : String) : Nat → AudioPlayer
  | 0 => WithCurrentTrack (WithListenPercent New 50) l 0
  | j + 1 =>
    { New with
      State := StatePause
      StateBefore := StateIdle
      CurrentTrack := { ContentURI := l, PlayingFor := 0, TrackID := "" }
      CurrentContent := DumbContent l
      minimumListenDuration := 5
      resolverCalls := j + 1
      clockReads := j + 1 }

/-- The descriptor in place is not the resolved descriptor of an earlier track: its artist
is empty (a fresh engine, the time after a destroy, a resolved beep), or it has not been
attempted and at most two seconds are counted (the time after `Stop`, a uri that has just
arrived). -/
def NoEarlierDescriptor (p : AudioPlayer) : Prop :=
  p.CurrentContent.Artist = "" ∨
    (p.CurrentContent.Attempted = false ∧ p.CurrentTrack.PlayingFor ≤ 2)

/-- The uri of the current slot contains `WM_BEEP` at each moment at which an input of the
run is handled. -/
def beepAlong (env : Env) : AudioPlayer → List Input → Bool
  | _, [] => true
  | p, i :: rest =>
    Contains p.CurrentTrack.ContentURI BeepIgnore && beepAlong env (step env p i).player rest

/-- A beep that arrives while the track `"/a"` is being played: the uri `"/a"`, the
pipeline goes to `Executing`, one tick, the uri of the beep, four ticks. -/
def beepDuringPlayback : List Input :=
  [Input.event (Event.EventContentURI "/a"),
    Input.event (Event.EventPlayerStateChange "OMX_StatePause" "OMX_StateExecuting"),
    Input.tick, Input.event (Event.EventContentURI "/WM_BEEP"),
    Input.tick, Input.tick, Input.tick, Input.tick]

/-- A beep on a fresh engine: the track is created, the pipeline goes to `Executing`, ten
ticks elapse, the track is destroyed. -/
def beepSequence : List Input :=
  [Input.event (Event.EventTrackCreated "1"),
    Input.event (Event.EventPlayerStateChange "OMX_StatePause" "OMX_StateExecuting")] ++
  List.replicate 10 Input.tick ++ [Input.event (Event.EventTrackDestroyed "1")]

end audioplayer

/-! ## Strings: index, slices, split

The functions of the Go package `strings` that the parser calls, and the slice
expression.  Positions count the elements of `String.data`, which are the bytes of the
Go string. -/

/-- Go `strings.Index` on the bytes of the strings: the position of the first
occurrence of `sub`, and `-1` when there is none. -/
def indexList : List Char → List Char → Int
  | [], sub => if hasPrefixList [] sub then 0 else -1
  | a :: s, sub =>
    if hasPrefixList (a :: s) sub then 0
    else if indexList s sub < 0 then -1
    else indexList s sub + 1

/-- Go `strings.Index(s, substr)`. -/
def Index (s substr : String) : Int := indexList s.data substr.data

/-- Go `len(s)`: the number of bytes. -/
def len (s : String) : Int := (s.data.length : Int)

/-- The slice expression `s[lo:hi]` on the bytes; `none` is the panic on bounds out
of range. -/
def sliceList (s : List Char) (lo hi : Int) : Option (List Char) :=
  if 0 ≤ lo ∧ lo ≤ hi ∧ hi ≤ (s.length : Int) then
    some ((s.take hi.toNat).drop lo.toNat)
  else
    none

/-- The slice expression `s[lo:hi]`; `s[lo:]` is `Slice s lo (len s)`. -/
def Slice (s : String) (lo hi : Int) : Option String :=
  (sliceList s.data lo hi).map String.mk

/-- Go `strings.Split` on the bytes, for a non-empty separator: a scan from left to
right that closes the current piece at each occurrence of `sep` and skips the
separator.  `skip` is the number of bytes of a matched separator still to skip,
`cur` the current piece, reversed. -/
def splitList (sep : List Char) : Nat → List Char → List Char → List (List Char)
  | _, cur, [] => [cur.reverse]
  | skip + 1, cur, _ :: t => splitList sep skip cur t
  | 0, cur, c :: t =>
    if hasPrefixList (c :: t) sep then cur.reverse :: splitList sep (sep.length - 1) [] t
    else splitList sep 0 (c :: cur) t

/-- Go `strings.Split(s, sep)` for a non-empty `sep`. -/
def Split (s sep : String) : List String :=
  (splitList sep.data 0 [] s.data).map String.mk

/-- No proper non-empty suffix of `m` is a prefix of `m`: two occurrences of `m` in a
string do not overlap. -/
def noBorder (m : List Char) : Bool :=
  (List.range m.length).all fun k => k == 0 || !hasPrefixList m (m.drop k)

/-! ## Package `parser`: the markers and `Parse` -/

namespace parser

def ContentURIMarker : String := "] content URI: "
def PlayerStateMarker : String := "componentOnStateChange: "
def PreparedTrackMarker : String := "] Preparing next track."
def EndOfStreamMarker : String := "] EOS received. nFilledLen ="
def StorageUnmountingMarker : String := "storage[Internal], status[Unmounting]"
def StorageMountedMarker : String := "storage[Internal], status[Mounted]"
def TrackDestroyedMarker : String := "] has been destroyed"
def TrackCreatedMarker : String := "] has been created"
def SoundServiceTrackSubstring : String := "] Track["
def SleepForTestsMarker : String := "SLEEP FOR "

/-- The function `SleepForTests`; `none` is a panic of the slice expression. -/
def SleepForTests (s : String) : Option String :=
  if !Contains s SleepForTestsMarker then some ""
  else Slice s (len SleepForTestsMarker) (len s)

def EndOfStream (s : String) : String :=
  if Contains s EndOfStreamMarker then "1" else ""

def PreparedTrack (s : String) : String :=
  if Contains s PreparedTrackMarker then "1" else ""

/-- The function `GetPlayerState`; `none` is a panic of the slice expression. -/
def GetPlayerState (s : String) : Option String :=
  if !Contains s PlayerStateMarker then some ""
  else
    let endPos := Index s PlayerStateMarker + len PlayerStateMarker
    Slice s endPos (len s)

/-- The function `GetContentPath`; `none` is a panic of the slice expression. -/
def GetContentPath (s : String) : Option String :=
  if !Contains s ContentURIMarker then some ""
  else
    let start := Index s ContentURIMarker
    let endPos := start + len ContentURIMarker
    Slice s endPos (len s)

def StorageUnmounting (s : String) : String :=
  if !Contains s StorageUnmountingMarker then "" else s

def StorageMounted (s : String) : String :=
  if !Contains s StorageMountedMarker then "" else s

/-- The function `TrackDestroyed`; `none` is a panic of a slice expression. -/
def TrackDestroyed (s : String) : Option String :=
  if !Contains s TrackDestroyedMarker then some ""
  else
    let start := Index s SoundServiceTrackSubstring + len SoundServiceTrackSubstring
    match Slice s (start + 1) (len s) with
    | none => none
    | some rest =>
      let endPos := Index rest "]" + start + 1
      Slice s start endPos

/-- The function `TrackCreated`; `none` is a panic of a slice expression. -/
def TrackCreated (s : String) : Option String :=
  if !Contains s TrackCreatedMarker then some ""
  else
    let start := Index s SoundServiceTrackSubstring + len SoundServiceTrackSubstring
    match Slice s (start + 1) (len s) with
    | none => none
    | some rest =>
      let endPos := Index rest "]" + start + 1
      Slice s start endPos

/-- The entries of the map `Markers`, in the order of the source.  A Go map has no order:
the order in which `Parse` visits the entries is an argument of `Parse`. -/
def Markers : List (String × (String → Option String)) :=
  [(ContentURIMarker, GetContentPath),
   (PlayerStateMarker, GetPlayerState),
   (PreparedTrackMarker, fun s => some (PreparedTrack s)),
   (EndOfStreamMarker, fun s => some (EndOfStream s)),
   (StorageUnmountingMarker, fun s => some (StorageUnmounting s)),
   (StorageMountedMarker, fun s => some (StorageMounted s)),
   (TrackDestroyedMarker, TrackDestroyed),
   (TrackCreatedMarker, TrackCreated),
   (SleepForTestsMarker, SleepForTests)]

/-- The loop of `Parse` over the entries of `Markers`, visited in the order `order`: the
first marker that the line contains, with the value that its function returns (`none`
when the function panics), and `none` when the line contains no marker. -/
def findMarker : List (String × (String → Option String)) → String →
    Option (String × Option String)
  | [], _ => none
  | (marker, v) :: rest, s =>
    if Contains s marker then some (marker, v s) else findMarker rest s

/-- The error that `Parse` returns for a state change that does not split in two. -/
inductive ParseError
  | cannotSplit (value s : String)
deriving DecidableEq, Repr

/-- What `Parse` makes of a line before the broadcast: an event, nothing (`event == nil`),
an error, or a panic. -/
inductive Outcome
  | event (e : Event)
  | nothing
  | error (e : ParseError)
  | panic
deriving DecidableEq, Repr

/-- The statement `switch mark` of `Parse` for the case `PlayerStateMarker`. -/
def stateChange (value s : String) : Outcome :=
  match Split value "->" with
  | [s0, s1] =>
    match Slice s0 1 (len s0 - 1) with
    | none => .panic
    | some before =>
      match Slice s1 1 (len s1 - 1) with
      | none => .panic
      | some after => .event (Event.EventPlayerStateChange before after)
  | _ => .error (ParseError.cannotSplit value s)

/-- The body of `Parse` up to `if event == nil`, with the entries of `Markers` visited in
the order `order`.  The sleep of the case `SleepForTestsMarker` produces nothing. -/
def parseLine (order : List (String × (String → Option String))) (s : String) : Outcome :=
  match findMarker order s with
  | none => .nothing
  | some (_, none) => .panic
  | some (mark, some value) =>
    if mark = PreparedTrackMarker then .event Event.EventPreparing
    else if mark = ContentURIMarker then .event (Event.EventContentURI value)
    else if mark = EndOfStreamMarker then .event Event.EventEndOfStream
    else if mark = PlayerStateMarker then stateChange value s
    else if mark = StorageMountedMarker then .event Event.EventStorageMounted
    else if mark = StorageUnmountingMarker then .event Event.EventStorageUnmounting
    else if mark = TrackDestroyedMarker then .event (Event.EventTrackDestroyed value)
    else if mark = TrackCreatedMarker then .event (Event.EventTrackCreated value)
    else .nothing

/-- The struct `LogParser`: each subscriber is the channel it gave, a channel being the
list of the events sent on it so far. -/
structure LogParser where
  subs : List (List Event)
deriving DecidableEq, Repr

def LogParser.Subscribe (l : LogParser) (e : List Event) : LogParser :=
  { subs := l.subs ++ [e] }

/-- What `Parse` does: it returns an error (or nil) after the sends, or it panics. -/
inductive ParseResult
  | ret (l : LogParser) (err : Option ParseError)
  | panic
deriving DecidableEq, Repr

/-- The method `Parse`, with the entries of `Markers` visited in the order `order`. -/
def LogParser.Parse (order : List (String × (String → Option String))) (l : LogParser)
    (s : String) : ParseResult :=
  match parseLine order s with
  | .event e => .ret { subs := l.subs.map fun sub => sub ++ [e] } none
  | .nothing => .ret l none
  | .error e => .ret l (some e)
  | .panic => .panic

/-- The line contains one of the markers. -/
def recognized (s : String) : Bool :=
  Markers.any fun e => Contains s e.1

/-- What the loop of the daemon over the lines has produced: the parser with the channels
of its subscribers, the values sent on `errCh` in order, and whether the goroutine has
panicked. -/
structure ParseRun where
  logParser : LogParser
  errors : List (Option ParseError)
  panicked : Bool
deriving DecidableEq, Repr

/-- The loop of the daemon, `errCh <- pp.Parse(line)` for each line; each line comes with
the order in which `Parse` visits the entries of `Markers` for it.  A panic ends the
loop. -/
def ParseLines (l : LogParser) :
    List (List (String × (String → Option String)) × String) → ParseRun
  | [] => { logParser := l, errors := [], panicked := false }
  | (order, s) :: rest =>
    match l.Parse order s with
    | .panic => { logParser := l, errors := [], panicked := true }
    | .ret l1 err =>
      let r := ParseLines l1 rest
      { logParser := r.logParser, errors := err :: r.errors, panicked := r.panicked }

/-- What a run of the loop shows to the subscribers and to the reader of `errCh`: the
channels, the errors that are not nil, and whether the loop has panicked. -/
def ParseRun.observed (r : ParseRun) : LogParser × List (Option ParseError) × Bool :=
  (r.logParser, r.errors.filter Option.isSome, r.panicked)

/-- Two lines of a log that contain a marker, each with the order of the source. -/
def cleanLines : List (List (String × (String → Option String)) × String) :=
  [(Markers, "[tid:2350] content URI: /data/mnt/internal/MUSIC/1.flac"),
   (Markers, "[tid:4859] EOS received. nFilledLen = [0]")]

/-- The lines of `cleanLines` with lines that contain no marker before, between and after
them. -/
def noisyLines : List (List (String × (String → Option String)) × String) :=
  [(Markers, "I/hagodaemon(  281): whatever"),
   (Markers, "[tid:2350] content URI: /data/mnt/internal/MUSIC/1.flac"),
   (Markers, ""),
   (Markers, "content URI invalid:"),
   (Markers, "[tid:4859] EOS received. nFilledLen = [0]"),
   (Markers, "help")]

end parser

/-! ## Formatting

The verbs of `fmt.Sprintf` that the program uses, and `strings.ReplaceAll(s, "\t", "")`. -/

/-- The verb `%d` for an unsigned integer: its decimal digits. -/
def formatNat (n : Nat) : String := String.mk (Nat.toDigits 10 n)

/-- The verb `%d` for a signed integer. -/
def formatInt : Int → String
  | Int.ofNat n => formatNat n
  | Int.negSucc n => "-" ++ formatNat (n + 1)

/-- Go `strings.ReplaceAll(s, "\t", "")`. -/
def removeTabs (s : String) : String :=
  String.mk (s.data.filter fun c => c != '\t')

/-! ## Package `resolver`: the line of a descriptor -/

namespace resolver

def Skipped : String := "S"
def Listened : String := "L"

/-- The method `Content.String`: the line of the scrobbler log. -/
def Content.String (c : Content) : String :=
  let rating := if c.Rating then Listened else Skipped
  removeTabs c.Artist ++ "\t" ++ removeTabs c.Album ++ "\t" ++ removeTabs c.Track ++ "\t" ++
    removeTabs c.TrackNumber ++ "\t" ++ formatNat c.Duration ++ "\t" ++ rating ++ "\t" ++
    formatInt c.StartedAt ++ "\t"

/-- A descriptor with a MusicBrainz track id and with tabs in its strings. -/
def taggedContent : Content :=
  { Content.empty with
    Artist := "Metal\tlica", Album := "Metallica", Track := "Enter\tSandman",
    TrackNumber := "1", Duration := 365, Rating := true, StartedAt := 1143374412,
    MusicBrainzTID := "62c2e20a-559e-422f-a44c-9afa7882f0c4" }

end resolver

/-! ## Package `server` -/

namespace server

open audioplayer

def CMDListBegin : String := "noidle\ncommand_list_begin\n"
def CMDStatus : String := "status\n"
def CMDCurrentSong : String := "currentsong\n"
def CMDListEnd : String := "command_list_end\nidle\n"

/-- The variable `CMDStatusBatchAll`, the join of the four parts with the empty
separator. -/
def CMDStatusBatchAll : String := CMDListBegin ++ CMDStatus ++ CMDCurrentSong ++ CMDListEnd

def ReplyOK : String := "OK\n"

/-- The map `StateByID` of the server: `none` is a missing key. -/
def StateByID (state : Int) : Option String :=
  if state = StatePause then some "pause"
  else if state = StateExecuting then some "play"
  else none

/-- The string `res` that `Start` formats for the status request. -/
def statusBlock (p : AudioPlayer) : String :=
  let state := match StateByID p.State with
    | some s => s
    | none => "stop"
  "OK\n" ++
    "volume: " ++ formatInt 50 ++ "\n" ++
    "state: " ++ state ++ "\n" ++
    "elapsed: " ++ formatInt p.CurrentTrack.PlayingFor ++ "\n" ++
    "bitrate: " ++ formatInt (goDiv p.CurrentContent.Bitrate 1000) ++ "\n" ++
    "duration: " ++ formatNat p.CurrentContent.Duration ++ "\n" ++
    "file: " ++ p.CurrentTrack.ContentURI ++ "\n" ++
    "audio: " ++ formatInt p.CurrentContent.SampleRate ++ ":" ++
      formatInt p.CurrentContent.BitDepth ++ ":" ++
      formatInt p.CurrentContent.Channels ++ "\n" ++
    "Artist: " ++ p.CurrentContent.Artist ++ "\n" ++
    "Album: " ++ p.CurrentContent.Album ++ "\n" ++
    "Title: " ++ p.CurrentContent.Track ++ "\n" ++
    "Track: " ++ p.CurrentContent.TrackNumber ++ "\n" ++
    "OK\n"

/-- One turn of the loop of a connection in `Start`, for the bytes `input` that the read
returned: the writes on the connection, in order.  An empty read writes nothing. -/
def respond (p : AudioPlayer) (input : String) : List String :=
  if input.length < 1 then []
  else if input = CMDStatusBatchAll then [statusBlock p, ReplyOK]
  else [ReplyOK]

/-- What the client receives for `input`: the writes, one after the other. -/
def reply (p : AudioPlayer) (input : String) : String :=
  String.join (respond p input)

end server

/-! ## Package `logreader`

A byte is a natural number below 256, a slice of bytes a list of them. -/

namespace logreader

/-- The struct `LoggerEntryHeader`. -/
structure LoggerEntryHeader where
  Length : Nat
  Pad : Nat
  Pid : Int
  Tid : Int
  Sec : Int
  NSec : Int
deriving DecidableEq, Repr

def HeaderLength : Nat := 2 + 2 + 4 + 4 + 4 + 4

/-- The leading zero bytes removed. -/
def trimLeft : List Nat → List Nat
  | [] => []
  | x :: xs => if x = 0 then trimLeft xs else x :: xs

/-- The trailing zero bytes removed. -/
def trimRight : List Nat → List Nat
  | [] => []
  | x :: xs => if x = 0 ∧ trimRight xs = [] then [] else x :: trimRight xs

/-- Go `bytes.Trim(b, "\x00")`: the leading and the trailing zero bytes removed. -/
def Trim (b : List Nat) : List Nat := trimRight (trimLeft b)

/-- A little-endian `uint16`. -/
def uint16LE (b0 b1 : Nat) : Nat := (b0 + 256 * b1) % 65536

/-- A little-endian `int32`. -/
def int32LE (b0 b1 b2 b3 : Nat) : Int :=
  (((b0 + 256 * b1 + 65536 * b2 + 16777216 * b3 : Nat) : Int) + 2147483648) % 4294967296
    - 2147483648

/-- The errors of `binary.Read` on a reader of bytes: nothing to read, and fewer bytes than
the struct takes. -/
inductive ReadError
  | EOF
  | ErrUnexpectedEOF
deriving DecidableEq, Repr

/-- Go `binary.Read(buf, binary.LittleEndian, l)` for a `LoggerEntryHeader`, on a reader of
the bytes `b`. -/
def readHeader (b : List Nat) : Except ReadError LoggerEntryHeader :=
  if b.length = 0 then .error ReadError.EOF
  else if b.length < HeaderLength then .error ReadError.ErrUnexpectedEOF
  else
    .ok
      { Length := uint16LE (b.getD 0 0) (b.getD 1 0)
        Pad := uint16LE (b.getD 2 0) (b.getD 3 0)
        Pid := int32LE (b.getD 4 0) (b.getD 5 0) (b.getD 6 0) (b.getD 7 0)
        Tid := int32LE (b.getD 8 0) (b.getD 9 0) (b.getD 10 0) (b.getD 11 0)
        Sec := int32LE (b.getD 12 0) (b.getD 13 0) (b.getD 14 0) (b.getD 15 0)
        NSec := int32LE (b.getD 16 0) (b.getD 17 0) (b.getD 18 0) (b.getD 19 0) }

/-- Go `bytes.ReplaceAll` for patterns of one byte. -/
def ReplaceAll (msg : List Nat) (old new : Nat) : List Nat :=
  msg.map fun x => if x = old then new else x

/-- What the goroutine of `Read` does with one message: it sends a line on `entries`, an
error on `errCh`, or nothing. -/
inductive Handled
  | line (msg : List Nat)
  | error (e : ReadError)
  | nothing
deriving DecidableEq, Repr

/-- One turn of the loop of the goroutine of `Read`, for the message `b`. -/
def handle (b : List Nat) : Handled :=
  if b.length > 0 then
    let b := Trim b
    match readHeader b with
    | .error e => .error e
    | .ok l =>
      if l.Length > 0 then
        let msg := b.drop HeaderLength
        let msg := ReplaceAll msg 10 32
        let msg := ReplaceAll msg 0 9
        .line msg
      else .nothing
  else .nothing

/-- A message as the device hands it over: a header, a payload and `pad` zero bytes up to
the size of the buffer. -/
def frame (hdr payload : List Nat) (pad : Nat) : List Nat :=
  hdr ++ payload ++ List.replicate pad 0

/-- The bytes of a header with the length `length`, the pad 0 and the pid, tid, sec and nsec
1, 2, 3 and 4. -/
def headerBytes (length : Nat) : List Nat :=
  [length % 256, length / 256 % 256, 0, 0, 1, 0, 0, 0, 2, 0, 0, 0, 3, 0, 0, 0, 4, 0, 0, 0]

/-- An entry read into a buffer: such a header, the payload and `pad` zero bytes. -/
def entry (length : Nat) (payload : List Nat) (pad : Nat) : List Nat :=
  frame (headerBytes length) payload pad

end logreader

namespace audioplayer

open resolver playerevents parser

/-- The keys of the map `State`. -/
def stateNames : List String :=
  ["OMX_StateWaitForResources", "OMX_StatePause", "OMX_StateExecuting", "OMX_StateUnknown",
    "OMX_StateInvalid", "OMX_StateLoaded", "OMX_StateIdle"]

/-- The inputs that leave a stamped descriptor that is not attempted: the pipeline goes to
`Executing` before any uri has arrived, a tick stamps the empty descriptor, the pipeline goes
to `Pause`, and the uri `"/a"` arrives. -/
def stampedBeforeURI : List Input :=
  [Input.event (Event.EventPlayerStateChange "OMX_StatePause" "OMX_StateExecuting"),
    Input.tick,
    Input.event (Event.EventPlayerStateChange "OMX_StateExecuting" "OMX_StatePause"),
    Input.event (Event.EventContentURI "/a")]

/-! ## Theorems -/

/-- C1. When `State` is `StorageUnmounted`, `SetState(before, after)` with
`after ≠ StorageMounted` returns `ErrStorageUnmounted` and leaves the whole engine
unchanged; with `after = StorageMounted` it returns no error and `State` becomes
`StorageMounted`. -/
theorem SetState_while_unmounted (p : AudioPlayer) (before after : Int)
    (hState : p.State = StateStorageUnmounted) :
    (after ≠ StateStorageMounted →
      SetState p before after = (p, some Error.ErrStorageUnmounted)) ∧
    (after = StateStorageMounted →
      (SetState p before after).2 = none ∧
      (SetState p before after).1.State = StateStorageMounted) := by
  constructor
  · intro h
    simp [SetState, hState, h]
  · intro h
    subst h
    simp [SetState, hState]

/-- Witness of C1 on the engine of the test "storage unmounted, trying to set wrong
state". -/
theorem SetState_while_unmounted_witness :
    (WithState New StateStorageUnmounted).State = StateStorageUnmounted ∧
    SetState (WithState New StateStorageUnmounted) StateStart StateExecuting =
      (WithState New StateStorageUnmounted, some Error.ErrStorageUnmounted) :=
  ⟨rfl, (SetState_while_unmounted (WithState New StateStorageUnmounted) StateStart
    StateExecuting rfl).1 (by decide)⟩

/-- The method `Resolve` changes nothing in the engine but the count of resolver calls. -/
theorem Resolve_player (env : Env) (p : AudioPlayer) (uri : String) :
    (Resolve env p uri).2 =
      { p with resolverCalls := (Resolve env p uri).2.resolverCalls } := by
  unfold Resolve
  split
  · rfl
  · split
    · rfl
    · split
      · rfl
      · split <;> rfl

/-- The resolution step of `Tick` touches only the descriptor, `minimumListenDuration`
and the count of resolver calls. -/
theorem tickResolve_inl (env : Env) (p q : AudioPlayer)
    (h : tickResolve env p = Sum.inl q) :
    q.State = p.State ∧ q.StateBefore = p.StateBefore ∧ q.CurrentTrack = p.CurrentTrack ∧
    q.NextTrack = p.NextTrack ∧ q.Preparing = p.Preparing ∧ q.divider = p.divider ∧
    q.clockReads = p.clockReads := by
  unfold tickResolve at h
  split at h
  · have hR := Resolve_player env p p.CurrentTrack.ContentURI
    split at h
    · simp at h
    · simp at h
    · simp at h
    · rename_i c p1 heq
      rw [heq] at hR
      simp only at hR
      split at h
      · simp at h
      · simp only [Sum.inl.injEq] at h
        subst h
        rw [hR]
        simp
  · simp only [Sum.inl.injEq] at h
    subst h
    simp

/-- The resolution step of `Tick` does not touch `State`. -/
theorem tickResolve_State (env : Env) (p q : AudioPlayer)
    (h : tickResolve env p = Sum.inl q) : q.State = p.State :=
  (tickResolve_inl env p q h).1

/-- C2. When the resolution step of `Tick` does not fail (it hands the engine `q` to the
rest of the body), `Tick` returns no error and emits a verdict if and only if `State` is
`Executing` and, after `StartedAt` was set and `PlayingFor` incremented, the descriptor is
valid, its rating flag is false and `PlayingFor ≥ minimumListenDuration`; the verdict is
then that descriptor with `Rating = true`, it is the only one, and the rating flag of the
engine is true afterwards.  When `State` is not `Executing` nothing is emitted. -/
theorem Tick_emits_iff (env : Env) (p q : AudioPlayer)
    (hres : tickResolve env p = Sum.inl q) :
    ∃ p' out, Tick env p = TickResult.ok p' out none ∧
      (out ≠ [] ↔ p.State = StateExecuting ∧
          (tickAdvance env q).CurrentContent.Valid = true ∧
          (tickAdvance env q).CurrentContent.Rating = false ∧
          (tickAdvance env q).CurrentTrack.PlayingFor ≥
            (tickAdvance env q).minimumListenDuration) ∧
      (out ≠ [] →
          out = [PlayerEvent.PlayerEventTrackListened
            { (tickAdvance env q).CurrentContent with Rating := true }] ∧
          p'.CurrentContent.Rating = true) ∧
      (p.State ≠ StateExecuting → out = []) := by
  have hS := tickResolve_State env p q hres
  have hT : Tick env p = tickBody env q := by
    unfold Tick
    rw [hres]
  rw [hT]
  unfold tickBody
  rw [hS]
  by_cases hE : p.State = StateExecuting
  · by_cases hV : (tickAdvance env q).CurrentContent.Valid = true
    · by_cases hR : (tickAdvance env q).CurrentContent.Rating = true
      · exact ⟨tickAdvance env q, [], by simp [hE, hV, hR], by simp [hR], by simp, by simp⟩
      · simp only [Bool.not_eq_true] at hR
        by_cases hP : (tickAdvance env q).CurrentTrack.PlayingFor ≥
            (tickAdvance env q).minimumListenDuration
        · exact ⟨{ tickAdvance env q with
              CurrentContent := { (tickAdvance env q).CurrentContent with Rating := true } },
            [PlayerEvent.PlayerEventTrackListened
              { (tickAdvance env q).CurrentContent with Rating := true }],
            by simp [hE, hV, hR, hP], by simp [hE, hV, hR, hP], by simp, by simp [hE]⟩
        · exact ⟨tickAdvance env q, [], by simp [hE, hV, hR, hP], by simp [hP], by simp,
            by simp⟩
    · exact ⟨tickAdvance env q, [], by simp [hE, hV], by simp [hV], by simp, by simp⟩
  · exact ⟨q, [], by simp [hE], by simp [hE], by simp, by simp⟩

/-- Witness of C2: the first tick of the engine playing `/a` with the test resolver and
the test clock. -/
theorem Tick_emits_iff_witness :
    tickResolve testEnv (WithState (WithCurrentTrack New "/a" 4) StateExecuting) =
      Sum.inl { WithState (WithCurrentTrack New "/a" 4) StateExecuting with
        CurrentContent := { Content.empty with
          Artist := "artist", Album := "album", Track := "/a", TrackNumber := "1",
          Duration := 10, Attempted := true }
        minimumListenDuration := 5
        resolverCalls := 1 } ∧
    ∃ p' out, Tick testEnv (WithState (WithCurrentTrack New "/a" 4) StateExecuting) =
        TickResult.ok p' out none ∧ out ≠ [] :=
  ⟨by decide, by
    obtain ⟨p', out, h1, h2, -, -⟩ :=
      Tick_emits_iff testEnv (WithState (WithCurrentTrack New "/a" 4) StateExecuting) _
        (by decide :
          tickResolve testEnv (WithState (WithCurrentTrack New "/a" 4) StateExecuting) =
          Sum.inl { WithState (WithCurrentTrack New "/a" 4) StateExecuting with
            CurrentContent := { Content.empty with
              Artist := "artist", Album := "album", Track := "/a", TrackNumber := "1",
              Duration := 10, Attempted := true }
            minimumListenDuration := 5
            resolverCalls := 1 })
    exact ⟨p', out, h1, h2.mpr (by decide)⟩⟩

/-- What `DestroyTrack` sends: the descriptor as it was, under the three conditions of
its guard, and nothing otherwise. -/
theorem DestroyTrack_out (p : AudioPlayer) (s : String) :
    (DestroyTrack p s).2 =
      (if p.CurrentContent.Valid = true ∧ p.CurrentContent.Rating = false ∧
          p.CurrentTrack.PlayingFor > 2 then
        [PlayerEvent.PlayerEventTrackListened p.CurrentContent]
      else []) := by
  unfold DestroyTrack
  by_cases hV : p.CurrentContent.Valid = true <;>
    by_cases hR : p.CurrentContent.Rating = true <;>
    by_cases hP : p.CurrentTrack.PlayingFor > 2 <;>
    simp [hV, hR, hP]

/-- A verdict of `DestroyTrack` is the descriptor as it was, valid and unrated. -/
theorem DestroyTrack_out_mem (p : AudioPlayer) (s : String) (v : PlayerEvent)
    (hv : v ∈ (DestroyTrack p s).2) :
    v.Content = p.CurrentContent ∧ v.Content.Rating = false ∧ v.Content.Valid = true := by
  rw [DestroyTrack_out] at hv
  split at hv
  · rename_i hc
    simp only [List.mem_singleton] at hv
    subst hv
    exact ⟨rfl, hc.2.1, hc.1⟩
  · simp at hv

/-- `SetContentURI` touches neither the descriptor nor the clock. -/
theorem SetContentURI_keeps (p : AudioPlayer) (uri : String) :
    (SetContentURI p uri).CurrentContent = p.CurrentContent ∧
    (SetContentURI p uri).clockReads = p.clockReads := by
  unfold SetContentURI
  split <;> exact ⟨rfl, rfl⟩

/-- C3. `DestroyTrack` emits exactly one verdict when the current descriptor is valid, its
rating flag is false and `PlayingFor > 2`, and none otherwise; the verdict is the
descriptor as it was before the call, whose rating flag is false. -/
theorem DestroyTrack_emits (p : AudioPlayer) (s : String) :
    (DestroyTrack p s).2 =
      (if p.CurrentContent.Valid = true ∧ p.CurrentContent.Rating = false ∧
          p.CurrentTrack.PlayingFor > 2 then
        [PlayerEvent.PlayerEventTrackListened p.CurrentContent]
      else []) ∧
    ∀ v ∈ (DestroyTrack p s).2, v.Content = p.CurrentContent ∧ v.Content.Rating = false := by
  unfold DestroyTrack
  by_cases hV : p.CurrentContent.Valid = true <;>
    by_cases hR : p.CurrentContent.Rating = true <;>
    by_cases hP : p.CurrentTrack.PlayingFor > 2 <;>
    simp [hV, hR, hP, PlayerEvent.Content]

/-- C7. `Valid` holds exactly when artist, title, duration and `StartedAt` are all
non-empty / non-zero, and every verdict emitted by `Tick` or by `DestroyTrack`, from any
engine state, carries a valid descriptor. -/
theorem verdicts_are_valid (env : Env) (p : AudioPlayer) (s : String) :
    (∀ c : Content, c.Valid = true ↔
      (c.Artist ≠ "" ∧ c.Track ≠ "" ∧ c.Duration ≠ 0 ∧ c.StartedAt ≠ 0)) ∧
    (∀ p' out err, Tick env p = TickResult.ok p' out err →
      ∀ v ∈ out, v.Content.Valid = true) ∧
    (∀ v ∈ (DestroyTrack p s).2, v.Content.Valid = true) := by
  refine ⟨?_, ?_, ?_⟩
  · intro c
    simp [Content.Valid]
    tauto
  · intro p' out err h v hv
    unfold Tick at h
    split at h
    · rename_i r hr
      unfold tickResolve at hr
      split at hr
      · split at hr
        all_goals first
          | (simp at hr; subst hr; simp at h; done)
          | (simp at hr; subst hr; simp at h; obtain ⟨-, rfl, -⟩ := h; simp at hv)
          | skip
        split at hr <;> simp at hr
        subst hr
        simp at h
      · simp at hr
    · rename_i q hq
      unfold tickBody at h
      split at h
      · simp at h
        obtain ⟨-, rfl, -⟩ := h
        simp at hv
      · simp only at h
        split at h
        · simp at h
          obtain ⟨-, rfl, -⟩ := h
          simp at hv
        · rename_i hV
          split at h
          · simp at h
            obtain ⟨-, rfl, -⟩ := h
            simp at hv
            subst hv
            simp only [Bool.not_eq_true, Bool.not_eq_true', Bool.not_eq_false] at hV
            simpa [PlayerEvent.Content, Content.Valid] using hV
          · simp at h
            obtain ⟨-, rfl, -⟩ := h
            simp at hv
  · intro v hv
    unfold DestroyTrack at hv
    simp only at hv
    split at hv
    · rename_i hc
      simp at hv
      subst hv
      simp at hc
      simpa [PlayerEvent.Content] using hc.1.2
    · simp at hv

/-- C10. `SetContentURI(uri)`: when `Preparing` is true and the current uri is non-empty
it sets the uri of the next slot, clears `Preparing` and leaves the current slot
unchanged; otherwise it sets the uri of the current slot, resets its `PlayingFor` and
leaves the next slot and `Preparing` unchanged.  In both cases `State`, `StateBefore`,
both track ids and the current descriptor are unchanged. -/
theorem SetContentURI_routes (p : AudioPlayer) (uri : String) :
    ((p.Preparing = true ∧ p.CurrentTrack.ContentURI ≠ "") →
      (SetContentURI p uri).NextTrack.ContentURI = uri ∧
      (SetContentURI p uri).Preparing = false ∧
      (SetContentURI p uri).CurrentTrack = p.CurrentTrack) ∧
    (¬ (p.Preparing = true ∧ p.CurrentTrack.ContentURI ≠ "") →
      (SetContentURI p uri).CurrentTrack.ContentURI = uri ∧
      (SetContentURI p uri).CurrentTrack.PlayingFor = 0 ∧
      (SetContentURI p uri).NextTrack = p.NextTrack ∧
      (SetContentURI p uri).Preparing = p.Preparing) ∧
    (SetContentURI p uri).State = p.State ∧
    (SetContentURI p uri).StateBefore = p.StateBefore ∧
    (SetContentURI p uri).CurrentTrack.TrackID = p.CurrentTrack.TrackID ∧
    (SetContentURI p uri).NextTrack.TrackID = p.NextTrack.TrackID ∧
    (SetContentURI p uri).CurrentContent = p.CurrentContent := by
  unfold SetContentURI
  by_cases hP : p.Preparing = true <;>
    by_cases hU : p.CurrentTrack.ContentURI = "" <;>
    simp [hP, hU]

/-- What `Tick` does to `PlayingFor`: it leaves it unchanged, or `State` is `Executing`
and it is incremented (with wrap-around). -/
theorem Tick_PlayingFor (env : Env) (p p' : AudioPlayer) (out : List PlayerEvent)
    (err : Option Error) (h : Tick env p = TickResult.ok p' out err) :
    p'.CurrentTrack.PlayingFor = p.CurrentTrack.PlayingFor ∨
    (p.State = StateExecuting ∧
      p'.CurrentTrack.PlayingFor = wrapInt (p.CurrentTrack.PlayingFor + 1)) := by
  unfold Tick at h
  split at h
  · rename_i r hr
    subst h
    unfold tickResolve at hr
    split at hr
    · have hR := Resolve_player env p p.CurrentTrack.ContentURI
      split at hr
      · simp at hr
      · simp at hr
      · rename_i c e p1 heq
        rw [heq] at hR
        simp only at hR
        simp only [Sum.inr.injEq, TickResult.ok.injEq] at hr
        obtain ⟨rfl, -, -⟩ := hr
        left
        rw [hR]
      · split at hr <;> simp at hr
    · simp at hr
  · rename_i q hq
    obtain ⟨hS, -, hT, -⟩ := tickResolve_inl env p q hq
    unfold tickBody at h
    rw [hS] at h
    by_cases hE : p.State = StateExecuting
    · right
      refine ⟨hE, ?_⟩
      have hA : (tickAdvance env q).CurrentTrack.PlayingFor =
          wrapInt (p.CurrentTrack.PlayingFor + 1) := by
        unfold tickAdvance
        split <;> simp [hT]
      simp only [hE, ne_eq, not_true_eq_false, if_false] at h
      split at h
      · simp only [TickResult.ok.injEq] at h
        obtain ⟨rfl, -, -⟩ := h
        exact hA
      · split at h
        · simp only [TickResult.ok.injEq] at h
          obtain ⟨rfl, -, -⟩ := h
          exact hA
        · simp only [TickResult.ok.injEq] at h
          obtain ⟨rfl, -, -⟩ := h
          exact hA
    · left
      simp only [hE, ne_eq, not_false_eq_true, if_true, TickResult.ok.injEq] at h
      obtain ⟨rfl, -, -⟩ := h
      rw [hT]

/-- What an operation of the engine other than `Tick` does to `PlayingFor`: it keeps it or
sets it to 0. -/
theorem PlayingFor_kept_or_zero (p : AudioPlayer) :
    (∀ b a, (SetState p b a).1.CurrentTrack.PlayingFor = p.CurrentTrack.PlayingFor) ∧
    (∀ uri, (SetContentURI p uri).CurrentTrack.PlayingFor = p.CurrentTrack.PlayingFor ∨
      (SetContentURI p uri).CurrentTrack.PlayingFor = 0) ∧
    (Stop p).CurrentTrack.PlayingFor = 0 ∧
    (∀ s, (CreateTrack p s).CurrentTrack.PlayingFor = p.CurrentTrack.PlayingFor) ∧
    (∀ s, (DestroyTrack p s).1.CurrentTrack.PlayingFor = p.CurrentTrack.PlayingFor ∨
      (DestroyTrack p s).1.CurrentTrack.PlayingFor = 0) := by
  refine ⟨?_, ?_, ?_, ?_, ?_⟩
  · intro b a
    have h : (SetState p b a).1.CurrentTrack = p.CurrentTrack := by
      unfold SetState
      repeat' split
      all_goals rfl
    rw [h]
  · intro uri
    unfold SetContentURI
    split <;> simp
  · unfold Stop
    simp only
    split <;> rfl
  · intro s
    rfl
  · intro s
    unfold DestroyTrack
    simp only
    repeat' split
    all_goals simp

/-- One iteration of the loop of `Consume` keeps the counter `PlayingFor` at or above 0 and
raises it by at most 1, as long as it stays in the range of an `int`. -/
theorem step_PlayingFor_range (env : Env) (p : AudioPlayer) (i : Input) (k : Int)
    (h0 : 0 ≤ p.CurrentTrack.PlayingFor) (hk : p.CurrentTrack.PlayingFor ≤ k)
    (hmax : k < 9223372036854775807) :
    0 ≤ (step env p i).player.CurrentTrack.PlayingFor ∧
    (step env p i).player.CurrentTrack.PlayingFor ≤ k + 1 := by
  obtain ⟨hS, hU, hStop, hC, hD⟩ := PlayingFor_kept_or_zero p
  cases i with
  | event e =>
    cases e with
    | EventPlayerStateChange b a =>
      show 0 ≤ (SetState p (State b) (State a)).1.CurrentTrack.PlayingFor ∧
        (SetState p (State b) (State a)).1.CurrentTrack.PlayingFor ≤ k + 1
      rw [hS (State b) (State a)]
      omega
    | EventStorageUnmounting =>
      show 0 ≤ (Stop (SetState p p.StateBefore StateStorageUnmounted).1).CurrentTrack.PlayingFor ∧
        (Stop (SetState p p.StateBefore StateStorageUnmounted).1).CurrentTrack.PlayingFor ≤ k + 1
      rw [(PlayingFor_kept_or_zero _).2.2.1]
      omega
    | EventStorageMounted =>
      show 0 ≤ (SetState p p.StateBefore StateStorageMounted).1.CurrentTrack.PlayingFor ∧
        (SetState p p.StateBefore StateStorageMounted).1.CurrentTrack.PlayingFor ≤ k + 1
      rw [hS p.StateBefore StateStorageMounted]
      omega
    | EventContentURI uri =>
      show 0 ≤ (SetContentURI p uri).CurrentTrack.PlayingFor ∧
        (SetContentURI p uri).CurrentTrack.PlayingFor ≤ k + 1
      rcases hU uri with h | h <;> rw [h] <;> omega
    | EventEndOfStream =>
      show 0 ≤ (Stop p).CurrentTrack.PlayingFor ∧ (Stop p).CurrentTrack.PlayingFor ≤ k + 1
      rw [hStop]
      omega
    | EventPreparing =>
      show 0 ≤ p.CurrentTrack.PlayingFor ∧ p.CurrentTrack.PlayingFor ≤ k + 1
      omega
    | EventTrackDestroyed id =>
      show 0 ≤ (DestroyTrack p id).1.CurrentTrack.PlayingFor ∧
        (DestroyTrack p id).1.CurrentTrack.PlayingFor ≤ k + 1
      rcases hD id with h | h <;> rw [h] <;> omega
    | EventTrackCreated id =>
      show 0 ≤ (CreateTrack p id).CurrentTrack.PlayingFor ∧
        (CreateTrack p id).CurrentTrack.PlayingFor ≤ k + 1
      rw [hC]
      omega
    | other n =>
      show 0 ≤ p.CurrentTrack.PlayingFor ∧ p.CurrentTrack.PlayingFor ≤ k + 1
      omega
  | tick =>
    simp only [step]
    split
    · simp only
      omega
    · rename_i p1 out hT
      simp only
      rcases Tick_PlayingFor env p _ out _ hT with h | ⟨_, h⟩
      · rw [h]
        omega
      · rw [h]
        unfold wrapInt
        omega
    · rename_i p1 out e hT
      simp only
      rcases Tick_PlayingFor env p _ out _ hT with h | ⟨_, h⟩
      · rw [h]
        omega
      · rw [h]
        unfold wrapInt
        omega

/-- The counter `PlayingFor` is never negative in a running engine: along the inputs that
`Consume` handles it stays at or above 0 and rises by at most 1 per input, as long as it
stays in the range of an `int`. -/
theorem Consume_PlayingFor_range (env : Env) (ins : List Input) (p : AudioPlayer) (k : Int)
    (h0 : 0 ≤ p.CurrentTrack.PlayingFor) (hk : p.CurrentTrack.PlayingFor ≤ k)
    (hmax : k + (ins.length : Int) < 9223372036854775808) :
    0 ≤ (Consume env p ins).player.CurrentTrack.PlayingFor ∧
    (Consume env p ins).player.CurrentTrack.PlayingFor ≤ k + (ins.length : Int) := by
  induction ins generalizing p k with
  | nil =>
    show 0 ≤ p.CurrentTrack.PlayingFor ∧ p.CurrentTrack.PlayingFor ≤ k + ((0 : Nat) : Int)
    omega
  | cons i rest ih =>
    have hlen : ((i :: rest).length : Int) = (rest.length : Int) + 1 := by
      simp
    rw [hlen] at hmax ⊢
    have hs := step_PlayingFor_range env p i k h0 hk (by omega)
    simp only [Consume]
    by_cases hp : (step env p i).panicked = true
    · rw [if_pos hp]
      omega
    · rw [if_neg hp]
      have h := ih (step env p i).player (k + 1) hs.1 hs.2 (by omega)
      simp only
      omega

/-- A run of fewer than 2^63 inputs from a fresh engine ends with a counter `PlayingFor`
that is not negative. -/
theorem PlayingFor_nonneg (env : Env) (ins : List Input)
    (hlen : (ins.length : Int) < 9223372036854775808) :
    0 ≤ (Consume env New ins).player.CurrentTrack.PlayingFor :=
  (Consume_PlayingFor_range env ins New 0 (by decide) (by decide) (by omega)).1

/-- C8. The counter `PlayingFor` of a running engine is never negative (it is written as 0
and by `++` only, `PlayingFor_nonneg`).  From such an engine state an operation makes
`PlayingFor` larger only if it is `Tick` and `State` is `Executing`, and then by exactly
1; every operation other than `Tick` leaves it unchanged or sets it to 0. -/
theorem PlayingFor_advances_only_in_Tick (env : Env) (p p' : AudioPlayer) (op : Op)
    (h0 : 0 ≤ p.CurrentTrack.PlayingFor)
    (hrun : op.run env p = some p') :
    (p'.CurrentTrack.PlayingFor > p.CurrentTrack.PlayingFor →
      op = Op.Tick ∧ p.State = StateExecuting ∧
      p'.CurrentTrack.PlayingFor = p.CurrentTrack.PlayingFor + 1) ∧
    (op ≠ Op.Tick →
      p'.CurrentTrack.PlayingFor = p.CurrentTrack.PlayingFor ∨
      p'.CurrentTrack.PlayingFor = 0) := by
  cases op with
  | SetState b a =>
    simp only [Op.run, Option.some.injEq] at hrun
    subst hrun
    have : (SetState p b a).1.CurrentTrack = p.CurrentTrack := by
      unfold SetState
      repeat' split
      all_goals rfl
    rw [this]
    simp
  | SetContentURI uri =>
    simp only [Op.run, Option.some.injEq] at hrun
    subst hrun
    unfold SetContentURI
    split
    · simp
    · simp only [gt_iff_lt, ne_eq, not_false_eq_true, or_true, implies_true, and_true]
      intro h
      omega
  | Stop =>
    simp only [Op.run, Option.some.injEq] at hrun
    subst hrun
    have : (Stop p).CurrentTrack.PlayingFor = 0 := by
      unfold Stop
      simp only
      split <;> rfl
    rw [this]
    simp only [gt_iff_lt, ne_eq, not_false_eq_true, or_true, implies_true, and_true]
    intro h
    omega
  | CreateTrack s =>
    simp only [Op.run, Option.some.injEq] at hrun
    subst hrun
    simp [CreateTrack]
  | DestroyTrack s =>
    simp only [Op.run, Option.some.injEq] at hrun
    subst hrun
    have : (DestroyTrack p s).1.CurrentTrack.PlayingFor = p.CurrentTrack.PlayingFor ∨
        (DestroyTrack p s).1.CurrentTrack.PlayingFor = 0 := by
      unfold DestroyTrack
      simp only
      repeat' split
      all_goals simp
    refine ⟨?_, fun _ => this⟩
    intro h
    omega
  | Tick =>
    simp only [Op.run] at hrun
    split at hrun
    · rename_i p1 out err hT
      simp only [Option.some.injEq] at hrun
      subst hrun
      refine ⟨?_, by simp⟩
      intro hgt
      rcases Tick_PlayingFor env p _ out err hT with h | ⟨hE, h⟩
      · omega
      · refine ⟨rfl, hE, ?_⟩
        rw [h] at hgt ⊢
        unfold wrapInt at hgt ⊢
        omega
    · simp at hrun

/-- Witness of C8: the fifth tick of a track that is playing. -/
theorem PlayingFor_advances_only_in_Tick_witness :
    (0 : Int) ≤ (WithState (WithCurrentTrack New "/a" 4) StateExecuting).CurrentTrack.PlayingFor ∧
    (∃ p', Op.run testEnv (WithState (WithCurrentTrack New "/a" 4) StateExecuting) Op.Tick =
        some p' ∧
      p'.CurrentTrack.PlayingFor =
        (WithState (WithCurrentTrack New "/a" 4) StateExecuting).CurrentTrack.PlayingFor + 1) :=
  ⟨by decide, _, rfl,
    ((PlayingFor_advances_only_in_Tick testEnv
      (WithState (WithCurrentTrack New "/a" 4) StateExecuting) _ Op.Tick
      (by decide) rfl).1 (by decide)).2.2⟩

/-- C9. With a resolver configured, `Attempted` false and a current uri that is neither
empty nor a beep, `Tick` panics when the resolver returns an error: `Resolve` returns a
nil pointer with the error, `Tick` stores it in `CurrentContent` and then assigns
`p.CurrentContent.Attempted`. -/
theorem Tick_panics_on_resolver_error (env : Env) (p : AudioPlayer) (r : Resolver)
    (e : Error) (hr : env.resolver = some r)
    (hA : p.CurrentContent.Attempted = false) (hU : p.CurrentTrack.ContentURI ≠ "")
    (hB : Contains p.CurrentTrack.ContentURI BeepIgnore = false)
    (hE : (r p.resolverCalls p.CurrentTrack.ContentURI).err = some e) :
    Tick env p = TickResult.panic := by
  have hRes : (Resolve env p p.CurrentTrack.ContentURI).1 = ResolveOutcome.ret none (some e) := by
    unfold Resolve
    simp only [hU, if_false, hB, Bool.false_eq_true, hr]
    split
    · rename_i c e' heq
      rw [heq] at hE
      simp only [Option.some.injEq] at hE
      subst hE
      rfl
    · rename_i heq
      rw [heq] at hE
      simp at hE
    · rename_i c heq
      rw [heq] at hE
      simp at hE
  have hTR : tickResolve env p = Sum.inr TickResult.panic := by
    unfold tickResolve
    have hc : (!p.CurrentContent.Attempted && p.CurrentTrack.ContentURI != "") = true := by
      simp [hA, hU]
    rw [if_pos hc]
    generalize Resolve env p p.CurrentTrack.ContentURI = X at hRes
    obtain ⟨o, p1⟩ := X
    simp only at hRes
    subst hRes
    rfl
  unfold Tick
  rw [hTR]

/-- Witness of C9: the first tick of a fresh engine with the failing resolver and the
current uri `/a`. -/
theorem Tick_panics_on_resolver_error_witness :
    (WithCurrentTrack New "/a" 0).CurrentContent.Attempted = false ∧
    Tick { resolver := some failingResolver, clock := staticClock }
      (WithCurrentTrack New "/a" 0) = TickResult.panic :=
  ⟨rfl, Tick_panics_on_resolver_error
    { resolver := some failingResolver, clock := staticClock }
    (WithCurrentTrack New "/a" 0) failingResolver (Error.other "cannot scan row") rfl rfl
    (by decide) (by decide) rfl⟩

/-- Handling `l1 ++ l2` is handling `l1` and then, unless that panicked, `l2`. -/
theorem Consume_append (env : Env) (l1 l2 : List Input) (p : AudioPlayer)
    (h : (Consume env p l1).panicked = false) :
    Consume env p (l1 ++ l2) =
      { player := (Consume env (Consume env p l1).player l2).player
        emitted := (Consume env p l1).emitted ++ (Consume env (Consume env p l1).player l2).emitted
        errors := (Consume env p l1).errors ++ (Consume env (Consume env p l1).player l2).errors
        panicked := (Consume env (Consume env p l1).player l2).panicked } := by
  induction l1 generalizing p with
  | nil => simp [Consume]
  | cons i rest ih =>
    rw [List.cons_append]
    simp only [Consume] at h ⊢
    by_cases hp : (step env p i).panicked = true
    · simp [hp] at h
    · simp only [hp, Bool.false_eq_true, if_false] at h ⊢
      rw [ih _ h]
      simp [List.append_assoc]

/-- A tick of an engine whose descriptor was already attempted goes straight to the
body of `Tick`. -/
theorem Tick_of_attempted (env : Env) (p : AudioPlayer)
    (h : p.CurrentContent.Attempted = true) : Tick env p = tickBody env p := by
  unfold Tick tickResolve
  simp [h]

/-- Handling one tick when `Tick` returns nil. -/
theorem step_tick_ok (env : Env) (p p' : AudioPlayer) (out : List PlayerEvent)
    (h : Tick env p = TickResult.ok p' out none) :
    step env p Input.tick =
      { player := p', emitted := out, errors := [], panicked := false } := by
  simp [step, h]

/-- A value in the range of `int` is not changed by the wrap-around. -/
theorem wrapInt_of_range (x : Int) (h1 : -9223372036854775808 ≤ x)
    (h2 : x < 9223372036854775808) : wrapInt x = x := by
  unfold wrapInt
  omega

/-- The body of `Tick` on a track that is playing and stays below the threshold: no
verdict, one more second played, `StartedAt` set. -/
theorem tickBody_playing_below (env : Env) (m i : Int) (q : AudioPlayer)
    (hq : Playing m i q) (hclock : ∀ n, env.clock n ≠ 0)
    (h0 : 0 ≤ i) (hi : i + 1 < 9223372036854775808) (hlt : i + 1 < m) :
    ∃ p', tickBody env q = TickResult.ok p' [] none ∧ Playing m (i + 1) p' ∧
      p'.CurrentContent.StartedAt ≠ 0 ∧ p'.CurrentTrack.TrackID = q.CurrentTrack.TrackID := by
  have hw : wrapInt (q.CurrentTrack.PlayingFor + 1) = i + 1 := by
    rw [hq.playingFor]
    exact wrapInt_of_range _ (by omega) hi
  have hA : Playing m (i + 1) (tickAdvance env q) ∧
      (tickAdvance env q).CurrentContent.StartedAt ≠ 0 ∧
      (tickAdvance env q).CurrentTrack.TrackID = q.CurrentTrack.TrackID := by
    unfold tickAdvance
    by_cases hs : q.CurrentContent.StartedAt = 0
    · simp only [hs, if_true]
      exact ⟨⟨hq.state, hq.attempted, hq.rating, hq.artist, hq.track, hq.duration, hw,
        hq.minimum⟩, hclock _, trivial⟩
    · simp only [hs, if_false]
      exact ⟨⟨hq.state, hq.attempted, hq.rating, hq.artist, hq.track, hq.duration, hw,
        hq.minimum⟩, hs, trivial⟩
  obtain ⟨hP, hS, hT⟩ := hA
  refine ⟨tickAdvance env q, ?_, hP, hS, hT⟩
  unfold tickBody
  have hV : (tickAdvance env q).CurrentContent.Valid = true := by
    simp [Content.Valid, hP.artist, hP.track, hP.duration, hS]
  have hN : ¬ ((tickAdvance env q).CurrentTrack.PlayingFor ≥
      (tickAdvance env q).minimumListenDuration) := by
    rw [hP.playingFor, hP.minimum]
    omega
  simp [hq.state, hV, hN]

/-- The body of `Tick` on a track that is playing and reaches the threshold: one
listened verdict. -/
theorem tickBody_playing_reaches (env : Env) (m i : Int) (q : AudioPlayer)
    (hq : Playing m i q) (hclock : ∀ n, env.clock n ≠ 0)
    (h0 : 0 ≤ i) (hi : i + 1 < 9223372036854775808) (hge : m ≤ i + 1) :
    ∃ p' v, tickBody env q = TickResult.ok p' [v] none ∧ Rated p' ∧ v.listened = true := by
  have hw : wrapInt (q.CurrentTrack.PlayingFor + 1) = i + 1 := by
    rw [hq.playingFor]
    exact wrapInt_of_range _ (by omega) hi
  have hA : Playing m (i + 1) (tickAdvance env q) ∧
      (tickAdvance env q).CurrentContent.StartedAt ≠ 0 := by
    unfold tickAdvance
    by_cases hs : q.CurrentContent.StartedAt = 0
    · simp only [hs, if_true]
      exact ⟨⟨hq.state, hq.attempted, hq.rating, hq.artist, hq.track, hq.duration, hw,
        hq.minimum⟩, hclock _⟩
    · simp only [hs, if_false]
      exact ⟨⟨hq.state, hq.attempted, hq.rating, hq.artist, hq.track, hq.duration, hw,
        hq.minimum⟩, hs⟩
  obtain ⟨hP, hS⟩ := hA
  have hV : (tickAdvance env q).CurrentContent.Valid = true := by
    simp [Content.Valid, hP.artist, hP.track, hP.duration, hS]
  have hN : (tickAdvance env q).CurrentTrack.PlayingFor ≥
      (tickAdvance env q).minimumListenDuration := by
    rw [hP.playingFor, hP.minimum]
    omega
  refine ⟨{ tickAdvance env q with
      CurrentContent := { (tickAdvance env q).CurrentContent with Rating := true } },
    PlayerEvent.PlayerEventTrackListened
      { (tickAdvance env q).CurrentContent with Rating := true }, ?_, ?_, rfl⟩
  · unfold tickBody
    simp [hq.state, hV, hN, hP.rating]
  · exact ⟨hP.state, hP.attempted, rfl⟩

/-- A tick of a track whose listened verdict was emitted: no verdict, no error. -/
theorem Tick_rated (env : Env) (p : AudioPlayer) (hp : Rated p) :
    ∃ p', Tick env p = TickResult.ok p' [] none ∧ Rated p' := by
  rw [Tick_of_attempted env p hp.attempted]
  have hA : Rated (tickAdvance env p) := by
    unfold tickAdvance
    split
    · exact ⟨hp.state, hp.attempted, hp.rating⟩
    · exact ⟨hp.state, hp.attempted, hp.rating⟩
  refine ⟨tickAdvance env p, ?_, hA⟩
  unfold tickBody
  simp only [hp.state, ne_eq, not_true_eq_false, if_false]
  split
  · rfl
  · simp [hA.rating]

/-- Any number of ticks of a track whose listened verdict was emitted: no verdict. -/
theorem ticks_rated (env : Env) (k : Nat) (p : AudioPlayer) (hp : Rated p) :
    (Consume env p (List.replicate k Input.tick)).panicked = false ∧
    (Consume env p (List.replicate k Input.tick)).emitted = [] ∧
    Rated (Consume env p (List.replicate k Input.tick)).player := by
  induction k generalizing p with
  | zero => exact ⟨rfl, rfl, hp⟩
  | succ k ih =>
    obtain ⟨p', hT, hp'⟩ := Tick_rated env p hp
    obtain ⟨h1, h2, h3⟩ := ih p' hp'
    rw [List.replicate_succ]
    simp only [Consume, step_tick_ok env p p' [] hT, Bool.false_eq_true, if_false,
      List.nil_append]
    exact ⟨h1, h2, h3⟩

/-- The ticks of a track that is playing, `i` seconds so far and below the threshold `m`:
no verdict as long as the threshold is not reached, then one listened verdict. -/
theorem ticks_playing (env : Env) (m : Int) (hclock : ∀ n, env.clock n ≠ 0)
    (hm : m < 4611686018427387904) (k : Nat) (i : Int) (p : AudioPlayer)
    (hp : Playing m i p) (h0 : 0 ≤ i) (hle : i ≤ m) :
    (Consume env p (List.replicate k Input.tick)).panicked = false ∧
    (i + k < m →
      (Consume env p (List.replicate k Input.tick)).emitted = [] ∧
      Playing m (i + k) (Consume env p (List.replicate k Input.tick)).player ∧
      (Consume env p (List.replicate k Input.tick)).player.CurrentTrack.TrackID =
        p.CurrentTrack.TrackID ∧
      (1 ≤ k → (Consume env p (List.replicate k Input.tick)).player.CurrentContent.StartedAt
        ≠ 0)) ∧
    (1 ≤ k → m ≤ i + k →
      (∃ v, (Consume env p (List.replicate k Input.tick)).emitted = [v] ∧ v.listened = true) ∧
      Rated (Consume env p (List.replicate k Input.tick)).player) := by
  induction k generalizing i p with
  | zero =>
    refine ⟨rfl, fun _ => ⟨rfl, ?_, rfl, by simp⟩, fun h => ?_⟩
    · simpa [Consume] using hp
    · simp at h
  | succ k ih =>
    rw [List.replicate_succ]
    by_cases hb : i + 1 < m
    · obtain ⟨p', hT, hp', hS, hID⟩ := tickBody_playing_below env m i p hp hclock h0 (by omega) hb
      rw [← Tick_of_attempted env p hp.attempted] at hT
      obtain ⟨h1, h2, h3⟩ := ih (i + 1) p' hp' (by omega) (by omega)
      simp only [Consume, step_tick_ok env p p' [] hT, Bool.false_eq_true, if_false,
        List.nil_append]
      refine ⟨h1, fun h => ?_, fun h => ?_⟩
      · obtain ⟨e1, e2, e3, e4⟩ := h2 (by push_cast at h ⊢; omega)
        refine ⟨e1, ?_, by rw [e3, hID], fun _ => ?_⟩
        · have : i + ((k + 1 : Nat) : Int) = i + 1 + (k : Int) := by push_cast; omega
          rw [this]
          exact e2
        · rcases Nat.eq_zero_or_pos k with hk | hk
          · subst hk
            simpa [Consume] using hS
          · exact e4 hk
      · intro h'
        push_cast at h'
        exact h3 (by omega) (by omega)
    · obtain ⟨p', v, hT, hp', hv⟩ :=
        tickBody_playing_reaches env m i p hp hclock h0 (by omega) (by omega)
      rw [← Tick_of_attempted env p hp.attempted] at hT
      obtain ⟨h1, h2, h3⟩ := ticks_rated env k p' hp'
      simp only [Consume, step_tick_ok env p p' [v] hT, Bool.false_eq_true, if_false]
      refine ⟨h1, fun h => ?_, fun _ _ => ⟨⟨v, by simp [h2], hv⟩, h3⟩⟩
      push_cast at h
      omega

/-- The threshold `int(Duration) / 2` of a duration that `int` holds. -/
theorem goDiv_duration (d : Nat) (hd : d < 9223372036854775808) :
    goDiv (intOfUint d) 2 = ((d / 2 : Nat) : Int) := by
  have h1 : intOfUint d = (d : Int) := by
    unfold intOfUint
    exact wrapInt_of_range _ (by omega) (by omega)
  unfold goDiv
  rw [h1, Int.tdiv_eq_ediv (by omega) (by omega)]
  unfold wrapInt
  omega

/-- The first three inputs of `playSequence` bring a fresh engine to `startedEngine`. -/
theorem Consume_start (env : Env) (u t b : String) :
    Consume env (WithListenPercent New 50)
      [Input.event (Event.EventContentURI u), Input.event (Event.EventTrackCreated t),
        Input.event (Event.EventPlayerStateChange b "OMX_StateExecuting")] =
      { player := startedEngine u t, emitted := [], errors := [none], panicked := false } := by
  have hW : WithListenPercent New 50 = New := by decide
  have hst : State "OMX_StateExecuting" = StateExecuting := by decide
  rw [hW]
  simp only [Consume, step, hst]
  simp [SetContentURI, CreateTrack, SetState, StateStart, StateExecuting,
    StateStorageUnmounted, StateStorageMounted, startedEngine, New]

/-- The body of `Tick` does not panic. -/
theorem tickBody_ne_panic (env : Env) (p : AudioPlayer) :
    tickBody env p ≠ TickResult.panic := by
  unfold tickBody
  split
  · simp
  · simp only
    split
    · simp
    · split <;> simp

/-- Two engines on which `Tick` does the same (and does not panic) handle a tick and
what follows it in the same way. -/
theorem Consume_tick_congr (env : Env) (p q : AudioPlayer) (rest : List Input)
    (h : Tick env p = Tick env q) (hn : Tick env q ≠ TickResult.panic) :
    Consume env p (Input.tick :: rest) = Consume env q (Input.tick :: rest) := by
  have hs : step env p Input.tick = step env q Input.tick := by
    simp only [step, h]
    cases hq : Tick env q with
    | panic => exact absurd hq hn
    | ok p1 out err => cases err <;> rfl
  simp only [Consume, hs]

/-- The first tick of `startedEngine` resolves the uri and goes on as a tick of a track
that is playing. -/
theorem Tick_startedEngine (r : Resolver) (clock : Clock) (c : Content) (u t : String)
    (hr : r 0 u = { content := some c, err := none })
    (hd : c.Duration < 9223372036854775808)
    (hu : u ≠ "") (hbeep : Contains u BeepIgnore = false) :
    Tick { resolver := some r, clock := clock } (startedEngine u t) =
      Tick { resolver := some r, clock := clock }
        (resolvedEngine c ((c.Duration / 2 : Nat) : Int) u t) := by
  have hRes : Resolve { resolver := some r, clock := clock } (startedEngine u t) u =
      (ResolveOutcome.ret (some c) none,
        { startedEngine u t with resolverCalls := 1 }) := by
    unfold Resolve
    simp only [hu, if_false, hbeep, Bool.false_eq_true]
    have : (startedEngine u t).resolverCalls = 0 := rfl
    rw [this, hr]
  have hL : Tick { resolver := some r, clock := clock } (startedEngine u t) =
      tickBody { resolver := some r, clock := clock }
        (resolvedEngine c ((c.Duration / 2 : Nat) : Int) u t) := by
    unfold Tick tickResolve
    have h1 : (startedEngine u t).CurrentTrack.ContentURI = u := rfl
    have h2 : (startedEngine u t).CurrentContent.Attempted = false := rfl
    rw [h1, h2, hRes]
    have h3 : (startedEngine u t).divider = 2 := rfl
    have h4 : (true && u != "") = true := by simp [hu]
    simp only [Bool.not_false, h4, if_true, h3]
    rw [if_neg (by decide), goDiv_duration _ hd]
    rfl
  rw [hL, Tick_of_attempted _ (resolvedEngine c ((c.Duration / 2 : Nat) : Int) u t) rfl]

/-- Handling the single event `TrackDestroyed`. -/
theorem Consume_destroy (env : Env) (p : AudioPlayer) (t : String) :
    Consume env p [Input.event (Event.EventTrackDestroyed t)] =
      { player := (DestroyTrack p t).1, emitted := (DestroyTrack p t).2, errors := [],
        panicked := false } := by
  simp [Consume, step]

/-- C4, counterexample. With a resolver whose descriptors have the duration `d = 2^63`
and `k = 1` tick, the playback emits a listened verdict, although `k < d / 2` and
`k ≤ 2`: `int(Duration)` is negative and so is the threshold. -/
theorem verdict_policy_fails_on_huge_duration :
    (Consume { resolver := some hugeDurationResolver, clock := staticClock }
      (WithListenPercent New 50) (playSequence "/a" "1" "OMX_StatePause" 1)).emitted =
      [PlayerEvent.PlayerEventTrackListened
        { Content.empty with
          Artist := "artist", Track := "/a", Duration := 9223372036854775808,
          Rating := true, StartedAt := 12345, Attempted := true }] ∧
    ¬ (1 ≥ 1 ∧ 1 ≥ 9223372036854775808 / 2) ∧ ¬ (2 < 1 ∧ 1 < 9223372036854775808 / 2) := by
  decide

/-- C4, amended. On a fresh engine with listen-percent 50, a resolver returning a
descriptor with non-empty artist and title and a duration `1 ≤ d < 2^63`, and a clock
whose readings are non-zero, the playback of a non-empty uri that is not a beep for `k`
ticks ends without a panic and emits: one verdict, listened, if `k ≥ 1` and `k ≥ d / 2`;
one verdict, skipped, if `2 < k < d / 2`; no verdict otherwise. -/
theorem verdict_policy (r : Resolver) (clock : Clock) (c : Content) (u t b : String)
    (d k : Nat) (hr : r 0 u = { content := some c, err := none })
    (hArtist : c.Artist ≠ "") (hTrack : c.Track ≠ "") (hDur : c.Duration = d)
    (hd1 : 1 ≤ d) (hd : d < 9223372036854775808) (hclock : ∀ n, clock n ≠ 0)
    (hu : u ≠ "") (hbeep : Contains u BeepIgnore = false) (_ht : t ≠ "") :
    (Consume { resolver := some r, clock := clock } (WithListenPercent New 50)
      (playSequence u t b k)).panicked = false ∧
    ((1 ≤ k ∧ d / 2 ≤ k) →
      ∃ v, (Consume { resolver := some r, clock := clock } (WithListenPercent New 50)
        (playSequence u t b k)).emitted = [v] ∧ v.listened = true) ∧
    ((2 < k ∧ k < d / 2) →
      ∃ v, (Consume { resolver := some r, clock := clock } (WithListenPercent New 50)
        (playSequence u t b k)).emitted = [v] ∧ v.listened = false) ∧
    (¬ (1 ≤ k ∧ d / 2 ≤ k) ∧ ¬ (2 < k ∧ k < d / 2) →
      (Consume { resolver := some r, clock := clock } (WithListenPercent New 50)
        (playSequence u t b k)).emitted = []) := by
  subst hDur
  have hS := Consume_start { resolver := some r, clock := clock } u t b
  unfold playSequence
  rw [List.append_assoc, Consume_append _ _ _ _ (by rw [hS]), hS]
  simp only [List.nil_append]
  cases k with
  | zero =>
    simp only [List.replicate_zero, List.nil_append, Consume_destroy]
    have hE : (DestroyTrack (startedEngine u t) t).2 = [] := by
      rw [DestroyTrack_out]
      simp [startedEngine, New, Content.Valid, Content.empty]
    rw [hE]
    refine ⟨by trivial, ?_, ?_, fun _ => rfl⟩
    · intro h
      omega
    · intro h
      omega
  | succ k =>
    have hT := Tick_startedEngine r clock c u t hr hd hu hbeep
    have hq : Playing ((c.Duration / 2 : Nat) : Int) 0
        (resolvedEngine c ((c.Duration / 2 : Nat) : Int) u t) :=
      ⟨rfl, rfl, rfl, hArtist, hTrack, (by show c.Duration ≠ 0; omega), rfl, rfl⟩
    have hn : Tick { resolver := some r, clock := clock }
        (resolvedEngine c ((c.Duration / 2 : Nat) : Int) u t) ≠ TickResult.panic := by
      rw [Tick_of_attempted _ _ hq.attempted]
      exact tickBody_ne_panic _ _
    have hC : Consume { resolver := some r, clock := clock } (startedEngine u t)
          (List.replicate (k + 1) Input.tick) =
        Consume { resolver := some r, clock := clock }
          (resolvedEngine c ((c.Duration / 2 : Nat) : Int) u t)
          (List.replicate (k + 1) Input.tick) := by
      rw [List.replicate_succ]
      exact Consume_tick_congr _ _ _ _ hT hn
    obtain ⟨h1, h2, h3⟩ := ticks_playing { resolver := some r, clock := clock }
      ((c.Duration / 2 : Nat) : Int) hclock (by omega) (k + 1) 0 _ hq (by omega) (by omega)
    rw [← hC] at h1 h2 h3
    rw [Consume_append _ _ _ _ h1, Consume_destroy]
    simp only
    refine ⟨by trivial, ?_⟩
    by_cases hlt : k + 1 < c.Duration / 2
    · obtain ⟨e1, e2, e3, e4⟩ := h2 (by push_cast; omega)
      have e5 := e4 (by omega)
      rw [e1]
      simp only [List.nil_append]
      have hD := DestroyTrack_out
        (Consume { resolver := some r, clock := clock } (startedEngine u t)
          (List.replicate (k + 1) Input.tick)).player t
      have hV : (Consume { resolver := some r, clock := clock } (startedEngine u t)
          (List.replicate (k + 1) Input.tick)).player.CurrentContent.Valid = true := by
        simp [Content.Valid, e2.artist, e2.track, e2.duration, e5]
      rw [hD]
      simp only [hV, e2.rating, e2.playingFor, true_and]
      refine ⟨fun h => by omega, fun h => ?_, fun h => ?_⟩
      · have : (0 : Int) + ((k + 1 : Nat) : Int) > 2 := by push_cast; omega
        rw [if_pos this]
        exact ⟨_, rfl, by simp [PlayerEvent.listened, PlayerEvent.Content, e2.rating]⟩
      · have : ¬ ((0 : Int) + ((k + 1 : Nat) : Int) > 2) := by push_cast; omega
        rw [if_neg this]
    · obtain ⟨⟨v, e1, e2⟩, e3⟩ := h3 (by omega) (by push_cast; omega)
      rw [e1]
      have hD := DestroyTrack_out
        (Consume { resolver := some r, clock := clock } (startedEngine u t)
          (List.replicate (k + 1) Input.tick)).player t
      rw [hD]
      simp only [e3.rating, Bool.true_eq_false, false_and, and_false, if_false,
        List.append_nil]
      refine ⟨fun _ => ⟨v, rfl, e2⟩, fun h => by omega, fun h => by omega⟩

/-- Witness of C4, amended: the test resolver (duration 10); 3 ticks give one skipped
verdict. -/
theorem verdict_policy_witness :
    ∃ v, (Consume testEnv (WithListenPercent New 50)
      (playSequence "/a" "1" "OMX_StatePause" 3)).emitted = [v] ∧ v.listened = false :=
  (verdict_policy DumbResolver staticClock
    { Content.empty with
      Artist := "artist", Album := "album", Track := "/a", TrackNumber := "1", Duration := 10 }
    "/a" "1" "OMX_StatePause" 10 3 rfl (by decide) (by decide) rfl (by decide) (by decide)
    (by intro n; unfold staticClock; omega) (by decide) (by decide) (by decide)).2.2.1
    (by decide)

/-- The outcomes of the resolution step of `Tick`: nothing to resolve; or a panic; or
the error of a missing resolver with the empty descriptor marked attempted; or the
adoption of a descriptor, empty (a beep) or returned by the resolver. -/
theorem tickResolve_cases (env : Env) (p : AudioPlayer) :
    (tickResolve env p = Sum.inl p ∧
      (p.CurrentContent.Attempted = true ∨ p.CurrentTrack.ContentURI = "")) ∨
    (p.CurrentContent.Attempted = false ∧ p.CurrentTrack.ContentURI ≠ "" ∧
      (tickResolve env p = Sum.inr TickResult.panic ∨
       (∃ e, tickResolve env p = Sum.inr (TickResult.ok
          { p with CurrentContent := { Content.empty with Attempted := true } } []
          (some e))) ∨
       (∃ c n m, tickResolve env p = Sum.inl
          { p with
            CurrentContent := { c with Attempted := true, Rating := false }
            minimumListenDuration := m
            resolverCalls := n } ∧
          (c = Content.empty ∨ ∃ r, env.resolver = some r ∧
            (r p.resolverCalls p.CurrentTrack.ContentURI).content = some c)))) := by
  by_cases hA : p.CurrentContent.Attempted = true
  · left
    exact ⟨by unfold tickResolve; simp [hA], Or.inl hA⟩
  by_cases hU : p.CurrentTrack.ContentURI = ""
  · left
    exact ⟨by unfold tickResolve; simp [hU], Or.inr hU⟩
  right
  simp only [Bool.not_eq_true] at hA
  refine ⟨hA, hU, ?_⟩
  have hc : (!p.CurrentContent.Attempted && p.CurrentTrack.ContentURI != "") = true := by
    simp [hA, hU]
  unfold tickResolve
  rw [if_pos hc]
  unfold Resolve
  simp only [hU, if_false]
  by_cases hB : Contains p.CurrentTrack.ContentURI BeepIgnore = true
  · simp only [hB, if_true]
    by_cases hd : p.divider = 0
    · left
      simp [hd]
    · right; right
      exact ⟨Content.empty, p.resolverCalls,
        goDiv (intOfUint Content.empty.Duration) p.divider, by simp [hd], Or.inl rfl⟩
  · simp only [hB, Bool.false_eq_true, if_false]
    cases hr : env.resolver with
    | none =>
      right; left
      exact ⟨Error.noResolverProvided, rfl⟩
    | some r =>
      simp only
      generalize hx : r p.resolverCalls p.CurrentTrack.ContentURI = x
      obtain ⟨xc, xe⟩ := x
      cases xe with
      | some e =>
        left
        cases xc <;> rfl
      | none =>
        cases xc with
        | none =>
          left
          rfl
        | some c =>
          simp only
          by_cases hd : p.divider = 0
          · left
            simp [hd]
          · right; right
            exact ⟨c, p.resolverCalls + 1, goDiv (intOfUint c.Duration) p.divider,
              by simp [hd], Or.inr ⟨r, rfl, by rw [hx]⟩⟩

/-- The outcomes of the body of `Tick`: nothing outside `Executing`; in `Executing` the
engine advanced, with no verdict or with the listened verdict of a descriptor that was
valid and unrated. -/
theorem tickBody_cases (env : Env) (q : AudioPlayer) :
    (q.State ≠ StateExecuting ∧ tickBody env q = TickResult.ok q [] none) ∨
    (q.State = StateExecuting ∧
      (tickBody env q = TickResult.ok (tickAdvance env q) [] none ∨
       ((tickAdvance env q).CurrentContent.Valid = true ∧
        (tickAdvance env q).CurrentContent.Rating = false ∧
        tickBody env q = TickResult.ok
          { tickAdvance env q with
            CurrentContent := { (tickAdvance env q).CurrentContent with Rating := true } }
          [PlayerEvent.PlayerEventTrackListened
            { (tickAdvance env q).CurrentContent with Rating := true }] none))) := by
  by_cases hE : q.State = StateExecuting
  · right
    refine ⟨hE, ?_⟩
    unfold tickBody
    simp only [hE, ne_eq, not_true_eq_false, if_false]
    by_cases hV : (tickAdvance env q).CurrentContent.Valid = true
    · by_cases hR : (tickAdvance env q).CurrentContent.Rating = true
      · left
        simp [hV, hR]
      · simp only [Bool.not_eq_true] at hR
        by_cases hP : (tickAdvance env q).CurrentTrack.PlayingFor ≥
            (tickAdvance env q).minimumListenDuration
        · right
          exact ⟨hV, hR, by simp [hV, hR, hP]⟩
        · left
          simp [hV, hP]
    · left
      simp [hV]
  · left
    exact ⟨hE, by unfold tickBody; simp [hE]⟩

/-- What `tickAdvance` does to the descriptor and the clock: `StartedAt` is kept when it
is set, and read from the clock otherwise. -/
theorem tickAdvance_cases (env : Env) (q : AudioPlayer) :
    (tickAdvance env q).CurrentTrack.ContentURI = q.CurrentTrack.ContentURI ∧
    (tickAdvance env q).CurrentContent.Attempted = q.CurrentContent.Attempted ∧
    (tickAdvance env q).CurrentContent.Rating = q.CurrentContent.Rating ∧
    ((q.CurrentContent.StartedAt ≠ 0 ∧
        (tickAdvance env q).CurrentContent.StartedAt = q.CurrentContent.StartedAt ∧
        (tickAdvance env q).clockReads = q.clockReads) ∨
     (q.CurrentContent.StartedAt = 0 ∧
        (tickAdvance env q).CurrentContent.StartedAt = env.clock q.clockReads ∧
        (tickAdvance env q).clockReads = q.clockReads + 1)) := by
  unfold tickAdvance
  by_cases hs : q.CurrentContent.StartedAt = 0
  · simp [hs]
  · simp [hs]

/-- When `Tick` returns, either its resolution step failed for want of a resolver, or
its body ran on the engine `q` that the resolution step handed over. -/
theorem Tick_ok_cases (env : Env) (p p' : AudioPlayer) (out : List PlayerEvent)
    (err : Option Error) (h : Tick env p = TickResult.ok p' out err) :
    (p.CurrentContent.Attempted = false ∧ p.CurrentTrack.ContentURI ≠ "" ∧
      p' = { p with CurrentContent := { Content.empty with Attempted := true } } ∧
      out = []) ∨
    (∃ q, tickBody env q = TickResult.ok p' out err ∧
      ((q = p ∧ (p.CurrentContent.Attempted = true ∨ p.CurrentTrack.ContentURI = "")) ∨
       (p.CurrentContent.Attempted = false ∧ p.CurrentTrack.ContentURI ≠ "" ∧
        ∃ c n m, q = { p with
            CurrentContent := { c with Attempted := true, Rating := false }
            minimumListenDuration := m
            resolverCalls := n } ∧
          (c = Content.empty ∨ ∃ r, env.resolver = some r ∧
            (r p.resolverCalls p.CurrentTrack.ContentURI).content = some c)))) := by
  unfold Tick at h
  rcases tickResolve_cases env p with ⟨hq, hc⟩ | ⟨hA, hU, hq | ⟨e, hq⟩ | ⟨c, n, m, hq, hc⟩⟩
  · rw [hq] at h
    exact Or.inr ⟨p, h, Or.inl ⟨rfl, hc⟩⟩
  · rw [hq] at h
    simp at h
  · rw [hq] at h
    simp only [TickResult.ok.injEq] at h
    obtain ⟨rfl, rfl, -⟩ := h
    exact Or.inl ⟨hA, hU, rfl, rfl⟩
  · rw [hq] at h
    exact Or.inr ⟨_, h, Or.inr ⟨hA, hU, c, n, m, rfl, hc⟩⟩

/-- What a returning `Tick` does to the rating flag: it emits at most one verdict, the
descriptor it leaves, whose rating flag is then true; without a resolution (the
descriptor was attempted or the uri is empty) it keeps `Attempted` and emits nothing if the
rating flag was already true; with a resolution `Attempted` is true afterwards. -/
theorem Tick_rating_facts (env : Env) (p p' : AudioPlayer) (out : List PlayerEvent)
    (err : Option Error) (h : Tick env p = TickResult.ok p' out err) :
    p'.CurrentTrack.ContentURI = p.CurrentTrack.ContentURI ∧
    (out = [] ∨ (out = [PlayerEvent.PlayerEventTrackListened p'.CurrentContent] ∧
      p'.CurrentContent.Rating = true ∧ p'.CurrentContent.Valid = true)) ∧
    ((p.CurrentContent.Attempted = true ∨ p.CurrentTrack.ContentURI = "") →
      p'.CurrentContent.Attempted = p.CurrentContent.Attempted ∧
      (p.CurrentContent.Rating = true → p'.CurrentContent.Rating = true ∧ out = [])) ∧
    (¬ (p.CurrentContent.Attempted = true ∨ p.CurrentTrack.ContentURI = "") →
      p'.CurrentContent.Attempted = true) := by
  have body : ∀ q, tickBody env q = TickResult.ok p' out err →
      p'.CurrentTrack.ContentURI = q.CurrentTrack.ContentURI ∧
      p'.CurrentContent.Attempted = q.CurrentContent.Attempted ∧
      (out = [] ∨ (out = [PlayerEvent.PlayerEventTrackListened p'.CurrentContent] ∧
        p'.CurrentContent.Rating = true ∧ p'.CurrentContent.Valid = true)) ∧
      (q.CurrentContent.Rating = true → p'.CurrentContent.Rating = true ∧ out = []) := by
    intro q hq
    obtain ⟨a1, a2, a3, -⟩ := tickAdvance_cases env q
    rcases tickBody_cases env q with ⟨-, hb⟩ | ⟨-, hb | ⟨hV, hR, hb⟩⟩
    · rw [hb] at hq
      simp only [TickResult.ok.injEq] at hq
      obtain ⟨rfl, rfl, -⟩ := hq
      exact ⟨rfl, rfl, Or.inl rfl, fun h => ⟨h, rfl⟩⟩
    · rw [hb] at hq
      simp only [TickResult.ok.injEq] at hq
      obtain ⟨rfl, rfl, -⟩ := hq
      exact ⟨a1, a2, Or.inl rfl, fun h => ⟨by rw [a3]; exact h, rfl⟩⟩
    · rw [hb] at hq
      simp only [TickResult.ok.injEq] at hq
      obtain ⟨rfl, rfl, -⟩ := hq
      refine ⟨a1, a2, Or.inr ⟨rfl, rfl, ?_⟩, fun h => ?_⟩
      · simpa [Content.Valid] using hV
      · rw [a3, h] at hR
        simp at hR
  rcases Tick_ok_cases env p p' out err h with
    ⟨hA, hU, rfl, rfl⟩ | ⟨q, hq, ⟨rfl, hc⟩ | ⟨hA, hU, c, n, m, rfl, -⟩⟩
  · refine ⟨rfl, Or.inl rfl, fun hc => ?_, fun _ => rfl⟩
    rcases hc with hc | hc
    · rw [hA] at hc
      simp at hc
    · exact absurd hc hU
  · obtain ⟨b1, b2, b3, b4⟩ := body q hq
    exact ⟨b1, b3, fun _ => ⟨b2, b4⟩, fun hn => absurd hc hn⟩
  · obtain ⟨b1, b2, b3, -⟩ := body _ hq
    refine ⟨b1, b3, fun hc => ?_, fun _ => b2⟩
    rcases hc with hc | hc
    · rw [hA] at hc
      simp at hc
    · exact absurd hc hU

/-- `SetState` touches neither the track slots nor the descriptor. -/
theorem SetState_keeps (p : AudioPlayer) (b a : Int) :
    (SetState p b a).1.CurrentTrack = p.CurrentTrack ∧
    (SetState p b a).1.NextTrack = p.NextTrack ∧
    (SetState p b a).1.CurrentContent = p.CurrentContent ∧
    (SetState p b a).1.clockReads = p.clockReads := by
  unfold SetState
  repeat' split
  all_goals exact ⟨rfl, rfl, rfl, rfl⟩

/-- Handling an event does not panic and emits no listened verdict. -/
theorem step_event_listened (env : Env) (p : AudioPlayer) (e : Event) :
    (step env p (Input.event e)).panicked = false ∧
    (step env p (Input.event e)).emitted.filter PlayerEvent.listened = [] := by
  cases e with
  | EventTrackDestroyed id =>
    refine ⟨rfl, ?_⟩
    simp only [step]
    rw [List.filter_eq_nil_iff]
    intro v hv
    have := (DestroyTrack_out_mem p id v hv).2.1
    simp [PlayerEvent.listened, this]
  | _ => exact ⟨rfl, rfl⟩

/-- An event that does not end a playback leaves the descriptor and the current uri as
they are. -/
theorem step_event_keeps (env : Env) (p : AudioPlayer) (e : Event)
    (h : endsPlayback p (Input.event e) = false) :
    (step env p (Input.event e)).player.CurrentContent = p.CurrentContent ∧
    (step env p (Input.event e)).player.CurrentTrack.ContentURI =
      p.CurrentTrack.ContentURI := by
  cases e with
  | EventPlayerStateChange b a =>
    simp only [step]
    exact ⟨(SetState_keeps p _ _).2.2.1, by rw [(SetState_keeps p _ _).1]⟩
  | EventStorageMounted =>
    simp only [step]
    exact ⟨(SetState_keeps p _ _).2.2.1, by rw [(SetState_keeps p _ _).1]⟩
  | EventContentURI uri =>
    have h' : (p.Preparing && p.CurrentTrack.ContentURI != "") = true := by
      simpa [endsPlayback] using h
    simp only [step, SetContentURI]
    rw [if_pos h']
    exact ⟨rfl, rfl⟩
  | EventPreparing => exact ⟨rfl, rfl⟩
  | EventTrackCreated id => exact ⟨rfl, rfl⟩
  | other n => exact ⟨rfl, rfl⟩
  | EventEndOfStream => simp [endsPlayback] at h
  | EventStorageUnmounting => simp [endsPlayback] at h
  | EventTrackDestroyed id => simp [endsPlayback] at h

/-- The invariant of a span: no listened verdict yet, or one and then the rating flag is
true and no resolution is pending. -/
theorem maxListenedPerSpan_le_one (env : Env) (inputs : List Input) (p : AudioPlayer)
    (n : Nat)
    (hinv : n = 0 ∨ (n = 1 ∧ p.CurrentContent.Rating = true ∧
      (p.CurrentContent.Attempted = true ∨ p.CurrentTrack.ContentURI = ""))) :
    maxListenedPerSpan endsPlayback env p n inputs ≤ 1 := by
  induction inputs generalizing p n with
  | nil =>
    simp only [maxListenedPerSpan]
    rcases hinv with h | ⟨h, -⟩ <;> omega
  | cons i rest ih =>
    have hn : n ≤ 1 := by rcases hinv with h | ⟨h, -⟩ <;> omega
    simp only [maxListenedPerSpan]
    split
    · exact hn
    · rename_i hpan
      cases i with
      | event e =>
        obtain ⟨-, hl⟩ := step_event_listened env p e
        rw [hl]
        simp only [List.length_nil, Nat.add_zero]
        split
        · exact Nat.max_le.mpr ⟨hn, ih _ _ (Or.inl rfl)⟩
        · rename_i hcut
          simp only [Bool.not_eq_true] at hcut
          obtain ⟨k1, k2⟩ := step_event_keeps env p e hcut
          apply ih
          rw [k1, k2]
          exact hinv
      | tick =>
        have hcut : endsPlayback p Input.tick = false := rfl
        simp only [hcut, Bool.false_eq_true, if_false]
        cases hT : Tick env p with
        | panic => simp [step, hT] at hpan
        | ok p' out err =>
          have hs : (step env p Input.tick).player = p' ∧
              (step env p Input.tick).emitted = out := by
            simp only [step, hT]
            cases err <;> exact ⟨rfl, rfl⟩
          rw [hs.1, hs.2]
          obtain ⟨f1, f2, f3, f4⟩ := Tick_rating_facts env p p' out err hT
          apply ih
          rcases hinv with h0 | ⟨h1, hR, hc⟩
          · subst h0
            rcases f2 with rfl | ⟨rfl, g1, -⟩
            · exact Or.inl rfl
            · right
              refine ⟨by simp [PlayerEvent.listened, PlayerEvent.Content, g1], g1, ?_⟩
              by_cases hc : p.CurrentContent.Attempted = true ∨ p.CurrentTrack.ContentURI = ""
              · rcases hc with hc' | hc'
                · exact Or.inl (by rw [(f3 (Or.inl hc')).1]; exact hc')
                · exact Or.inr (by rw [f1]; exact hc')
              · exact Or.inl (f4 hc)
          · subst h1
            obtain ⟨g1, g2⟩ := f3 hc
            obtain ⟨g3, rfl⟩ := g2 hR
            right
            refine ⟨rfl, g3, ?_⟩
            rcases hc with hc' | hc'
            · exact Or.inl (by rw [g1]; exact hc')
            · exact Or.inr (by rw [f1]; exact hc')

/-- C5, counterexample. A looped track: the uri `L` is assigned once, and between that
event and the end of the run no event assigns or clears the current uri
(`EndOfStream` finds the next slot empty); yet two listened verdicts are emitted in that
span. -/
theorem two_listened_in_one_uri_lifetime :
    maxListenedPerSpan assignsCurrentURI testEnv New 0 loopSequence = 2 ∧
    cutsAlong assignsCurrentURI testEnv New loopSequence =
      true :: List.replicate 12 false := by
  decide

/-- C5, amended. For every run from any engine state, with any resolver: within a span
between two consecutive events that end a playback (a uri routed to the current slot, an
`EndOfStream`, a `StorageUnmounting`, a `TrackDestroyed`) at most one verdict with
`Rating = true` is emitted. -/
theorem at_most_one_listened_per_playback (env : Env) (p : AudioPlayer)
    (inputs : List Input) :
    maxListenedPerSpan endsPlayback env p 0 inputs ≤ 1 :=
  maxListenedPerSpan_le_one env inputs p 0 (Or.inl rfl)

/-- The bound of C5, amended, is reached: the looped track emits one listened verdict in
each of its two playbacks. -/
theorem at_most_one_listened_per_playback_witness :
    maxListenedPerSpan endsPlayback testEnv New 0 loopSequence = 1 ∧
    ((Consume testEnv New loopSequence).emitted.filter PlayerEvent.listened).length = 2 := by
  decide

/-- What the body of `Tick` does to `StartedAt` and to the clock. -/
theorem tickBody_StampStep (env : Env) (q p' : AudioPlayer) (out : List PlayerEvent)
    (err : Option Error) (h : tickBody env q = TickResult.ok p' out err) :
    StampStep env q p' out := by
  obtain ⟨-, -, a3, a4⟩ := tickAdvance_cases env q
  rcases tickBody_cases env q with ⟨-, hb⟩ | ⟨-, hb | ⟨-, hR, hb⟩⟩
  · rw [hb] at h
    simp only [TickResult.ok.injEq] at h
    obtain ⟨rfl, rfl, -⟩ := h
    exact Or.inr (Or.inl ⟨rfl, rfl, id, fun h => absurd rfl h⟩)
  · rw [hb] at h
    simp only [TickResult.ok.injEq] at h
    obtain ⟨rfl, rfl, -⟩ := h
    rcases a4 with ⟨-, b1, b2⟩ | ⟨-, b1, b2⟩
    · exact Or.inr (Or.inl ⟨b1, b2, fun h => by rw [← a3]; exact h, fun h => absurd rfl h⟩)
    · exact Or.inr (Or.inr ⟨b1, b2⟩)
  · rw [hb] at h
    simp only [TickResult.ok.injEq] at h
    obtain ⟨rfl, rfl, -⟩ := h
    rcases a4 with ⟨-, b1, b2⟩ | ⟨-, b1, b2⟩
    · refine Or.inr (Or.inl ⟨b1, b2, fun h => ?_, fun _ => by rw [← a3]; exact hR⟩)
      simp at h
    · exact Or.inr (Or.inr ⟨b1, b2⟩)

/-- What a returning `Tick` does to `StartedAt` and to the clock, when the descriptors of
the resolver have `StartedAt = 0`. -/
theorem Tick_StampStep (env : Env) (hres : ResolverStampsZero env) (p p' : AudioPlayer)
    (out : List PlayerEvent) (err : Option Error)
    (h : Tick env p = TickResult.ok p' out err) : StampStep env p p' out := by
  rcases Tick_ok_cases env p p' out err h with
    ⟨-, -, rfl, rfl⟩ | ⟨q, hq, ⟨rfl, -⟩ | ⟨-, -, c, n, m, rfl, hc⟩⟩
  · exact Or.inl ⟨rfl, le_refl _⟩
  · exact tickBody_StampStep env q p' out err hq
  · have hc0 : c.StartedAt = 0 := by
      rcases hc with rfl | ⟨r, hr, hx⟩
      · rfl
      · exact hres r hr _ _ c hx
    rcases tickBody_StampStep env _ p' out err hq with ⟨t1, t2⟩ | ⟨t1, t2, -, -⟩ | ⟨t1, t2⟩
    · exact Or.inl ⟨t1, t2⟩
    · exact Or.inl ⟨by rw [t1]; exact hc0, by rw [t2]⟩
    · exact Or.inr (Or.inr ⟨t1, t2⟩)

/-- A step that follows `StampStep` and emits at most the descriptor it leaves, rated and
valid, keeps the invariant `StampIsPast`, only narrows the future stamps, and the stamp
of its verdict is a future stamp of the state before and older than every future stamp
of the state after. -/
theorem StampStep_sound (env : Env) (hmono : ∀ i j : Nat, i < j → env.clock i < env.clock j)
    (p p' : AudioPlayer) (out : List PlayerEvent) (hstep : StampStep env p p' out)
    (hout : out = [] ∨ (out = [PlayerEvent.PlayerEventTrackListened p'.CurrentContent] ∧
      p'.CurrentContent.Rating = true ∧ p'.CurrentContent.Valid = true))
    (hpast : StampIsPast env p) :
    StampIsPast env p' ∧
    (∀ s, FutureStamp env p' s → FutureStamp env p s) ∧
    (∀ v ∈ out, FutureStamp env p v.Content.StartedAt ∧
      ∀ s, FutureStamp env p' s → v.Content.StartedAt < s) := by
  have hA : StampIsPast env p' := by
    rcases hstep with ⟨t1, -⟩ | ⟨t1, t2, -, -⟩ | ⟨t1, t2⟩
    · exact Or.inl t1
    · rcases hpast with h0 | h1
      · exact Or.inl (by rw [t1]; exact h0)
      · exact Or.inr (fun j hj => by rw [t1]; exact h1 j (by omega))
    · exact Or.inr (fun j hj => by rw [t1]; exact hmono _ _ (by omega))
  have hle : p.clockReads ≤ p'.clockReads := by
    rcases hstep with ⟨-, t2⟩ | ⟨-, t2, -, -⟩ | ⟨-, t2⟩ <;> omega
  refine ⟨hA, ?_, ?_⟩
  · intro s hs
    rcases hs with ⟨h1, h2, h3⟩ | ⟨j, hj, h2⟩
    · rcases hstep with ⟨t1, -⟩ | ⟨t1, -, t3, -⟩ | ⟨t1, -⟩
      · rw [h2, t1] at h3
        exact absurd rfl h3
      · exact Or.inl ⟨t3 h1, by rw [h2, t1], h3⟩
      · exact Or.inr ⟨p.clockReads, le_refl _, by rw [h2, t1]⟩
    · exact Or.inr ⟨j, by omega, h2⟩
  · intro v hv
    rcases hout with rfl | ⟨rfl, hR, hV⟩
    · simp at hv
    · simp only [List.mem_singleton] at hv
      subst hv
      have hne : p'.CurrentContent.StartedAt ≠ 0 := by
        simp only [Content.Valid] at hV
        intro h0
        simp [h0] at hV
      refine ⟨?_, ?_⟩
      · rcases hstep with ⟨t1, -⟩ | ⟨t1, -, -, t4⟩ | ⟨t1, -⟩
        · exact absurd t1 hne
        · exact Or.inl ⟨t4 (by simp), t1, hne⟩
        · exact Or.inr ⟨p.clockReads, le_refl _, t1⟩
      · intro s hs
        rcases hs with ⟨h1, -, -⟩ | ⟨j, hj, h2⟩
        · rw [hR] at h1
          simp at h1
        · rcases hA with h0 | h1
          · exact absurd h0 hne
          · rw [h2]
            exact h1 j hj

/-- `Stop` unsets `StartedAt` and does not read the clock. -/
theorem Stop_stamp (p : AudioPlayer) :
    (Stop p).CurrentContent.StartedAt = 0 ∧ (Stop p).clockReads = p.clockReads := by
  unfold Stop
  simp only
  split <;> exact ⟨rfl, rfl⟩

/-- `DestroyTrack` leaves the empty descriptor and does not read the clock. -/
theorem DestroyTrack_stamp (p : AudioPlayer) (s : String) :
    (DestroyTrack p s).1.CurrentContent = Content.empty ∧
    (DestroyTrack p s).1.clockReads = p.clockReads := by
  unfold DestroyTrack
  simp only
  split <;> split <;> exact ⟨rfl, rfl⟩

/-- What handling one input does to the stamps: the invariant `StampIsPast` is kept, the
future stamps only narrow, at most one verdict is emitted, and its stamp is a future stamp
of the state before and older than every future stamp of the state after. -/
theorem step_stamps (env : Env) (hmono : ∀ i j : Nat, i < j → env.clock i < env.clock j)
    (hres : ResolverStampsZero env) (p : AudioPlayer) (i : Input)
    (hpast : StampIsPast env p) :
    StampIsPast env (step env p i).player ∧
    (∀ s, FutureStamp env (step env p i).player s → FutureStamp env p s) ∧
    (∀ v ∈ (step env p i).emitted, FutureStamp env p v.Content.StartedAt ∧
      ∀ s, FutureStamp env (step env p i).player s → v.Content.StartedAt < s) ∧
    ((step env p i).emitted = [] ∨ ∃ v, (step env p i).emitted = [v]) := by
  have keep : ∀ p' : AudioPlayer, p'.CurrentContent = p.CurrentContent →
      p'.clockReads = p.clockReads → StampStep env p p' [] := by
    intro p' h1 h2
    exact Or.inr (Or.inl ⟨by rw [h1], h2, fun h => by rw [← h1]; exact h,
      fun h => absurd rfl h⟩)
  have quiet : ∀ p' : AudioPlayer, StampStep env p p' [] →
      StampIsPast env p' ∧ (∀ s, FutureStamp env p' s → FutureStamp env p s) ∧
      (∀ v ∈ ([] : List PlayerEvent), FutureStamp env p v.Content.StartedAt ∧
        ∀ s, FutureStamp env p' s → v.Content.StartedAt < s) ∧
      (([] : List PlayerEvent) = [] ∨ ∃ v, ([] : List PlayerEvent) = [v]) := by
    intro p' h
    obtain ⟨a, b, c⟩ := StampStep_sound env hmono p p' [] h (Or.inl rfl) hpast
    exact ⟨a, b, c, Or.inl rfl⟩
  cases i with
  | tick =>
    cases hT : Tick env p with
    | panic =>
      have hs : step env p Input.tick =
          { player := p, emitted := [], errors := [], panicked := true } := by
        simp [step, hT]
      rw [hs]
      exact quiet p (keep p rfl rfl)
    | ok p' out err =>
      have hs : (step env p Input.tick).player = p' ∧
          (step env p Input.tick).emitted = out := by
        simp only [step, hT]
        cases err <;> exact ⟨rfl, rfl⟩
      rw [hs.1, hs.2]
      have hstep := Tick_StampStep env hres p p' out err hT
      have hout := (Tick_rating_facts env p p' out err hT).2.1
      obtain ⟨a, b, c⟩ := StampStep_sound env hmono p p' out hstep hout hpast
      refine ⟨a, b, c, ?_⟩
      rcases hout with h | ⟨h, -⟩
      · exact Or.inl h
      · exact Or.inr ⟨_, h⟩
  | event e =>
    cases e with
    | EventPlayerStateChange b a =>
      exact quiet _ (keep _ (SetState_keeps p _ _).2.2.1 (SetState_keeps p _ _).2.2.2)
    | EventStorageMounted =>
      exact quiet _ (keep _ (SetState_keeps p _ _).2.2.1 (SetState_keeps p _ _).2.2.2)
    | EventContentURI uri =>
      exact quiet _ (keep _ (SetContentURI_keeps p uri).1 (SetContentURI_keeps p uri).2)
    | EventPreparing => exact quiet _ (keep _ rfl rfl)
    | EventTrackCreated id => exact quiet _ (keep _ rfl rfl)
    | other n => exact quiet _ (keep _ rfl rfl)
    | EventEndOfStream =>
      exact quiet (Stop p) (Or.inl ⟨(Stop_stamp p).1, le_of_eq (Stop_stamp p).2.symm⟩)
    | EventStorageUnmounting =>
      refine quiet (Stop (SetState p p.StateBefore StateStorageUnmounted).1)
        (Or.inl ⟨(Stop_stamp _).1, ?_⟩)
      rw [(Stop_stamp _).2, (SetState_keeps p _ _).2.2.2]
    | EventTrackDestroyed id =>
      simp only [step]
      obtain ⟨d1, d2⟩ := DestroyTrack_stamp p id
      have hA : StampIsPast env (DestroyTrack p id).1 := Or.inl (by rw [d1]; rfl)
      have hB : ∀ s, FutureStamp env (DestroyTrack p id).1 s →
          ∃ j, p.clockReads ≤ j ∧ s = env.clock j := by
        intro s hs
        rcases hs with ⟨-, h2, h3⟩ | ⟨j, hj, h2⟩
        · rw [d1] at h2
          exact absurd h2 h3
        · exact ⟨j, by omega, h2⟩
      refine ⟨hA, fun s hs => Or.inr (hB s hs), ?_, ?_⟩
      · intro v hv
        obtain ⟨e1, e2, hV⟩ := DestroyTrack_out_mem p id v hv
        have hne : v.Content.StartedAt ≠ 0 := by
          simp only [Content.Valid] at hV
          intro h0
          simp [h0] at hV
        refine ⟨Or.inl ⟨by rw [← e1]; exact e2, by rw [e1], hne⟩, ?_⟩
        intro s hs
        obtain ⟨j, hj, rfl⟩ := hB s hs
        rcases hpast with h0 | h1
        · rw [e1] at hne
          exact absurd h0 hne
        · rw [e1]
          exact h1 j hj
      · rw [DestroyTrack_out]
        split
        · exact Or.inr ⟨_, rfl⟩
        · exact Or.inl rfl

/-- The stamps of the verdicts of a run are strictly increasing, and each is a future
stamp of the state the run starts from. -/
theorem Consume_stamps (env : Env) (hmono : ∀ i j : Nat, i < j → env.clock i < env.clock j)
    (hres : ResolverStampsZero env) (inputs : List Input) (p : AudioPlayer)
    (hpast : StampIsPast env p) :
    List.Pairwise (fun a b => a < b) (startedAts (Consume env p inputs).emitted) ∧
    ∀ s ∈ startedAts (Consume env p inputs).emitted, FutureStamp env p s := by
  induction inputs generalizing p with
  | nil => simp [Consume, startedAts]
  | cons i rest ih =>
    obtain ⟨hA, hB, hC, hD⟩ := step_stamps env hmono hres p i hpast
    obtain ⟨ih1, ih2⟩ := ih (step env p i).player hA
    have hone : List.Pairwise (fun a b : Int => a < b)
        (startedAts (step env p i).emitted) := by
      rcases hD with h | ⟨v, h⟩ <;> simp [h, startedAts]
    have hmem : ∀ s ∈ startedAts (step env p i).emitted, FutureStamp env p s ∧
        ∀ s', FutureStamp env (step env p i).player s' → s < s' := by
      intro s hs
      simp only [startedAts, List.mem_map] at hs
      obtain ⟨v, hv, rfl⟩ := hs
      exact hC v hv
    simp only [Consume]
    split
    · exact ⟨hone, fun s hs => (hmem s hs).1⟩
    · simp only [startedAts, List.map_append]
      refine ⟨List.pairwise_append.mpr ⟨hone, ih1, ?_⟩, ?_⟩
      · intro a ha b hb
        exact (hmem a ha).2 b (ih2 b hb)
      · intro s hs
        rcases List.mem_append.mp hs with h | h
        · exact (hmem s h).1
        · exact hB s (ih2 s h)

/-- C6. For every run from an engine whose descriptor has no `StartedAt` yet (a fresh
engine), with a strictly increasing clock and a resolver whose descriptors have
`StartedAt = 0`, the `StartedAt` values of the emitted verdicts are strictly increasing
in the order of emission; hence no two verdicts share a `StartedAt`. -/
theorem startedAt_strictly_increasing (env : Env)
    (hmono : ∀ i j : Nat, i < j → env.clock i < env.clock j)
    (hres : ResolverStampsZero env) (p : AudioPlayer)
    (hfresh : p.CurrentContent.StartedAt = 0) (inputs : List Input) :
    List.Pairwise (fun a b => a < b) (startedAts (Consume env p inputs).emitted) ∧
    (startedAts (Consume env p inputs).emitted).Nodup := by
  have h := (Consume_stamps env hmono hres inputs p (Or.inl hfresh)).1
  exact ⟨h, h.imp (fun hab => ne_of_lt hab)⟩

/-- Witness of C6: the looped track with the test resolver and the test clock. -/
theorem startedAt_strictly_increasing_witness :
    New.CurrentContent.StartedAt = 0 ∧
    startedAts (Consume testEnv New loopSequence).emitted = [12345, 12346] ∧
    List.Pairwise (fun a b => a < b)
      (startedAts (Consume testEnv New loopSequence).emitted) :=
  ⟨rfl, by decide,
    (startedAt_strictly_increasing testEnv
      (by intro i j h; show staticClock i < staticClock j; unfold staticClock; omega)
      (by
        intro r hr n uri c hc
        simp only [testEnv, Option.some.injEq] at hr
        subst hr
        simp only [DumbResolver, Option.some.injEq] at hc
        subst hc
        rfl)
      New rfl loopSequence).1⟩

/-- C11. `Stop`, the handler of `EndOfStream`, resets `PlayingFor`, `Rating`, `StartedAt`
and `Attempted`; moves the uri of the next slot into the current slot when it is
non-empty and keeps the current uri otherwise; leaves the next slot, `State`,
`StateBefore`, `Preparing`, the track ids and the metadata of the descriptor as they
are; and handling `EndOfStream` emits no verdict and reports no error. -/
theorem Stop_resets (env : Env) (p : AudioPlayer) :
    (Stop p).CurrentTrack.PlayingFor = 0 ∧
    (Stop p).CurrentContent =
      { p.CurrentContent with Rating := false, StartedAt := 0, Attempted := false } ∧
    (Stop p).CurrentTrack.ContentURI =
      (if p.NextTrack.ContentURI ≠ "" then p.NextTrack.ContentURI
       else p.CurrentTrack.ContentURI) ∧
    (Stop p).NextTrack = p.NextTrack ∧
    (Stop p).State = p.State ∧
    (Stop p).StateBefore = p.StateBefore ∧
    (Stop p).Preparing = p.Preparing ∧
    (Stop p).CurrentTrack.TrackID = p.CurrentTrack.TrackID ∧
    step env p (Input.event Event.EventEndOfStream) =
      { player := Stop p, emitted := [], errors := [], panicked := false } := by
  unfold Stop
  by_cases h : p.NextTrack.ContentURI = ""
  · simp [h, step, Stop]
  · simp [h, step, Stop]

/-- C12. After `DestroyTrack(s)` the descriptor is the empty descriptor; the current slot
is cleared when its track id is `s` and unchanged otherwise; the next slot is cleared
when its track id is `s` and unchanged otherwise; `State`, `StateBefore` and `Preparing`
are unchanged. -/
theorem DestroyTrack_slots (p : AudioPlayer) (s : String) :
    (DestroyTrack p s).1.CurrentContent = Content.empty ∧
    Content.empty.Attempted = false ∧ Content.empty.Rating = false ∧
    Content.empty.StartedAt = 0 ∧
    (DestroyTrack p s).1.CurrentTrack =
      (if p.CurrentTrack.TrackID = s then Track.empty else p.CurrentTrack) ∧
    (DestroyTrack p s).1.NextTrack =
      (if p.NextTrack.TrackID = s then Track.empty else p.NextTrack) ∧
    (DestroyTrack p s).1.State = p.State ∧
    (DestroyTrack p s).1.StateBefore = p.StateBefore ∧
    (DestroyTrack p s).1.Preparing = p.Preparing := by
  unfold DestroyTrack
  by_cases h1 : p.CurrentTrack.TrackID = s <;> by_cases h2 : p.NextTrack.TrackID = s <;>
    simp [h1, h2, Track.empty, Content.empty]

/-- C13. When `State` is not `StorageUnmounted` and `after` is `StorageUnmounted` or
`StorageMounted`, `SetState(before, after)` returns no error, records the previous
`State` in `StateBefore`, sets `State` to `after` and changes nothing else, whatever
`before` and the previous `State` (`Start` included) are. -/
theorem SetState_storage (p : AudioPlayer) (before after : Int)
    (hState : p.State ≠ StateStorageUnmounted)
    (hafter : after = StateStorageUnmounted ∨ after = StateStorageMounted) :
    SetState p before after = ({ p with StateBefore := p.State, State := after }, none) ∧
    (SetState p before after).1.StateBefore = p.State ∧
    (SetState p before after).1.State = after ∧
    (SetState p before after).1.Preparing = p.Preparing ∧
    (SetState p before after).1.CurrentTrack = p.CurrentTrack ∧
    (SetState p before after).1.NextTrack = p.NextTrack := by
  have h : SetState p before after =
      ({ p with StateBefore := p.State, State := after }, none) := by
    unfold SetState
    simp [hState, hafter]
  rw [h]
  exact ⟨rfl, rfl, rfl, rfl, rfl, rfl⟩

/-- Witness of C13: the test "storage unmounted", an engine in `Executing` handling the
unmount. -/
theorem SetState_storage_witness :
    (WithState New StateExecuting).State ≠ StateStorageUnmounted ∧
    (SetState (WithState New StateExecuting) (WithState New StateExecuting).StateBefore
      StateStorageUnmounted).1.State = StateStorageUnmounted ∧
    (SetState (WithState New StateExecuting) (WithState New StateExecuting).StateBefore
      StateStorageUnmounted).1.StateBefore = StateExecuting :=
  ⟨by decide,
    (SetState_storage (WithState New StateExecuting) _ StateStorageUnmounted (by decide)
      (Or.inl rfl)).2.2.1,
    (SetState_storage (WithState New StateExecuting) _ StateStorageUnmounted (by decide)
      (Or.inl rfl)).2.1⟩

/-- C14. From `Start`, `SetState(before, after)` with a pipeline state `after` returns no
error and sets both `State` and `StateBefore` to `after`, whatever `before` is. -/
theorem SetState_from_Start (p : AudioPlayer) (before after : Int)
    (hState : p.State = StateStart) (hafter : after ∈ pipelineStates) :
    (SetState p before after).2 = none ∧
    (SetState p before after).1.State = after ∧
    (SetState p before after).1.StateBefore = after := by
  have h1 : after ≠ StateStorageUnmounted ∧ after ≠ StateStorageMounted := by
    simp only [pipelineStates, List.mem_cons, List.mem_singleton, List.not_mem_nil,
      or_false] at hafter
    rcases hafter with h | h | h | h | h | h | h <;> subst h <;> decide
  unfold SetState
  have h0 : StateStart ≠ StateStorageUnmounted := by decide
  simp [hState, h0, h1.1, h1.2]

/-- Witness of C14: the test "consume state event". -/
theorem SetState_from_Start_witness :
    New.State = StateStart ∧
    (SetState New StateStart StateExecuting).1.State = StateExecuting ∧
    (SetState New StateStart StateExecuting).1.StateBefore = StateExecuting :=
  ⟨rfl, (SetState_from_Start New StateStart StateExecuting rfl (by decide)).2⟩

/-- The states in `pipelineStates` are neither `Start` nor a storage state. -/
theorem pipelineStates_ne (a : Int) (h : a ∈ pipelineStates) :
    a ≠ StateStart ∧ a ≠ StateStorageUnmounted ∧ a ≠ StateStorageMounted := by
  simp only [pipelineStates, List.mem_cons, List.mem_singleton, List.not_mem_nil,
    or_false] at h
  rcases h with h | h | h | h | h | h | h <;> subst h <;> decide

/-- C15. With `State` a pipeline state or `StorageMounted` and `after` a pipeline state,
`SetState(before, after)` commits the transition (`StateBefore` becomes the previous
`State`, `State` becomes `after`, `Preparing` is cleared exactly when `after` is
`Loaded`) when `State` is `before` or `StorageMounted`, and otherwise returns no error
and leaves the engine as it is. -/
theorem SetState_pipeline (p : AudioPlayer) (before after : Int)
    (hState : p.State ∈ pipelineStates ∨ p.State = StateStorageMounted)
    (hafter : after ∈ pipelineStates) :
    ((p.State = before ∨ p.State = StateStorageMounted) →
      SetState p before after =
        ({ p with
            Preparing := (if after = StateLoaded then false else p.Preparing)
            StateBefore := p.State
            State := after }, none)) ∧
    (¬ (p.State = before ∨ p.State = StateStorageMounted) →
      SetState p before after = (p, none)) := by
  obtain ⟨_, ha1, ha2⟩ := pipelineStates_ne after hafter
  have hs : p.State ≠ StateStart ∧ p.State ≠ StateStorageUnmounted := by
    rcases hState with h | h
    · exact ⟨(pipelineStates_ne _ h).1, (pipelineStates_ne _ h).2.1⟩
    · rw [h]; decide
  constructor
  · intro hc
    unfold SetState
    have hd : ¬ (p.State ≠ before ∧ p.State ≠ StateStorageMounted ∧
        p.State ≠ StateStorageUnmounted) := by
      rintro ⟨h1, h2, _⟩
      rcases hc with h | h
      · exact h1 h
      · exact h2 h
    rw [if_neg (fun h => hs.2 h.1), if_neg (by rintro (h | h); exact ha1 h; exact ha2 h),
      if_neg hs.1, if_neg hd]
    by_cases hl : after = StateLoaded <;> simp [hl]
  · intro hc
    unfold SetState
    have hd : p.State ≠ before ∧ p.State ≠ StateStorageMounted ∧
        p.State ≠ StateStorageUnmounted :=
      ⟨fun h => hc (Or.inl h), fun h => hc (Or.inr h), hs.2⟩
    rw [if_neg (fun h => hs.2 h.1), if_neg (by rintro (h | h); exact ha1 h; exact ha2 h),
      if_neg hs.1, if_pos hd]

/-- Witness of C15: the test "mounted storage, start playing"; from `StorageMounted` the
transition to `Executing` is committed although `before` is `Idle`. -/
theorem SetState_pipeline_witness :
    ((WithState New StateStorageMounted).State ∈ pipelineStates ∨
      (WithState New StateStorageMounted).State = StateStorageMounted) ∧
    StateExecuting ∈ pipelineStates ∧
    SetState (WithState New StateStorageMounted) StateIdle StateExecuting =
      ({ WithState New StateStorageMounted with
          Preparing := false
          StateBefore := StateStorageMounted
          State := StateExecuting }, none) :=
  ⟨Or.inr rfl, by decide,
    (SetState_pipeline (WithState New StateStorageMounted) StateIdle StateExecuting
      (Or.inr rfl) (by decide)).1 (Or.inr rfl)⟩

/-- C16 fails. An engine that reached `Loaded` and then handled `Preparing` ignores the
replayed transition `Idle → Loaded`: `State` is `Loaded` after the call and `Preparing`
is still set. From `Start` the transition to `Loaded` is committed before the test
that clears `Preparing`. -/
theorem SetState_Loaded_keeps_Preparing :
    ((Consume testEnv New
        [Input.event Event.EventStorageMounted,
         Input.event (Event.EventPlayerStateChange "OMX_StateIdle" "OMX_StateLoaded"),
         Input.event Event.EventPreparing]).player.State = StateLoaded ∧
      (SetState (Consume testEnv New
        [Input.event Event.EventStorageMounted,
         Input.event (Event.EventPlayerStateChange "OMX_StateIdle" "OMX_StateLoaded"),
         Input.event Event.EventPreparing]).player StateIdle StateLoaded).1.State
        = StateLoaded ∧
      (SetState (Consume testEnv New
        [Input.event Event.EventStorageMounted,
         Input.event (Event.EventPlayerStateChange "OMX_StateIdle" "OMX_StateLoaded"),
         Input.event Event.EventPreparing]).player StateIdle StateLoaded).1.Preparing
        = true) ∧
    ((SetState { New with Preparing := true } StateIdle StateLoaded).1.State = StateLoaded ∧
      (SetState { New with Preparing := true } StateIdle StateLoaded).1.Preparing = true) := by
  decide

/-- C16, amended. When `State` is not `Start` and the call is not a replay that the
engine ignores in `Loaded` (`State` is not `Loaded`, or it is `before`), a call
`SetState(before, after)` after which `State` is `Loaded` leaves `Preparing` false. -/
theorem SetState_Loaded_clears_Preparing (p : AudioPlayer) (before after : Int)
    (hStart : p.State ≠ StateStart)
    (hreplay : p.State ≠ StateLoaded ∨ p.State = before)
    (hLoaded : (SetState p before after).1.State = StateLoaded) :
    (SetState p before after).1.Preparing = false := by
  unfold SetState at hLoaded ⊢
  by_cases h1 : p.State = StateStorageUnmounted ∧ after ≠ StateStorageMounted
  · rw [if_pos h1] at hLoaded
    simp only at hLoaded
    rw [h1.1] at hLoaded
    exact absurd hLoaded (by decide)
  · rw [if_neg h1] at hLoaded ⊢
    by_cases h2 : after = StateStorageUnmounted ∨ after = StateStorageMounted
    · rw [if_pos h2] at hLoaded
      simp only at hLoaded
      rcases h2 with h | h <;> rw [h] at hLoaded <;> exact absurd hLoaded (by decide)
    · rw [if_neg h2, if_neg hStart] at hLoaded ⊢
      by_cases h4 : p.State ≠ before ∧ p.State ≠ StateStorageMounted ∧
          p.State ≠ StateStorageUnmounted
      · rw [if_pos h4] at hLoaded
        simp only at hLoaded
        rcases hreplay with h | h
        · exact absurd hLoaded h
        · exact absurd h h4.1
      · rw [if_neg h4] at hLoaded ⊢
        simp only at hLoaded
        simp [hLoaded]

/-- Witness of C16, amended: the transition `Idle → Loaded` of an engine in `Idle` that
is preparing the next track. -/
theorem SetState_Loaded_clears_Preparing_witness :
    ({ WithState New StateIdle with Preparing := true } : AudioPlayer).State ≠ StateStart ∧
    (SetState { WithState New StateIdle with Preparing := true } StateIdle
      StateLoaded).1.State = StateLoaded ∧
    (SetState { WithState New StateIdle with Preparing := true } StateIdle
      StateLoaded).1.Preparing = false :=
  ⟨by decide, by decide,
    SetState_Loaded_clears_Preparing { WithState New StateIdle with Preparing := true }
      StateIdle StateLoaded (by decide) (Or.inl (by decide)) (by decide)⟩

/-- No name is mapped by `State` to a storage state. -/
theorem State_ne_storage (name : String) :
    State name ≠ StateStorageMounted ∧ State name ≠ StateStorageUnmounted := by
  unfold State
  repeat' split
  all_goals decide

/-- With a resolver that never fails, `Resolve` returns a descriptor and no error. -/
theorem Resolve_of_never_fails (env : Env) (hres : ResolverNeverFails env)
    (p : AudioPlayer) (uri : String) :
    ∃ c p1, Resolve env p uri = (ResolveOutcome.ret (some c) none, p1) ∧
      p1.divider = p.divider := by
  obtain ⟨r, hr, hall⟩ := hres
  obtain ⟨c, hc⟩ := hall p.resolverCalls uri
  unfold Resolve
  by_cases h1 : uri = ""
  · exact ⟨Content.empty, p, by simp [h1], rfl⟩
  · by_cases h2 : Contains uri BeepIgnore = true
    · exact ⟨Content.empty, p, by simp [h1, h2], rfl⟩
    · exact ⟨c, { p with resolverCalls := p.resolverCalls + 1 },
        by simp [h1, h2, hr, hc], rfl⟩

/-- With a resolver that never fails and a divider that is not zero, the resolution
step of `Tick` hands an engine over to the rest of the body. -/
theorem tickResolve_of_never_fails (env : Env) (hres : ResolverNeverFails env)
    (p : AudioPlayer) (hdiv : p.divider ≠ 0) :
    ∃ q, tickResolve env p = Sum.inl q := by
  unfold tickResolve
  split
  · obtain ⟨c, p1, h, hd⟩ := Resolve_of_never_fails env hres p p.CurrentTrack.ContentURI
    rw [h]
    simp [hd, hdiv]
  · exact ⟨p, rfl⟩

/-- The body of `Tick` does not touch `State`. -/
theorem tickBody_State (env : Env) (q p' : AudioPlayer) (out : List PlayerEvent)
    (err : Option Error) (h : tickBody env q = TickResult.ok p' out err) :
    p'.State = q.State := by
  have hA : (tickAdvance env q).State = q.State := by
    unfold tickAdvance
    simp only
    split <;> rfl
  rcases tickBody_cases env q with ⟨_, hb⟩ | ⟨_, hb | ⟨_, _, hb⟩⟩
  · rw [hb] at h
    simp only [TickResult.ok.injEq] at h
    rw [← h.1]
  · rw [hb] at h
    simp only [TickResult.ok.injEq] at h
    rw [← h.1, hA]
  · rw [hb] at h
    simp only [TickResult.ok.injEq] at h
    rw [← h.1]
    exact hA

/-- A returning `Tick` does not touch `State`. -/
theorem Tick_State (env : Env) (p p' : AudioPlayer) (out : List PlayerEvent)
    (err : Option Error) (h : Tick env p = TickResult.ok p' out err) :
    p'.State = p.State := by
  rcases Tick_ok_cases env p p' out err h with ⟨_, _, hp, _⟩ | ⟨q, hb, hq⟩
  · rw [hp]
  · rw [tickBody_State env q p' out err hb]
    rcases hq with ⟨rfl, _⟩ | ⟨_, _, c, n, m, rfl, _⟩ <;> rfl

/-- `Stop` does not touch `State`. -/
theorem Stop_State (p : AudioPlayer) : (Stop p).State = p.State := by
  unfold Stop
  simp only
  split <;> rfl

/-- In `StorageUnmounted`, with a resolver that never fails, a tick or a state change
does not panic, emits nothing, reports `ErrStorageUnmounted` exactly when it is a state
change, and leaves `State` and the divider as they are. -/
theorem step_unmounted (env : Env) (hres : ResolverNeverFails env) (p : AudioPlayer)
    (hdiv : p.divider ≠ 0) (hState : p.State = StateStorageUnmounted) (i : Input)
    (hi : isTickOrStateChange i = true) :
    (step env p i).panicked = false ∧ (step env p i).emitted = [] ∧
    (step env p i).errors =
      List.replicate ([i].countP isStateChange) (some Error.ErrStorageUnmounted) ∧
    (step env p i).player.State = StateStorageUnmounted ∧
    (step env p i).player.divider ≠ 0 := by
  cases i with
  | tick =>
    obtain ⟨q, hq⟩ := tickResolve_of_never_fails env hres p hdiv
    have hqs := tickResolve_inl env p q hq
    have hne : q.State ≠ StateExecuting := by
      rw [hqs.1, hState]
      decide
    have hT : Tick env p = TickResult.ok q [] none := by
      unfold Tick
      rw [hq]
      simp only
      unfold tickBody
      rw [if_pos hne]
    have hs : step env p Input.tick =
        { player := q, emitted := [], errors := [], panicked := false } := by
      simp only [step, hT]
    rw [hs]
    refine ⟨rfl, rfl, rfl, ?_, ?_⟩
    · show q.State = StateStorageUnmounted
      rw [hqs.1, hState]
    · show q.divider ≠ 0
      rw [hqs.2.2.2.2.2.1]
      exact hdiv
  | event e =>
    cases e with
    | EventPlayerStateChange b a =>
      have ha := (State_ne_storage a).1
      have hs : step env p (Input.event (Event.EventPlayerStateChange b a)) =
          { player := p, emitted := [], errors := [some Error.ErrStorageUnmounted],
            panicked := false } := by
        simp only [step, SetState, hState, ha, ne_eq, not_false_eq_true, and_self, if_true]
      rw [hs]
      exact ⟨rfl, rfl, rfl, hState, hdiv⟩
    | _ => simp [isTickOrStateChange, isStateChange] at hi

/-- C17. In `StorageUnmounted`, with a resolver that never fails (and the divider not
zero, as in every engine that `New` and `WithListenPercent` build), handling a sequence
of ticks and `PlayerStateChange` events does not panic, reports one `ErrStorageUnmounted`
for each state change and nothing else, emits no verdict and leaves `State` at
`StorageUnmounted`.  Of all inputs only the event `StorageMounted` changes `State`. -/
theorem unmounted_rejects_state_changes (env : Env) (hres : ResolverNeverFails env)
    (p : AudioPlayer) (hdiv : p.divider ≠ 0) (hState : p.State = StateStorageUnmounted)
    (inputs : List Input) (hin : ∀ i ∈ inputs, isTickOrStateChange i = true) :
    (Consume env p inputs).panicked = false ∧
    (Consume env p inputs).errors =
      List.replicate (inputs.countP isStateChange) (some Error.ErrStorageUnmounted) ∧
    (Consume env p inputs).emitted = [] ∧
    (Consume env p inputs).player.State = StateStorageUnmounted ∧
    (∀ i : Input, i ≠ Input.event Event.EventStorageMounted →
      (step env p i).player.State = StateStorageUnmounted) ∧
    (step env p (Input.event Event.EventStorageMounted)).player.State =
      StateStorageMounted := by
  have hrun : ∀ (inputs : List Input) (p : AudioPlayer), p.divider ≠ 0 →
      p.State = StateStorageUnmounted → (∀ i ∈ inputs, isTickOrStateChange i = true) →
      (Consume env p inputs).panicked = false ∧
      (Consume env p inputs).errors =
        List.replicate (inputs.countP isStateChange) (some Error.ErrStorageUnmounted) ∧
      (Consume env p inputs).emitted = [] ∧
      (Consume env p inputs).player.State = StateStorageUnmounted := by
    intro inputs
    induction inputs with
    | nil =>
      intro p _ hS _
      exact ⟨rfl, rfl, rfl, hS⟩
    | cons i rest ih =>
      intro p hd hS hall
      obtain ⟨h1, h2, h3, h4, h5⟩ :=
        step_unmounted env hres p hd hS i (hall i (List.mem_cons_self _ _))
      obtain ⟨k1, k2, k3, k4⟩ :=
        ih (step env p i).player h5 h4 (fun j hj => hall j (List.mem_cons_of_mem _ hj))
      simp only [Consume, h1, Bool.false_eq_true, if_false]
      refine ⟨k1, ?_, ?_, k4⟩
      · rw [h3, k2, ← List.replicate_add, List.countP_cons, List.countP_cons,
          List.countP_nil, Nat.zero_add, Nat.add_comm]
      · rw [h2, k3]
        rfl
  obtain ⟨r1, r2, r3, r4⟩ := hrun inputs p hdiv hState hin
  refine ⟨r1, r2, r3, r4, ?_, ?_⟩
  · intro i hi
    cases i with
    | tick =>
      simp only [step]
      cases hT : Tick env p with
      | panic => exact hState
      | ok p1 out err =>
        have := Tick_State env p p1 out err hT
        cases err <;> simp only <;> rw [this, hState]
    | event e =>
      cases e with
      | EventPlayerStateChange b a =>
        have ha := (State_ne_storage a).1
        simp only [step, SetState, hState, ha, ne_eq, not_false_eq_true, and_self, if_true]
      | EventStorageUnmounting =>
        have h0 : StateStorageUnmounted ≠ StateStorageMounted := by decide
        simp only [step, SetState, hState, h0, ne_eq, not_false_eq_true, and_self, if_true]
        rw [Stop_State, hState]
      | EventStorageMounted => exact absurd rfl hi
      | EventContentURI uri =>
        simp only [step, SetContentURI]
        split <;> exact hState
      | EventEndOfStream =>
        simp only [step]
        rw [Stop_State, hState]
      | EventPreparing => exact hState
      | EventTrackDestroyed id =>
        simp only [step, DestroyTrack]
        split <;> split <;> exact hState
      | EventTrackCreated id => exact hState
      | other n => exact hState
  · simp [step, SetState, hState]

/-- Witness of C17: six state changes, with ticks between them, in an engine that
storage has unmounted. -/
theorem unmounted_rejects_state_changes_witness :
    (WithState New StateStorageUnmounted).State = StateStorageUnmounted ∧
    unmountedSequence.countP isStateChange = 6 ∧
    (Consume testEnv (WithState New StateStorageUnmounted) unmountedSequence).errors =
      List.replicate 6 (some Error.ErrStorageUnmounted) ∧
    (Consume testEnv (WithState New StateStorageUnmounted) unmountedSequence).emitted = [] ∧
    (Consume testEnv (WithState New StateStorageUnmounted) unmountedSequence).player.State =
      StateStorageUnmounted :=
  ⟨rfl, by decide,
    (unmounted_rejects_state_changes testEnv ⟨DumbResolver, rfl, fun _ _ => ⟨_, rfl⟩⟩
      (WithState New StateStorageUnmounted) (by decide) rfl unmountedSequence
      (by decide)).2.1,
    (unmounted_rejects_state_changes testEnv ⟨DumbResolver, rfl, fun _ _ => ⟨_, rfl⟩⟩
      (WithState New StateStorageUnmounted) (by decide) rfl unmountedSequence
      (by decide)).2.2.1,
    (unmounted_rejects_state_changes testEnv ⟨DumbResolver, rfl, fun _ _ => ⟨_, rfl⟩⟩
      (WithState New StateStorageUnmounted) (by decide) rfl unmountedSequence
      (by decide)).2.2.2.1⟩

/-- C20 fails. After `ContentURI "/a"`, `TrackCreated "1"`, `Preparing`,
`ContentURI "/b"`, `EndOfStream` and `TrackDestroyed "1"` on a fresh engine the uri of the
next slot is still `"/b"`, and the current slot is the one that was cleared. -/
theorem DestroyTrack_leaves_next_uri :
    (Consume testEnv New
      (handoverSequence "/a" "/b" "1" ++
        [Input.event (Event.EventTrackDestroyed "1")])).player.NextTrack.ContentURI = "/b" ∧
    (Consume testEnv New
      (handoverSequence "/a" "/b" "1" ++
        [Input.event (Event.EventTrackDestroyed "1")])).player.CurrentTrack.ContentURI = "" := by
  decide

/-- C20, amended. For non-empty uris `a`, `b` and a non-empty track id `t`: after
`ContentURI a`, `TrackCreated t`, `Preparing`, `ContentURI b`, `EndOfStream` on a fresh
engine both slots hold the uri `b` and the current slot the id `t`; the following
`TrackDestroyed t` emits nothing, clears the current slot and leaves the next slot, whose
id is empty, as it is, so that the uri of the next slot is still `b`. -/
theorem DestroyTrack_after_handover (env : Env) (a b t : String)
    (ha : a ≠ "") (hb : b ≠ "") (ht : t ≠ "") :
    (Consume env New (handoverSequence a b t)).player.CurrentTrack =
      { ContentURI := b, PlayingFor := 0, TrackID := t } ∧
    (Consume env New (handoverSequence a b t)).player.NextTrack =
      { ContentURI := b, PlayingFor := 0, TrackID := "" } ∧
    Consume env New (handoverSequence a b t ++ [Input.event (Event.EventTrackDestroyed t)]) =
      { player := { New with NextTrack := { ContentURI := b, PlayingFor := 0, TrackID := "" } }
        emitted := [], errors := [], panicked := false } := by
  have ht' : ¬ ("" = t) := fun h => ht h.symm
  simp [handoverSequence, Consume, step, SetContentURI, CreateTrack, Stop, DestroyTrack, New,
    Content.empty, Content.Valid, ha, hb, ht']

/-- Witness of C20, amended: the uris `"/a"`, `"/b"` and the track id `"1"`. -/
theorem DestroyTrack_after_handover_witness :
    Consume testEnv New
      (handoverSequence "/a" "/b" "1" ++ [Input.event (Event.EventTrackDestroyed "1")]) =
      { player := { New with NextTrack := { ContentURI := "/b", PlayingFor := 0, TrackID := "" } }
        emitted := [], errors := [], panicked := false } :=
  (DestroyTrack_after_handover testEnv "/a" "/b" "1" (by decide) (by decide) (by decide)).2.2

/-- No reading of `staticClock` is zero. -/
theorem staticClock_ne_zero (n : Nat) : staticClock n ≠ 0 := by
  unfold staticClock
  omega

/-- In the environment of the tests `Resolve` returns the descriptor of `DumbResolver`
for a non-empty uri that is not a beep. -/
theorem Resolve_testEnv (p : AudioPlayer) (u : String) (hu : u ≠ "")
    (hbeep : Contains u BeepIgnore = false) :
    Resolve testEnv p u =
      (ResolveOutcome.ret (some (DumbContent u)) none,
        { p with resolverCalls := p.resolverCalls + 1 }) := by
  unfold Resolve
  simp [hu, hbeep, testEnv, DumbResolver, DumbContent]

/-- The first tick of a playback in the environment of the tests: the uri is resolved,
the descriptor stamped and one second counted. -/
theorem Tick_first (p : AudioPlayer) (u : String) (hu : u ≠ "")
    (hbeep : Contains u BeepIgnore = false) (hS : p.State = StateExecuting)
    (hA : p.CurrentContent.Attempted = false) (hU : p.CurrentTrack.ContentURI = u)
    (hP : p.CurrentTrack.PlayingFor = 0) (hdiv : p.divider = 2) :
    Tick testEnv p = TickResult.ok (tickedEngine p u 1 false) [] none := by
  have hR := Resolve_testEnv p u hu hbeep
  have hw : wrapInt 1 = 1 := by decide
  have hg : goDiv (intOfUint 10) 2 = 5 := by decide
  have hc := staticClock_ne_zero p.clockReads
  unfold Tick tickResolve
  rw [hU, hR]
  simp [hA, hu, hdiv, tickBody, tickAdvance, hS, hP, DumbContent, Content.empty,
    Content.Valid, hw, hg, hc, tickedEngine, testEnv]

/-- A later tick of a playback below the threshold of five seconds counts one more
second and emits nothing. -/
theorem Tick_counting (p : AudioPlayer) (u : String) (hu : u ≠ "") (k : Int)
    (hS : p.State = StateExecuting) (h0 : 0 ≤ k) (hk : k + 1 < 5) :
    Tick testEnv (tickedEngine p u k false) =
      TickResult.ok (tickedEngine p u (k + 1) false) [] none := by
  have hw : wrapInt (k + 1) = k + 1 := wrapInt_of_range _ (by omega) (by omega)
  have hc := staticClock_ne_zero p.clockReads
  have hlt : ¬ (5 ≤ k + 1) := by omega
  rw [Tick_of_attempted _ _ rfl]
  simp [tickBody, tickAdvance, tickedEngine, hS, DumbContent, Content.empty,
    Content.Valid, hw, hc, hu, hlt]

/-- The fifth tick of a playback reaches the threshold and emits the listened verdict. -/
theorem Tick_fifth (p : AudioPlayer) (u : String) (hu : u ≠ "")
    (hS : p.State = StateExecuting) :
    Tick testEnv (tickedEngine p u 4 false) =
      TickResult.ok (tickedEngine p u 5 true)
        [listenedVerdict u (staticClock p.clockReads)] none := by
  have hw : wrapInt 5 = 5 := by decide
  have hc := staticClock_ne_zero p.clockReads
  rw [Tick_of_attempted _ _ rfl]
  simp [tickBody, tickAdvance, tickedEngine, hS, DumbContent, Content.empty,
    Content.Valid, hw, hc, hu, listenedVerdict]

/-- Five ticks of a playback in the environment of the tests: one listened verdict, at
the fifth tick. -/
theorem Consume_five_ticks (p : AudioPlayer) (u : String) (hu : u ≠ "")
    (hbeep : Contains u BeepIgnore = false) (hS : p.State = StateExecuting)
    (hA : p.CurrentContent.Attempted = false) (hU : p.CurrentTrack.ContentURI = u)
    (hP : p.CurrentTrack.PlayingFor = 0) (hdiv : p.divider = 2) :
    Consume testEnv p (List.replicate 5 Input.tick) =
      { player := tickedEngine p u 5 true
        emitted := [listenedVerdict u (staticClock p.clockReads)]
        errors := [], panicked := false } := by
  have h1 := step_tick_ok _ _ _ _ (Tick_first p u hu hbeep hS hA hU hP hdiv)
  have h2 := step_tick_ok _ _ _ _ (Tick_counting p u hu 1 hS (by decide) (by decide))
  have h3 := step_tick_ok _ _ _ _ (Tick_counting p u hu 2 hS (by decide) (by decide))
  have h4 := step_tick_ok _ _ _ _ (Tick_counting p u hu 3 hS (by decide) (by decide))
  have h5 := step_tick_ok _ _ _ _ (Tick_fifth p u hu hS)
  norm_num at h2 h3 h4
  simp only [List.replicate, Consume, h1, h2, h3, h4, h5, Bool.false_eq_true, if_false,
    List.nil_append, List.append_nil]

/-- The run of `playedHandover` on a fresh engine with listen-percent 50 in the
environment of the tests: one listened verdict, and both slots hold the uri `b`. -/
theorem Consume_playedHandover (a b t bef : String) (ha : a ≠ "")
    (hbeep : Contains a BeepIgnore = false) (hb : b ≠ "") :
    Consume testEnv (WithListenPercent New 50) (playedHandover a b t bef) =
      { player :=
          { New with
            State := StateExecuting
            StateBefore := StateExecuting
            CurrentTrack := { ContentURI := b, PlayingFor := 0, TrackID := t }
            NextTrack := { ContentURI := b, PlayingFor := 0, TrackID := "" }
            CurrentContent := DumbContent a
            minimumListenDuration := 5
            resolverCalls := 1
            clockReads := 1 }
        emitted := [listenedVerdict a 12345]
        errors := [none]
        panicked := false } := by
  have h1 := Consume_start testEnv a t bef
  have h2 := Consume_five_ticks (startedEngine a t) a ha hbeep rfl rfl rfl rfl rfl
  unfold playedHandover
  rw [Consume_append _ _ _ _ (by rw [h1]), h1]
  simp only
  rw [Consume_append _ _ _ _ (by rw [h2]), h2]
  simp [Consume, step, SetContentURI, Stop, tickedEngine, startedEngine, New, ha, hb,
    DumbContent, Content.empty, listenedVerdict, staticClock]

/-- C19 fails. On the sequence of the claim with the uris `"/a"`, `"/b"` and the track id
`"1"` the one verdict is emitted, but the destroy of track `"1"` clears the current slot:
the engine ends with an empty current uri, and `"/b"` is in the next slot.  With a uri
that contains `WM_BEEP` in the place of `"/a"` no verdict is emitted. -/
theorem next_track_ends_with_empty_current :
    (Consume testEnv (WithListenPercent New 50)
      (playedHandover "/a" "/b" "1" "OMX_StateIdle" ++
        [Input.event (Event.EventTrackDestroyed "1")])).emitted =
      [listenedVerdict "/a" 12345] ∧
    (Consume testEnv (WithListenPercent New 50)
      (playedHandover "/a" "/b" "1" "OMX_StateIdle" ++
        [Input.event (Event.EventTrackDestroyed "1")])).player.CurrentTrack.ContentURI = "" ∧
    (Consume testEnv (WithListenPercent New 50)
      (playedHandover "/a" "/b" "1" "OMX_StateIdle" ++
        [Input.event (Event.EventTrackDestroyed "1")])).player.NextTrack.ContentURI = "/b" ∧
    (Consume testEnv (WithListenPercent New 50)
      (playedHandover "/WM_BEEP" "/b" "1" "OMX_StateIdle" ++
        [Input.event (Event.EventTrackDestroyed "1")])).emitted = [] := by
  decide

/-- C19, amended. With the stub resolver, listen-percent 50 and the clock starting at
12345, for non-empty uris `a` and `b`, `a` not containing `WM_BEEP`, and a non-empty track
id `t`: the sequence `ContentURI a`, `TrackCreated t`, state change to `Executing`, five
ticks, `Preparing`, `ContentURI b`, `EndOfStream`, `TrackDestroyed t` on a fresh engine
emits exactly one verdict (title `a`, rating true, stamp 12345), does not panic, and
leaves the current slot cleared and the uri `b` in the next slot.  The current uri is `b`
after `EndOfStream`, and it is `b` at the end when a track with another id is created
before the destroy. -/
theorem next_track_transition (a b t bef : String) (ha : a ≠ "")
    (hbeep : Contains a BeepIgnore = false) (hb : b ≠ "") (ht : t ≠ "") :
    Consume testEnv (WithListenPercent New 50)
        (playedHandover a b t bef ++ [Input.event (Event.EventTrackDestroyed t)]) =
      { player :=
          { New with
            State := StateExecuting
            StateBefore := StateExecuting
            NextTrack := { ContentURI := b, PlayingFor := 0, TrackID := "" }
            minimumListenDuration := 5
            resolverCalls := 1
            clockReads := 1 }
        emitted := [listenedVerdict a 12345]
        errors := [none]
        panicked := false } ∧
    listenedVerdict a 12345 =
      PlayerEvent.PlayerEventTrackListened
        { Artist := "artist", Album := "album", Track := a, TrackNumber := "1",
          Duration := 10, Rating := true, StartedAt := 12345, MusicBrainzTID := "",
          SampleRate := 0, Bitrate := 0, Channels := 0, BitDepth := 0, Attempted := true } ∧
    (Consume testEnv (WithListenPercent New 50)
      (playedHandover a b t bef)).player.CurrentTrack.ContentURI = b ∧
    (∀ t2 : String, t2 ≠ t →
      (Consume testEnv (WithListenPercent New 50)
        (playedHandover a b t bef ++
          [Input.event (Event.EventTrackCreated t2),
            Input.event (Event.EventTrackDestroyed t)])).player.CurrentTrack.ContentURI
        = b) := by
  have h := Consume_playedHandover a b t bef ha hbeep hb
  have ht' : ¬ ("" = t) := fun e => ht e.symm
  refine ⟨?_, rfl, ?_, ?_⟩
  · rw [Consume_append _ _ _ _ (by rw [h]), h]
    simp [Consume, step, DestroyTrack, New, DumbContent, Content.empty, Content.Valid, ht']
  · rw [h]
  · intro t2 h2
    rw [Consume_append _ _ _ _ (by rw [h]), h]
    simp [Consume, step, CreateTrack, DestroyTrack, New, DumbContent, Content.empty,
      Content.Valid, ht', h2]

/-- Witness of C19, amended: the uris `"/a"`, `"/b"` and the track id `"1"`. -/
theorem next_track_transition_witness :
    (Consume testEnv (WithListenPercent New 50)
      (playedHandover "/a" "/b" "1" "OMX_StateIdle")).player.CurrentTrack.ContentURI = "/b" :=
  (next_track_transition "/a" "/b" "1" "OMX_StateIdle" (by decide) (by decide) (by decide)
    (by decide)).2.2.1

/-- The state change `Pause → Executing` at the start of a repetition is committed: the
engine is in `Executing` with nothing else changed but `StateBefore`. -/
theorem loopEngine_start (l : String) (j : Nat) :
    ∃ q, Consume testEnv (loopEngine l j)
        [Input.event (Event.EventPlayerStateChange "OMX_StatePause" "OMX_StateExecuting")] =
        { player := q, emitted := [], errors := [none], panicked := false } ∧
      q.State = StateExecuting ∧ q.CurrentContent.Attempted = false ∧
      q.CurrentTrack = { ContentURI := l, PlayingFor := 0, TrackID := "" } ∧
      q.divider = 2 ∧ q.NextTrack = New.NextTrack ∧ q.Preparing = false ∧
      q.resolverCalls = j ∧ q.clockReads = j := by
  cases j with
  | zero =>
    exact ⟨{ WithCurrentTrack (WithListenPercent New 50) l 0 with
        State := StateExecuting, StateBefore := StateExecuting },
      by simp [loopEngine, Consume, step, SetState, State, WithCurrentTrack,
        WithListenPercent, New, StateStart, StateStorageUnmounted, StateStorageMounted,
        StateExecuting, StatePause],
      rfl, rfl, rfl,
      (by show (WithListenPercent New 50).divider = 2
          decide),
      rfl, rfl, rfl, rfl⟩
  | succ j =>
    exact ⟨{ loopEngine l (j + 1) with
        State := StateExecuting, StateBefore := StatePause },
      by simp [loopEngine, Consume, step, SetState, State, New, StateStart,
        StateStorageUnmounted, StateStorageMounted, StateExecuting, StatePause, StateIdle],
      rfl, rfl, rfl, rfl, rfl, rfl, rfl, rfl⟩

/-- One repetition of the looped uri `l` from the engine `loopEngine l j`: one listened
verdict, stamped with the reading number `j` of the clock, and the engine is
`loopEngine l (j + 1)`. -/
theorem Consume_loopRepetition (l : String) (hl : l ≠ "")
    (hbeep : Contains l BeepIgnore = false) (j : Nat) :
    Consume testEnv (loopEngine l j) loopRepetition =
      { player := loopEngine l (j + 1)
        emitted := [listenedVerdict l (staticClock j)]
        errors := [none, none, none, none, none]
        panicked := false } := by
  obtain ⟨q, hq, hS, hA, hT, hd, hN, hP, hc, hr⟩ := loopEngine_start l j
  have h5 := Consume_five_ticks q l hl hbeep hS hA (by rw [hT]) (by rw [hT]) hd
  unfold loopRepetition
  rw [Consume_append _ _ _ _ (by rw [hq]), hq]
  simp only
  rw [Consume_append _ _ _ _ (by rw [h5]), h5]
  simp [Consume, step, Stop, SetState, State, tickedEngine, loopEngine, New, hS, hT, hd,
    hN, hP, hc, hr, DumbContent, Content.empty, StateStart, StateStorageUnmounted,
    StateStorageMounted, StateExecuting, StatePause, StateIdle, StateLoaded]

/-- The run of `n` repetitions of the looped uri `l` from the engine `loopEngine l j`: one
listened verdict for each repetition, stamped with the readings `j`, `j + 1`, … of the
clock. -/
theorem Consume_loopPlayback (l : String) (hl : l ≠ "")
    (hbeep : Contains l BeepIgnore = false) (n : Nat) :
    ∀ j : Nat, Consume testEnv (loopEngine l j) (loopPlayback n) =
      { player := loopEngine l (j + n)
        emitted := (List.range n).map (fun i => listenedVerdict l (staticClock (j + i)))
        errors := List.replicate (5 * n) none
        panicked := false } := by
  induction n with
  | zero =>
    intro j
    rfl
  | succ n ih =>
    intro j
    have hrep := Consume_loopRepetition l hl hbeep j
    have e1 : j + 1 + n = j + (n + 1) := by omega
    have e2 : List.map (fun i => listenedVerdict l (staticClock (j + i)))
        (List.range (n + 1)) =
        [listenedVerdict l (staticClock j)] ++
          List.map (fun i => listenedVerdict l (staticClock (j + 1 + i))) (List.range n) := by
      rw [List.range_succ_eq_map, List.map_cons, List.map_map]
      simp only [List.singleton_append, Nat.add_zero, List.cons.injEq, true_and]
      apply List.map_congr_left
      intro i _
      simp only [Function.comp_apply, Nat.succ_eq_add_one]
      rw [show j + (i + 1) = j + 1 + i by omega]
    have e3 : List.replicate (5 * (n + 1)) (none : Option Error) =
        [none, none, none, none, none] ++ List.replicate (5 * n) none := by
      rw [show 5 * (n + 1) = 5 + 5 * n by omega, List.replicate_add]
      rfl
    show Consume testEnv (loopEngine l j) (loopRepetition ++ loopPlayback n) = _
    rw [Consume_append _ _ _ _ (by rw [hrep]), hrep]
    simp only
    rw [ih (j + 1), e1, e2, e3]

/-- C18. Loop playback of a track `l`, a uri that the engine resolves (it is not empty and
is not a beep): from a fresh engine with listen-percent 50 and `l` in the current slot,
with the stub resolver and the clock of the tests, `n` repetitions of the loop do not
panic and emit exactly `n` verdicts, all of them with the title `l` and the rating true,
the one of the repetition number `i` (counted from 0) with the stamp `12345 + i`. -/
theorem loop_playback (l : String) (hl : l ≠ "") (hbeep : Contains l BeepIgnore = false)
    (n : Nat) :
    (Consume testEnv (WithCurrentTrack (WithListenPercent New 50) l 0)
      (loopPlayback n)).panicked = false ∧
    (Consume testEnv (WithCurrentTrack (WithListenPercent New 50) l 0)
      (loopPlayback n)).emitted.length = n ∧
    (Consume testEnv (WithCurrentTrack (WithListenPercent New 50) l 0)
      (loopPlayback n)).emitted =
      (List.range n).map (fun (i : Nat) =>
        PlayerEvent.PlayerEventTrackListened
          { Artist := "artist", Album := "album", Track := l, TrackNumber := "1",
            Duration := 10, Rating := true, StartedAt := 12345 + (i : Int),
            MusicBrainzTID := "", SampleRate := 0, Bitrate := 0, Channels := 0,
            BitDepth := 0, Attempted := true }) := by
  have h := Consume_loopPlayback l hl hbeep n 0
  have h0 : loopEngine l 0 = WithCurrentTrack (WithListenPercent New 50) l 0 := rfl
  rw [h0] at h
  rw [h]
  refine ⟨rfl, by simp, ?_⟩
  apply List.map_congr_left
  intro i _
  simp [listenedVerdict, staticClock, DumbContent, Content.empty]

/-- Witness of C18: three repetitions give the stamps 12345, 12346, 12347. -/
theorem loop_playback_witness :
    (Consume testEnv (WithCurrentTrack (WithListenPercent New 50) "/l.mp3" 0)
      (loopPlayback 3)).emitted.length = 3 ∧
    startedAts (Consume testEnv (WithCurrentTrack (WithListenPercent New 50) "/l.mp3" 0)
      (loopPlayback 3)).emitted = [12345, 12346, 12347] :=
  ⟨(loop_playback "/l.mp3" (by decide) (by decide) 3).2.1, by
    rw [(loop_playback "/l.mp3" (by decide) (by decide) 3).2.2]
    decide⟩

/-- What `Resolve` returns, case by case.  For a uri that is empty or contains `WM_BEEP`:
the empty descriptor and no error without a call to the resolver, whether one is
configured or not.  For every other uri: with a resolver configured it makes one call and
returns the descriptor of the resolver and no error when the resolver returns no error,
and the nil descriptor with the error of the resolver when the resolver returns an error;
with no resolver configured it returns the empty descriptor and an error. -/
theorem Resolve_contract (env : Env) (p : AudioPlayer) (uri : String) :
    ((uri = "" ∨ Contains uri BeepIgnore = true) →
      Resolve env p uri = (ResolveOutcome.ret (some Content.empty) none, p)) ∧
    (uri ≠ "" → Contains uri BeepIgnore = false →
      (∀ (r : Resolver) (c : Content), env.resolver = some r →
        r p.resolverCalls uri = { content := some c, err := none } →
        Resolve env p uri =
          (ResolveOutcome.ret (some c) none,
            { p with resolverCalls := p.resolverCalls + 1 })) ∧
      (∀ (r : Resolver) (x : Option Content) (e : Error), env.resolver = some r →
        r p.resolverCalls uri = { content := x, err := some e } →
        Resolve env p uri =
          (ResolveOutcome.ret none (some e),
            { p with resolverCalls := p.resolverCalls + 1 })) ∧
      (env.resolver = none →
        Resolve env p uri =
          (ResolveOutcome.ret (some Content.empty) (some Error.noResolverProvided), p))) := by
  constructor
  · rintro (h | h)
    · unfold Resolve
      simp [h]
    · unfold Resolve
      simp [h]
  · intro hu hb
    refine ⟨?_, ?_, ?_⟩
    · intro r c hr hc
      unfold Resolve
      simp [hu, hb, hr, hc]
    · intro r x e hr hc
      unfold Resolve
      simp [hu, hb, hr, hc]
    · intro hr
      unfold Resolve
      simp [hu, hb, hr]

/-- C21. `Resolve` does not return what the resolver returns when the resolver returns a
descriptor together with an error, as `DBResolver.Resolve` does for a row it cannot scan:
for a uri that is not empty and not a beep, `Resolve` calls the resolver once and returns
the nil descriptor with the error, not the descriptor of the resolver; the path without a
resolver returns the empty descriptor with its error. -/
theorem Resolve_returns_nil_on_error (env : Env) (p : AudioPlayer) (uri : String)
    (r : Resolver) (c : Content) (e : Error) (hu : uri ≠ "")
    (hb : Contains uri BeepIgnore = false) (hr : env.resolver = some r)
    (hc : r p.resolverCalls uri = { content := some c, err := some e }) :
    Resolve env p uri =
      (ResolveOutcome.ret none (some e), { p with resolverCalls := p.resolverCalls + 1 }) ∧
    (Resolve env p uri).1 ≠ ResolveOutcome.ret (some c) (some e) ∧
    Resolve { env with resolver := none } p uri =
      (ResolveOutcome.ret (some Content.empty) (some Error.noResolverProvided), p) := by
  have h1 : Resolve env p uri =
      (ResolveOutcome.ret none (some e), { p with resolverCalls := p.resolverCalls + 1 }) := by
    unfold Resolve
    simp [hu, hb, hr, hc]
  refine ⟨h1, ?_, ?_⟩
  · rw [h1]
    simp
  · unfold Resolve
    simp [hu, hb]

/-- Witness of C21: the uri `/a` with `failingResolver`, which returns the empty descriptor
together with its error. -/
theorem Resolve_returns_nil_on_error_witness :
    failingResolver New.resolverCalls "/a" =
      { content := some Content.empty, err := some (Error.other "cannot scan row") } ∧
    Resolve { resolver := some failingResolver, clock := staticClock } New "/a" =
      (ResolveOutcome.ret none (some (Error.other "cannot scan row")),
        { New with resolverCalls := New.resolverCalls + 1 }) :=
  ⟨rfl, (Resolve_returns_nil_on_error { resolver := some failingResolver, clock := staticClock }
    New "/a" failingResolver Content.empty (Error.other "cannot scan row") (by decide)
    (by decide) rfl rfl).1⟩

/-- C23. `WithListenPercent(P)` stores `100 / P` for `0 < P ≤ 100` and 2 otherwise; the
divider is at least 1 for every `P` and in `New()`; with a resolver that never fails
`Tick` then does not panic, so it does not divide by zero; and with the duration 10 and
`P = 50` the minimum listen duration that `Tick` computes is 5. -/
theorem WithListenPercent_divider (p : AudioPlayer) (P : Int) :
    ((0 < P ∧ P ≤ 100) → (WithListenPercent p P).divider = 100 / P) ∧
    (¬ (0 < P ∧ P ≤ 100) → (WithListenPercent p P).divider = 2) ∧
    1 ≤ (WithListenPercent p P).divider ∧
    1 ≤ New.divider ∧
    (∀ env : Env, ResolverNeverFails env →
      Tick env (WithListenPercent p P) ≠ TickResult.panic) ∧
    goDiv (intOfUint 10) (WithListenPercent p 50).divider = 5 ∧
    (∀ u : String, u ≠ "" → Contains u BeepIgnore = false →
      ∃ q, Tick testEnv (WithState (WithCurrentTrack (WithListenPercent New 50) u 0)
          StateExecuting) = TickResult.ok q [] none ∧ q.minimumListenDuration = 5) := by
  have hin : (0 < P ∧ P ≤ 100) → (WithListenPercent p P).divider = 100 / P ∧
      1 ≤ (100 : Int) / P := by
    rintro ⟨h0, h1⟩
    have hge : 1 ≤ (100 : Int) / P := Int.le_ediv_of_mul_le h0 (by omega)
    have hle : (100 : Int) / P ≤ 100 := Int.ediv_le_self _ (by decide)
    have hc : ¬ (P ≤ 0 ∨ P > 100) := by omega
    refine ⟨?_, hge⟩
    simp only [WithListenPercent, hc, if_false, goDiv]
    rw [Int.tdiv_eq_ediv (by decide) (le_of_lt h0)]
    exact wrapInt_of_range _ (by omega) (by omega)
  have hout : ¬ (0 < P ∧ P ≤ 100) → (WithListenPercent p P).divider = 2 := by
    intro h
    have hc : P ≤ 0 ∨ P > 100 := by omega
    simp only [WithListenPercent, hc, if_true]
    decide
  have hpos : 1 ≤ (WithListenPercent p P).divider := by
    by_cases h : 0 < P ∧ P ≤ 100
    · rw [(hin h).1]
      exact (hin h).2
    · rw [hout h]
      decide
  refine ⟨fun h => (hin h).1, hout, hpos, by decide, ?_, ?_, ?_⟩
  · intro env hres hT
    obtain ⟨q, hq⟩ := tickResolve_of_never_fails env hres (WithListenPercent p P)
      (by omega)
    unfold Tick at hT
    rw [hq] at hT
    exact tickBody_ne_panic env q hT
  · have h50 : (WithListenPercent p 50).divider = 2 := by
      show goDiv 100 (if (50 : Int) ≤ 0 ∨ (50 : Int) > 100 then 50 else 50) = 2
      decide
    rw [h50]
    decide
  · intro u hu hb
    exact ⟨_, Tick_first _ u hu hb rfl rfl rfl rfl
      (by show (WithListenPercent New 50).divider = 2
          decide), rfl⟩

/-- The body of `Tick` emits nothing for a descriptor without artist, and keeps it so. -/
theorem tickBody_no_artist (env : Env) (q : AudioPlayer)
    (h : q.CurrentContent.Artist = "") :
    ∃ q', tickBody env q = TickResult.ok q' [] none ∧ q'.CurrentContent.Artist = "" ∧
      q'.resolverCalls = q.resolverCalls := by
  have hA : (tickAdvance env q).CurrentContent.Artist = "" ∧
      (tickAdvance env q).resolverCalls = q.resolverCalls := by
    unfold tickAdvance
    simp only
    split <;> exact ⟨h, rfl⟩
  by_cases hE : q.State ≠ StateExecuting
  · exact ⟨q, by unfold tickBody; rw [if_pos hE], h, rfl⟩
  · refine ⟨tickAdvance env q, ?_, hA.1, hA.2⟩
    unfold tickBody
    rw [if_neg hE]
    simp [Content.Valid, hA.1]

/-- A uri that contains `WM_BEEP` is answered by `Resolve` itself. -/
theorem Resolve_beep (env : Env) (p : AudioPlayer) (uri : String)
    (h : Contains uri BeepIgnore = true) :
    Resolve env p uri = (ResolveOutcome.ret (some Content.empty) none, p) := by
  unfold Resolve
  split
  · rfl
  · simp [h]

/-- With a uri that contains `WM_BEEP` in the current slot and no descriptor of an
earlier track in place, `Tick` emits nothing, makes no call to the resolver and leaves a
descriptor without artist (or panics, on a zero divider). -/
theorem Tick_beep (env : Env) (p : AudioPlayer)
    (hb : Contains p.CurrentTrack.ContentURI BeepIgnore = true)
    (hq : NoEarlierDescriptor p) :
    Tick env p = TickResult.panic ∨
    ∃ q', Tick env p = TickResult.ok q' [] none ∧ q'.CurrentContent.Artist = "" ∧
      q'.resolverCalls = p.resolverCalls := by
  by_cases hA : p.CurrentContent.Attempted = true
  · right
    have hart : p.CurrentContent.Artist = "" := by
      rcases hq with h | ⟨h, _⟩
      · exact h
      · rw [hA] at h
        exact absurd h (by decide)
    rw [Tick_of_attempted env p hA]
    exact tickBody_no_artist env p hart
  · have hu : p.CurrentTrack.ContentURI ≠ "" := by
      intro h
      rw [h] at hb
      exact absurd hb (by decide)
    have hR := Resolve_beep env p _ hb
    by_cases hd : p.divider = 0
    · left
      unfold Tick tickResolve
      rw [hR]
      simp [hA, hu, hd]
    · right
      obtain ⟨q', h1, h2, h3⟩ := tickBody_no_artist env
        { p with
          CurrentContent := { Content.empty with Attempted := true, Rating := false }
          minimumListenDuration := goDiv (intOfUint Content.empty.Duration) p.divider } rfl
      refine ⟨q', ?_, h2, h3⟩
      rw [← h1]
      unfold Tick tickResolve
      rw [hR]
      simp [hA, hu, hd]

/-- With a uri that contains `WM_BEEP` in the current slot and no descriptor of an
earlier track in place, no input yields a verdict or a call to the resolver, and no
descriptor of an earlier track is in place afterwards. -/
theorem step_beep (env : Env) (p : AudioPlayer)
    (hb : Contains p.CurrentTrack.ContentURI BeepIgnore = true)
    (hq : NoEarlierDescriptor p) (i : Input) :
    (step env p i).emitted = [] ∧ NoEarlierDescriptor (step env p i).player ∧
    (step env p i).player.resolverCalls = p.resolverCalls := by
  have h02 : (0 : Int) ≤ 2 := by decide
  have hStop : ∀ q : AudioPlayer,
      NoEarlierDescriptor (Stop q) ∧ (Stop q).resolverCalls = q.resolverCalls := by
    intro q
    unfold Stop NoEarlierDescriptor
    simp only
    split <;> exact ⟨Or.inr ⟨rfl, h02⟩, rfl⟩
  have hSet : ∀ b a : Int, (SetState p b a).1.resolverCalls = p.resolverCalls := by
    intro b a
    unfold SetState
    repeat' split
    all_goals rfl
  cases i with
  | tick =>
    rcases Tick_beep env p hb hq with hT | ⟨q', hT, h2, h3⟩
    · simp only [step, hT]
      exact ⟨trivial, hq, trivial⟩
    · rw [step_tick_ok env p q' [] hT]
      exact ⟨rfl, Or.inl h2, h3⟩
  | event e =>
    cases e with
    | EventPlayerStateChange b a =>
      have hk := SetState_keeps p (State b) (State a)
      refine ⟨rfl, ?_, ?_⟩
      · unfold NoEarlierDescriptor
        simp only [step]
        rw [hk.1, hk.2.2.1]
        exact hq
      · exact hSet _ _
    | EventStorageMounted =>
      have hk := SetState_keeps p p.StateBefore StateStorageMounted
      refine ⟨rfl, ?_, ?_⟩
      · unfold NoEarlierDescriptor
        simp only [step]
        rw [hk.1, hk.2.2.1]
        exact hq
      · exact hSet _ _
    | EventStorageUnmounting =>
      refine ⟨rfl, ?_, ?_⟩
      · exact (hStop _).1
      · show (Stop (SetState p p.StateBefore StateStorageUnmounted).1).resolverCalls = _
        rw [(hStop _).2]
        exact hSet _ _
    | EventContentURI uri =>
      refine ⟨rfl, ?_, ?_⟩
      · simp only [step, SetContentURI]
        split
        · exact hq
        · rcases hq with h | ⟨h, _⟩
          · exact Or.inl h
          · exact Or.inr ⟨h, h02⟩
      · simp only [step, SetContentURI]
        split <;> rfl
    | EventEndOfStream => exact ⟨rfl, (hStop p).1, (hStop p).2⟩
    | EventPreparing => exact ⟨rfl, hq, rfl⟩
    | EventTrackDestroyed id =>
      refine ⟨?_, ?_, ?_⟩
      · simp only [step]
        rw [DestroyTrack_out p id]
        rcases hq with h | ⟨_, h⟩
        · simp [Content.Valid, h]
        · have : ¬ (p.CurrentTrack.PlayingFor > 2) := by omega
          simp [this]
      · simp only [step, DestroyTrack]
        split <;> split <;> exact Or.inl rfl
      · simp only [step, DestroyTrack]
        split <;> split <;> rfl
    | EventTrackCreated id => exact ⟨rfl, hq, rfl⟩
    | other n => exact ⟨rfl, hq, rfl⟩

/-- C22 fails. The uri `"/a"` is resolved and played for a second, then the uri of a beep
arrives: the descriptor of `"/a"` stays in place, and the fifth tick after the beep emits
its listened verdict while the uri of the current slot contains `WM_BEEP`. -/
theorem verdict_while_beep_is_current :
    (Consume testEnv New beepDuringPlayback).emitted = [] ∧
    (Consume testEnv New beepDuringPlayback).player.CurrentTrack.ContentURI = "/WM_BEEP" ∧
    Contains "/WM_BEEP" BeepIgnore = true ∧
    (step testEnv (Consume testEnv New beepDuringPlayback).player Input.tick).emitted =
      [listenedVerdict "/a" 12345] := by
  decide

/-- C22, amended. From an engine state in which no descriptor of an earlier track is in
place (the artist of the descriptor is empty, or the descriptor is not attempted and at
most two seconds are counted), along every sequence of parser events and ticks during
which the uri of the current slot contains `WM_BEEP`, no verdict is emitted, by a tick or
by a destroy, and the resolver is not called. -/
theorem beep_never_emits (env : Env) (inputs : List Input) (p : AudioPlayer)
    (hq : NoEarlierDescriptor p) (hb : beepAlong env p inputs = true) :
    (Consume env p inputs).emitted = [] ∧
    (Consume env p inputs).player.resolverCalls = p.resolverCalls := by
  induction inputs generalizing p with
  | nil => exact ⟨rfl, rfl⟩
  | cons i rest ih =>
    simp only [beepAlong, Bool.and_eq_true] at hb
    obtain ⟨h1, h2, h3⟩ := step_beep env p hb.1 hq i
    obtain ⟨k1, k2⟩ := ih (step env p i).player h2 hb.2
    simp only [Consume]
    split
    · exact ⟨h1, h3⟩
    · exact ⟨by simp only [h1, k1, List.append_nil], by simp only [k2, h3]⟩

/-- Witness of C22, amended: the uri of a beep arrives at a fresh engine; ten ticks in
`Executing` and the destroy of the track emit nothing. -/
theorem beep_never_emits_witness :
    NoEarlierDescriptor (SetContentURI New "/WM_BEEP") ∧
    beepAlong testEnv (SetContentURI New "/WM_BEEP") beepSequence = true ∧
    (Consume testEnv (SetContentURI New "/WM_BEEP") beepSequence).emitted = [] :=
  ⟨Or.inl rfl, by decide,
    (beep_never_emits testEnv beepSequence (SetContentURI New "/WM_BEEP") (Or.inl rfl)
      (by decide)).1⟩

/-- C34. Deduplication: for a pipeline state `after` and `before ≠ after`, a second call
`SetState(before, after)` right after the first leaves the engine as the first call left
it (in particular `State`, `StateBefore` and `Preparing`), and returns what the first
returned. -/
theorem SetState_twice (p : AudioPlayer) (before after : Int)
    (hafter : after ∈ pipelineStates) (hne : before ≠ after) :
    (SetState (SetState p before after).1 before after).1 = (SetState p before after).1 ∧
    (SetState (SetState p before after).1 before after).2 = (SetState p before after).2 := by
  obtain ⟨ha0, ha1, ha2⟩ := pipelineStates_ne after hafter
  have hna : after ≠ before := fun h => hne h.symm
  have hst : ¬ (after = StateStorageUnmounted ∨ after = StateStorageMounted) := by
    rintro (h | h)
    · exact ha1 h
    · exact ha2 h
  by_cases h1 : p.State = StateStorageUnmounted
  · have e : SetState p before after = (p, some Error.ErrStorageUnmounted) := by
      unfold SetState
      rw [if_pos ⟨h1, ha2⟩]
    rw [e]
    exact ⟨by rw [e], by rw [e]⟩
  · have hg : ¬ (p.State = StateStorageUnmounted ∧ after ≠ StateStorageMounted) :=
      fun h => h1 h.1
    have hignore : ∀ q : AudioPlayer, q.State = after →
        SetState q before after = (q, none) := by
      intro q hq
      unfold SetState
      rw [if_neg (fun h => ha1 (hq ▸ h.1)), if_neg hst, if_neg (hq ▸ ha0),
        if_pos ⟨hq ▸ hna, hq ▸ ha2, hq ▸ ha1⟩]
    by_cases h2 : p.State = StateStart
    · have e : SetState p before after =
          ({ p with StateBefore := after, State := after }, none) := by
        unfold SetState
        rw [if_neg hg, if_neg hst, if_pos h2]
      rw [e]
      simp only
      rw [hignore _ rfl]
      exact ⟨rfl, rfl⟩
    · by_cases h3 : p.State ≠ before ∧ p.State ≠ StateStorageMounted ∧
          p.State ≠ StateStorageUnmounted
      · have e : SetState p before after = (p, none) := by
          unfold SetState
          rw [if_neg hg, if_neg hst, if_neg h2, if_pos h3]
        rw [e]
        exact ⟨by rw [e], by rw [e]⟩
      · have e : SetState p before after =
            ({ (if after = StateLoaded then { p with Preparing := false } else p) with
                StateBefore := (if after = StateLoaded then { p with Preparing := false }
                  else p).State
                State := after }, none) := by
          unfold SetState
          rw [if_neg hg, if_neg hst, if_neg h2, if_neg h3]
        rw [e]
        simp only
        rw [hignore _ rfl]
        exact ⟨rfl, rfl⟩

/-- Witness of C34: the duplicated report `Idle → Pause` of the audio renderer and of the
demuxer. -/
theorem SetState_twice_witness :
    (SetState (SetState (WithState New StateIdle) StateIdle StatePause).1 StateIdle
      StatePause).1 = (SetState (WithState New StateIdle) StateIdle StatePause).1 :=
  (SetState_twice (WithState New StateIdle) StateIdle StatePause (by decide) (by decide)).1

/-- A name that is not a key of the map `State` gives the zero value, `Start`. -/
theorem State_of_unknown (name : String) (h : name ∉ stateNames) : State name = StateStart := by
  simp only [stateNames, List.mem_cons, List.mem_singleton, List.not_mem_nil, or_false,
    not_or] at h
  obtain ⟨h1, h2, h3, h4, h5, h6, h7⟩ := h
  unfold State
  rw [if_neg h1, if_neg h2, if_neg h3, if_neg h4, if_neg h5, if_neg h6, if_neg h7]
  rfl

/-- C39. A state change whose `After` name is not a key of the map `State` has the target
`Start`: handled in a pipeline state that `Before` names, or in `StorageMounted`, it is
committed, with `State` set to `Start` and no error; from `Start` every state change is
then accepted, whatever its names; and a `Before` name that is not a key is `Start`
too. -/
theorem unknown_state_name (env : Env) (p : AudioPlayer) (b a : String)
    (ha : a ∉ stateNames)
    (hs : (p.State ∈ pipelineStates ∧ State b = p.State) ∨ p.State = StateStorageMounted) :
    State a = StateStart ∧
    step env p (Input.event (Event.EventPlayerStateChange b a)) =
      { player := { p with StateBefore := p.State, State := StateStart }
        emitted := [], errors := [none], panicked := false } ∧
    (∀ (q : AudioPlayer) (b2 a2 : String), q.State = StateStart →
      (SetState q (State b2) (State a2)).2 = none ∧
      (SetState q (State b2) (State a2)).1.State = State a2) ∧
    (∀ b0 : String, b0 ∉ stateNames → State b0 = StateStart) := by
  have hA := State_of_unknown a ha
  refine ⟨hA, ?_, ?_, State_of_unknown⟩
  · have hns : p.State ≠ StateStorageUnmounted ∧ p.State ≠ StateStart := by
      rcases hs with ⟨h, _⟩ | h
      · exact ⟨(pipelineStates_ne _ h).2.1, (pipelineStates_ne _ h).1⟩
      · rw [h]
        decide
    have hd : ¬ (p.State ≠ State b ∧ p.State ≠ StateStorageMounted ∧
        p.State ≠ StateStorageUnmounted) := by
      rintro ⟨h1, h2, _⟩
      rcases hs with ⟨_, h⟩ | h
      · exact h1 h.symm
      · exact h2 h
    have e : SetState p (State b) (State a) =
        ({ p with StateBefore := p.State, State := StateStart }, none) := by
      unfold SetState
      rw [hA, if_neg (fun h => hns.1 h.1), if_neg (by decide), if_neg hns.2, if_neg hd]
      simp only [show ¬ (StateStart = StateLoaded) by decide, if_false]
    simp only [step, e]
  · intro q b2 a2 hq
    have h2 := State_ne_storage a2
    unfold SetState
    rw [if_neg (fun h => absurd (hq ▸ h.1) (by decide)),
      if_neg (by rintro (h | h); exact h2.2 h; exact h2.1 h), if_pos hq]
    exact ⟨rfl, rfl⟩

/-- Witness of C39: an engine in `Idle` handles a state change from `OMX_StateIdle` to a
name that the map does not hold. -/
theorem unknown_state_name_witness :
    (step testEnv (WithState New StateIdle)
      (Input.event (Event.EventPlayerStateChange "OMX_StateIdle" "OMX_StateMax"))).player.State
      = StateStart :=
  congrArg (fun r => r.player.State)
    (unknown_state_name testEnv (WithState New StateIdle) "OMX_StateIdle" "OMX_StateMax"
      (by decide) (Or.inl (by decide))).2.1

/-- C35 fails. With no resolver configured, the tick of an engine in `Executing` that has a
uri to resolve returns the error at once: the descriptor is the empty one marked
attempted, `StartedAt` is still 0 and `PlayingFor` is still 0.  With a resolver that
returns an error the tick panics. -/
theorem Tick_stops_at_resolution_error :
    Tick { resolver := none, clock := staticClock }
        (WithState (WithCurrentTrack New "/a" 0) StateExecuting) =
      TickResult.ok
        { WithState (WithCurrentTrack New "/a" 0) StateExecuting with
          CurrentContent := { Content.empty with Attempted := true } }
        [] (some Error.noResolverProvided) ∧
    ({ Content.empty with Attempted := true } : Content).StartedAt = 0 ∧
    (WithState (WithCurrentTrack New "/a" 0) StateExecuting).CurrentTrack.PlayingFor = 0 ∧
    Tick { resolver := some failingResolver, clock := staticClock }
        (WithState (WithCurrentTrack New "/a" 0) StateExecuting) = TickResult.panic := by
  decide

/-- C35, amended. With no resolver configured, the tick of an engine whose descriptor is not
attempted and whose uri is non-empty and not a beep puts the empty descriptor in place,
marked attempted, returns the error and does nothing else: `StartedAt` is 0, `PlayingFor`
and the clock are untouched, nothing is emitted.  In `Executing` it is the next tick that
sets `StartedAt` from the clock and increments `PlayingFor` by 1, emitting nothing. -/
theorem Tick_without_resolver (clock : Clock) (p : AudioPlayer)
    (hA : p.CurrentContent.Attempted = false) (hU : p.CurrentTrack.ContentURI ≠ "")
    (hb : Contains p.CurrentTrack.ContentURI BeepIgnore = false) :
    Tick { resolver := none, clock := clock } p =
      TickResult.ok { p with CurrentContent := { Content.empty with Attempted := true } } []
        (some Error.noResolverProvided) ∧
    (p.State = StateExecuting →
      Tick { resolver := none, clock := clock }
          { p with CurrentContent := { Content.empty with Attempted := true } } =
        TickResult.ok
          { p with
            CurrentContent :=
              { Content.empty with Attempted := true, StartedAt := clock p.clockReads }
            CurrentTrack :=
              { p.CurrentTrack with PlayingFor := wrapInt (p.CurrentTrack.PlayingFor + 1) }
            clockReads := p.clockReads + 1 } [] none) := by
  constructor
  · unfold Tick tickResolve Resolve
    simp [hA, hU, hb]
  · intro hS
    rw [Tick_of_attempted _ _ rfl]
    unfold tickBody tickAdvance
    simp [hS, Content.Valid, Content.empty]

/-- Witness of C35, amended: the engine of the counterexample, and its next tick. -/
theorem Tick_without_resolver_witness :
    Tick { resolver := none, clock := staticClock }
        { WithState (WithCurrentTrack New "/a" 0) StateExecuting with
          CurrentContent := { Content.empty with Attempted := true } } =
      TickResult.ok
        { WithState (WithCurrentTrack New "/a" 0) StateExecuting with
          CurrentContent :=
            { Content.empty with Attempted := true, StartedAt := staticClock 0 }
          CurrentTrack :=
            { (WithState (WithCurrentTrack New "/a" 0) StateExecuting).CurrentTrack with
              PlayingFor := wrapInt (0 + 1) }
          clockReads := 0 + 1 } [] none :=
  (Tick_without_resolver staticClock (WithState (WithCurrentTrack New "/a" 0) StateExecuting)
    rfl (by decide) (by decide)).2 rfl

/-- C36 fails in its last part. After `stampedBeforeURI` on a fresh engine `StartedAt` is
12345 and the descriptor is not attempted; the next tick, in `Pause`, resolves the uri and
puts the descriptor of the resolver in place, whose `StartedAt` is 0: the operation `Tick`
has reset a non-zero `StartedAt`. -/
theorem Tick_resets_StartedAt :
    (Consume testEnv New stampedBeforeURI).player.CurrentContent.StartedAt = 12345 ∧
    (Consume testEnv New stampedBeforeURI).player.CurrentContent.Attempted = false ∧
    (Op.run testEnv (Consume testEnv New stampedBeforeURI).player Op.Tick).map
      (fun q => q.CurrentContent.StartedAt) = some 0 := by
  decide

/-- C36, amended. With a descriptor that is attempted and has `StartedAt ≠ 0`, `Tick` returns
and leaves `StartedAt` and the clock as they are.  When the resolution step of `Tick` hands
over an engine in `Executing` with `StartedAt = 0`, `Tick` returns with `StartedAt` set to
the next reading of the clock, which it reads once.  Among the operations of the engine,
those that can take `StartedAt` from a non-zero value to 0 are `Stop`, `DestroyTrack` and a
`Tick` on a descriptor that is not attempted (its resolution step replaces the descriptor);
`SetState`, `SetContentURI` and `CreateTrack` never do. -/
theorem startedAt_set_once (env : Env) (p : AudioPlayer) :
    (p.CurrentContent.Attempted = true → p.CurrentContent.StartedAt ≠ 0 →
      ∃ p' out, Tick env p = TickResult.ok p' out none ∧
        p'.CurrentContent.StartedAt = p.CurrentContent.StartedAt ∧
        p'.clockReads = p.clockReads) ∧
    (∀ q, tickResolve env p = Sum.inl q → q.State = StateExecuting →
      q.CurrentContent.StartedAt = 0 →
      ∃ p' out, Tick env p = TickResult.ok p' out none ∧
        p'.CurrentContent.StartedAt = env.clock p.clockReads ∧
        p'.clockReads = p.clockReads + 1) ∧
    (∀ (op : Op) (p' : AudioPlayer), Op.run env p op = some p' →
      p.CurrentContent.StartedAt ≠ 0 → p'.CurrentContent.StartedAt = 0 →
      op = Op.Stop ∨ (∃ s, op = Op.DestroyTrack s) ∨
        (op = Op.Tick ∧ p.CurrentContent.Attempted = false)) := by
  have hbody : ∀ q : AudioPlayer, ∃ p' out, tickBody env q = TickResult.ok p' out none ∧
      ((q.State ≠ StateExecuting ∧ p' = q) ∨
       (q.State = StateExecuting ∧
        p'.CurrentContent.StartedAt = (tickAdvance env q).CurrentContent.StartedAt ∧
        p'.clockReads = (tickAdvance env q).clockReads)) := by
    intro q
    rcases tickBody_cases env q with ⟨h1, h2⟩ | ⟨h1, h2 | ⟨_, _, h2⟩⟩
    · exact ⟨_, _, h2, Or.inl ⟨h1, rfl⟩⟩
    · exact ⟨_, _, h2, Or.inr ⟨h1, rfl, rfl⟩⟩
    · exact ⟨_, _, h2, Or.inr ⟨h1, rfl, rfl⟩⟩
  have hfirst : p.CurrentContent.Attempted = true → p.CurrentContent.StartedAt ≠ 0 →
      ∃ p' out, Tick env p = TickResult.ok p' out none ∧
        p'.CurrentContent.StartedAt = p.CurrentContent.StartedAt ∧
        p'.clockReads = p.clockReads := by
    intro hA hS
    rw [Tick_of_attempted env p hA]
    obtain ⟨p', out, h, hc⟩ := hbody p
    refine ⟨p', out, h, ?_⟩
    rcases hc with ⟨_, rfl⟩ | ⟨_, h1, h2⟩
    · exact ⟨rfl, rfl⟩
    · rcases (tickAdvance_cases env p).2.2.2 with ⟨_, k1, k2⟩ | ⟨k0, _, _⟩
      · exact ⟨by rw [h1, k1], by rw [h2, k2]⟩
      · exact absurd k0 hS
  refine ⟨hfirst, ?_, ?_⟩
  · intro q hq hE h0
    have hreads := (tickResolve_inl env p q hq).2.2.2.2.2.2
    have hT : Tick env p = tickBody env q := by
      unfold Tick
      rw [hq]
    rw [hT]
    obtain ⟨p', out, h, hc⟩ := hbody q
    refine ⟨p', out, h, ?_⟩
    rcases hc with ⟨hne, _⟩ | ⟨_, h1, h2⟩
    · exact absurd hE hne
    · rcases (tickAdvance_cases env q).2.2.2 with ⟨k0, _, _⟩ | ⟨_, k1, k2⟩
      · exact absurd h0 k0
      · exact ⟨by rw [h1, k1, hreads], by rw [h2, k2, hreads]⟩
  · intro op p' hrun hne h0
    cases op with
    | SetState b a =>
      simp only [Op.run, Option.some.injEq] at hrun
      rw [← hrun, (SetState_keeps p b a).2.2.1] at h0
      exact absurd h0 hne
    | SetContentURI uri =>
      simp only [Op.run, Option.some.injEq] at hrun
      have : (SetContentURI p uri).CurrentContent = p.CurrentContent := by
        unfold SetContentURI
        split <;> rfl
      rw [← hrun, this] at h0
      exact absurd h0 hne
    | Stop => exact Or.inl rfl
    | CreateTrack s =>
      simp only [Op.run, Option.some.injEq] at hrun
      rw [← hrun] at h0
      exact absurd h0 hne
    | DestroyTrack s => exact Or.inr (Or.inl ⟨s, rfl⟩)
    | Tick =>
      refine Or.inr (Or.inr ⟨rfl, ?_⟩)
      by_contra hA
      have hA2 : p.CurrentContent.Attempted = true := by simpa using hA
      obtain ⟨q, out, hT, hs, _⟩ := hfirst hA2 hne
      simp only [Op.run, hT, Option.some.injEq] at hrun
      rw [← hrun, hs] at h0
      exact absurd h0 hne

/-- The divider that `WithListenPercent` stores for a percentage in range. -/
theorem WithListenPercent_in_range (p : AudioPlayer) (P : Int) (h0 : 0 < P)
    (h1 : P ≤ 100) :
    (WithListenPercent p P).divider = 100 / P ∧ 1 ≤ (100 : Int) / P ∧
      (100 : Int) / P ≤ 100 := by
  have hge : 1 ≤ (100 : Int) / P := Int.le_ediv_of_mul_le h0 (by omega)
  have hle : (100 : Int) / P ≤ 100 := Int.ediv_le_self _ (by decide)
  have hc : ¬ (P ≤ 0 ∨ P > 100) := by omega
  refine ⟨?_, hge, hle⟩
  simp only [WithListenPercent, hc, if_false, goDiv]
  rw [Int.tdiv_eq_ediv (by decide) (le_of_lt h0)]
  exact wrapInt_of_range _ (by omega) (by omega)

/-- The quotient of a duration below `2^63` by a divider between 1 and 100, as `Tick`
computes it. -/
theorem goDiv_of_duration (d : Nat) (D : Int) (hd : d < 9223372036854775808)
    (h1 : 1 ≤ D) : goDiv (intOfUint d) D = (d : Int) / D := by
  have hi : intOfUint d = (d : Int) := wrapInt_of_range _ (by omega) (by omega)
  have hq0 : 0 ≤ (d : Int) / D := Int.ediv_nonneg (by omega) (by omega)
  have hq1 : (d : Int) / D ≤ d := Int.ediv_le_self _ (by omega)
  unfold goDiv
  rw [hi, Int.tdiv_eq_ediv (by omega) (by omega)]
  exact wrapInt_of_range _ (by omega) (by omega)

/-- C38 fails for a duration that `int` does not hold: for `d = 2^63` the threshold is
`-2^62` with `P = 50`, below `d * P / 100 = 2^62`, and `-2^63` with `P = 100`, not `d`. -/
theorem threshold_of_huge_duration :
    goDiv (intOfUint 9223372036854775808) (WithListenPercent New 50).divider =
      -4611686018427387904 ∧
    ((9223372036854775808 * 50 / 100 : Nat) : Int) = 4611686018427387904 ∧
    goDiv (intOfUint 9223372036854775808) (WithListenPercent New 100).divider =
      -9223372036854775808 := by
  decide

/-- C38, amended. For a listen-percent `P` with `0 < P ≤ 100` and a duration `d` below
`2^63`, the threshold `d / (100 / P)` that `Tick` stores is at least `d * P / 100` (all
divisions are integer divisions) and at most `d`, and it is `d` for `P > 50`; `Tick`
stores this quotient of the duration of the resolved descriptor as
`minimumListenDuration`. -/
theorem threshold_bounds (p : AudioPlayer) (P : Int) (d : Nat) (hP0 : 0 < P)
    (hP1 : P ≤ 100) (hd : d < 9223372036854775808) :
    (d : Int) * P / 100 ≤ goDiv (intOfUint d) (WithListenPercent p P).divider ∧
    goDiv (intOfUint d) (WithListenPercent p P).divider ≤ (d : Int) ∧
    (50 < P → goDiv (intOfUint d) (WithListenPercent p P).divider = (d : Int)) ∧
    (∀ (env : Env) (q p1 : AudioPlayer) (c : Content),
      q.CurrentContent.Attempted = false → q.CurrentTrack.ContentURI ≠ "" →
      q.divider ≠ 0 →
      Resolve env q q.CurrentTrack.ContentURI = (ResolveOutcome.ret (some c) none, p1) →
      ∃ q', tickResolve env q = Sum.inl q' ∧
        q'.minimumListenDuration = goDiv (intOfUint c.Duration) q.divider) := by
  obtain ⟨hD, hD1, hD2⟩ := WithListenPercent_in_range p P hP0 hP1
  have hm := goDiv_of_duration d ((100 : Int) / P) hd hD1
  rw [hD, hm]
  have hd0 : (0 : Int) ≤ d := by omega
  refine ⟨?_, Int.ediv_le_self _ hd0, ?_, ?_⟩
  · apply Int.le_ediv_of_mul_le (by omega)
    have hx0 : 0 ≤ (d : Int) * P / 100 :=
      Int.ediv_nonneg (Int.mul_nonneg hd0 (le_of_lt hP0)) (by decide)
    have h1 : (d : Int) * P / 100 * 100 ≤ (d : Int) * P := Int.ediv_mul_le _ (by decide)
    have h2 : (100 : Int) / P * P ≤ 100 := Int.ediv_mul_le _ (by omega)
    have h3 : (d : Int) * P / 100 * ((100 : Int) / P * P) ≤ (d : Int) * P / 100 * 100 :=
      Int.mul_le_mul_of_nonneg_left h2 hx0
    have h4 : (d : Int) * P / 100 * ((100 : Int) / P) * P ≤ (d : Int) * P := by
      rw [Int.mul_assoc]
      exact le_trans h3 h1
    exact le_of_mul_le_mul_right h4 hP0
  · intro h50
    have h1 : (100 : Int) / P = 1 := by
      have hlt : (100 : Int) / P < 2 := Int.ediv_lt_of_lt_mul hP0 (by omega)
      omega
    rw [h1, Int.ediv_one]
  · intro env q p1 c hA hU hdiv hR
    have hp1 := Resolve_player env q q.CurrentTrack.ContentURI
    rw [hR] at hp1
    simp only at hp1
    have hd1 : p1.divider = q.divider := by
      rw [hp1]
    refine ⟨{ p1 with
        CurrentContent := { c with Attempted := true, Rating := false }
        minimumListenDuration := goDiv (intOfUint c.Duration) p1.divider }, ?_, ?_⟩
    · unfold tickResolve
      rw [hR]
      simp [hA, hU, hd1, hdiv]
    · show goDiv (intOfUint c.Duration) p1.divider = _
      rw [hd1]

/-- Witness of C38, amended: the duration 10 with `P = 50` and with `P = 75`. -/
theorem threshold_bounds_witness :
    goDiv (intOfUint 10) (WithListenPercent New 75).divider = ((10 : Nat) : Int) ∧
    ((10 : Nat) : Int) * 50 / 100 ≤ goDiv (intOfUint 10) (WithListenPercent New 50).divider :=
  ⟨(threshold_bounds New 75 10 (by decide) (by decide) (by decide)).2.2.1 (by decide),
    (threshold_bounds New 50 10 (by decide) (by decide) (by decide)).1⟩

end audioplayer

/-! ## Theorems about the parser -/

namespace parser

/-! ### Search in lists of bytes -/

/-- The list `s` begins with `sub`. -/
theorem hasPrefixList_iff (s sub : List Char) : hasPrefixList s sub = true ↔ sub <+: s := by
  induction s generalizing sub with
  | nil =>
    cases sub with
    | nil => simp [hasPrefixList]
    | cons b t => simp [hasPrefixList]
  | cons a s ih =>
    cases sub with
    | nil => simp [hasPrefixList]
    | cons b t =>
      simp only [hasPrefixList, Bool.and_eq_true, beq_iff_eq, ih, List.cons_prefix_cons]
      constructor <;> rintro ⟨h1, h2⟩ <;> exact ⟨h1.symm, h2⟩

/-- The list `sub` occurs in `s`. -/
theorem containsList_iff (s sub : List Char) : containsList s sub = true ↔ sub <:+: s := by
  induction s with
  | nil =>
    simp only [containsList, hasPrefixList_iff, List.prefix_nil, List.infix_nil]
  | cons a s ih =>
    simp only [containsList, Bool.or_eq_true, hasPrefixList_iff, ih, List.infix_cons_iff]

/-- A list in which `sub` does not occur does not begin with it, and `sub` does not occur
in its tail. -/
theorem containsList_cons_false (a : Char) (s sub : List Char)
    (h : containsList (a :: s) sub = false) :
    hasPrefixList (a :: s) sub = false ∧ containsList s sub = false := by
  simpa [containsList] using h

/-- The value of `indexList`: `-1` when `sub` does not occur in `s`, and otherwise the
length of the part of `s` before the first occurrence. -/
theorem indexList_spec (s sub : List Char) :
    (containsList s sub = false → indexList s sub = -1) ∧
    (containsList s sub = true →
      ∃ u v, s = u ++ sub ++ v ∧ indexList s sub = (u.length : Int) ∧
        ∀ u2 v2, s = u2 ++ sub ++ v2 → u.length ≤ u2.length) := by
  induction s with
  | nil =>
    constructor
    · intro h
      simp only [containsList] at h
      simp [indexList, h]
    · intro h
      simp only [containsList] at h
      have hs : sub = [] := List.prefix_nil.mp ((hasPrefixList_iff _ _).mp h)
      exact ⟨[], [], by simp [hs], by simp [indexList, h], fun u2 _ _ => Nat.zero_le _⟩
  | cons a s ih =>
    constructor
    · intro h
      obtain ⟨h1, h2⟩ := containsList_cons_false a s sub h
      simp [indexList, h1, ih.1 h2]
    · intro h
      by_cases hp : hasPrefixList (a :: s) sub = true
      · obtain ⟨v, hv⟩ := (hasPrefixList_iff _ _).mp hp
        exact ⟨[], v, by simp [hv], by simp [indexList, hp], fun u2 _ _ => Nat.zero_le _⟩
      · have hc : containsList s sub = true := by
          simp only [containsList, Bool.or_eq_true] at h
          rcases h with h | h
          · exact absurd h hp
          · exact h
        obtain ⟨u, v, hs, hi, hmin⟩ := ih.2 hc
        refine ⟨a :: u, v, by simp [hs], ?_, ?_⟩
        · have hn : ¬ (indexList s sub < 0) := by
            rw [hi]
            omega
          simp only [indexList, hp, if_false, hn, Bool.false_eq_true]
          rw [hi]
          simp
        · intro u2 v2 h2
          cases u2 with
          | nil =>
            exfalso
            apply hp
            rw [hasPrefixList_iff]
            exact ⟨v2, by simpa using h2.symm⟩
          | cons b u2 =>
            simp only [List.cons_append, List.cons.injEq] at h2
            have := hmin u2 v2 h2.2
            simp only [List.length_cons]
            omega

/-- What `noBorder` says. -/
theorem noBorder_spec (m : List Char) (h : noBorder m = true) (k : Nat) (h0 : 0 < k)
    (hk : k < m.length) : ¬ (m.drop k <+: m) := by
  unfold noBorder at h
  rw [List.all_eq_true] at h
  have := h k (List.mem_range.mpr hk)
  have hk0 : (k == 0) = false := by
    rw [beq_eq_false_iff_ne]
    omega
  simp only [hk0, Bool.false_or, Bool.not_eq_true_eq_eq_false] at this
  intro hp
  rw [← hasPrefixList_iff, this] at hp
  exact absurd hp (by decide)

/-- When `sep` has no border and does not occur in the non-empty list `x`, no occurrence
of `sep` begins at the head of `x ++ sep ++ rest`. -/
theorem hasPrefixList_straddle (x sep rest : List Char) (hb : noBorder sep = true)
    (hx : containsList x sep = false) (hne : x ≠ []) :
    hasPrefixList (x ++ sep ++ rest) sep = false := by
  rw [Bool.eq_false_iff]
  intro h
  rw [hasPrefixList_iff] at h
  have hxp : x <+: x ++ sep ++ rest := ⟨sep ++ rest, by simp⟩
  rcases Nat.lt_or_ge x.length sep.length with hlt | hge
  · obtain ⟨w, hw⟩ := List.prefix_of_prefix_length_le hxp h (Nat.le_of_lt hlt)
    have hlen : sep.length = x.length + w.length := by
      rw [← hw, List.length_append]
    have hwp : w <+: sep ++ rest := by
      have h2 : x ++ w <+: x ++ (sep ++ rest) := by
        rw [hw, ← List.append_assoc]
        exact h
      exact (List.prefix_append_right_inj x).mp h2
    have hws : w <+: sep :=
      List.prefix_of_prefix_length_le hwp ⟨rest, rfl⟩ (by omega)
    have hd : sep.drop x.length = w := by
      rw [← hw, List.drop_left]
    have hx0 : 0 < x.length := List.length_pos.mpr hne
    exact noBorder_spec sep hb x.length hx0 hlt (by rw [hd]; exact hws)
  · have hsx : sep <+: x := List.prefix_of_prefix_length_le h hxp hge
    have : containsList x sep = true := (containsList_iff _ _).mpr hsx.isInfix
    rw [hx] at this
    exact absurd this (by decide)

/-- When `sep` has no border and does not occur in `x`, the first occurrence of `sep` in
`x ++ sep ++ rest` is the one after `x`. -/
theorem indexList_after (x sep rest : List Char) (hb : noBorder sep = true)
    (hx : containsList x sep = false) :
    indexList (x ++ sep ++ rest) sep = (x.length : Int) := by
  induction x with
  | nil =>
    have hp : hasPrefixList (sep ++ rest) sep = true :=
      (hasPrefixList_iff _ _).mpr ⟨rest, rfl⟩
    simp only [List.nil_append, List.length_nil, Nat.cast_zero]
    cases hs : sep ++ rest with
    | nil =>
      rw [hs] at hp
      simp [indexList, hp]
    | cons a t =>
      rw [hs] at hp
      simp [indexList, hp]
  | cons a x ih =>
    obtain ⟨_, h2⟩ := containsList_cons_false a x sep hx
    have h1 := hasPrefixList_straddle (a :: x) sep rest hb hx (List.cons_ne_nil _ _)
    have hi := ih h2
    simp only [List.cons_append] at h1 ⊢
    have hn : ¬ (indexList (x ++ sep ++ rest) sep < 0) := by
      rw [hi]
      omega
    simp only [indexList, h1, Bool.false_eq_true, if_false, hn, hi, List.length_cons]
    push_cast
    rfl

/-- The slice of `u ++ w ++ v` from the end of `u` to the end of `w` is `w`. -/
theorem sliceList_mid (u w v : List Char) (lo hi : Int) (hlo : lo = (u.length : Int))
    (hhi : hi = (u.length : Int) + (w.length : Int)) :
    sliceList (u ++ w ++ v) lo hi = some w := by
  have h1 : lo.toNat = u.length := by
    rw [hlo]
    exact Int.toNat_ofNat _
  have h2 : hi.toNat = (u ++ w).length := by
    rw [hhi, List.length_append]
    omega
  have hc : 0 ≤ lo ∧ lo ≤ hi ∧ hi ≤ ((u ++ w ++ v).length : Int) := by
    simp only [List.length_append, Nat.cast_add]
    omega
  unfold sliceList
  rw [if_pos hc, h1, h2, List.take_left, List.drop_left]

/-- A slice whose bounds are out of range panics. -/
theorem sliceList_none (s : List Char) (lo hi : Int)
    (h : lo < 0 ∨ hi < lo ∨ (s.length : Int) < hi) : sliceList s lo hi = none := by
  unfold sliceList
  rw [if_neg]
  omega

/-- The bytes of `a ++ b ++ c`. -/
theorem data_append3 (a b c : String) : (a ++ b ++ c).data = a.data ++ b.data ++ c.data := by
  rw [String.data_append, String.data_append]

/-- The length of a concatenation. -/
theorem len_append (a b : String) : len (a ++ b) = len a + len b := by
  unfold len
  rw [String.data_append, List.length_append]
  push_cast
  rfl

/-- When the marker `m` has no border and does not occur in `p`, the first occurrence of
`m` in `p ++ m ++ t` is the one after `p`. -/
theorem Index_after (p m t : String) (hb : noBorder m.data = true)
    (hp : Contains p m = false) : Index (p ++ m ++ t) m = len p := by
  unfold Index len
  rw [data_append3]
  exact indexList_after p.data m.data t.data hb hp

/-- The rest of `p ++ m ++ t` after `p` and `m` is `t`. -/
theorem Slice_after (p m t : String) :
    Slice (p ++ m ++ t) (len p + len m) (len (p ++ m ++ t)) = some t := by
  unfold Slice
  have h := sliceList_mid (p.data ++ m.data) t.data [] (len p + len m) (len (p ++ m ++ t))
    (by unfold len; rw [List.length_append]; push_cast; rfl)
    (by unfold len; rw [data_append3, List.length_append, List.length_append]
        push_cast
        rfl)
  rw [List.append_nil] at h
  rw [data_append3, h]
  rfl

/-! ### The loop over the markers -/

/-- Each marker has one entry in `Markers`. -/
theorem Markers_entry (e1 e2 : String × (String → Option String)) (h1 : e1 ∈ Markers)
    (h2 : e2 ∈ Markers) (h : e1.1 = e2.1) : e1.2 = e2.2 := by
  simp only [Markers, List.mem_cons, List.mem_singleton, List.not_mem_nil, or_false] at h1 h2
  rcases h1 with rfl | rfl | rfl | rfl | rfl | rfl | rfl | rfl | rfl <;>
    rcases h2 with rfl | rfl | rfl | rfl | rfl | rfl | rfl | rfl | rfl <;>
    first
      | rfl
      | exact absurd h (by decide)

/-- When the line contains the marker of the entry `(m, v)` and no other marker, the loop
finds `m` with the value `v s`, in whatever order the entries are visited. -/
theorem findMarker_only (order : List (String × (String → Option String)))
    (hperm : order.Perm Markers) (s m : String) (v : String → Option String)
    (hm : (m, v) ∈ Markers) (hs : Contains s m = true)
    (hno : ∀ e ∈ Markers, e.1 ≠ m → Contains s e.1 = false) :
    findMarker order s = some (m, v s) := by
  have hsub : ∀ e ∈ order, e ∈ Markers := fun e he => hperm.mem_iff.mp he
  have hin : (m, v) ∈ order := hperm.mem_iff.mpr hm
  clear hperm
  induction order with
  | nil => exact absurd hin (List.not_mem_nil _)
  | cons e rest ih =>
    obtain ⟨k, f⟩ := e
    by_cases hk : Contains s k = true
    · have hkm : k = m := by
        by_contra hne
        have := hno (k, f) (hsub _ (List.mem_cons_self _ _)) hne
        rw [hk] at this
        exact absurd this (by decide)
      have hf : f = v :=
        Markers_entry (k, f) (m, v) (hsub _ (List.mem_cons_self _ _)) hm hkm
      subst hkm hf
      simp only [findMarker, hk, if_true]
    · have hne : (m, v) ≠ (k, f) := by
        intro h
        rw [Prod.mk.injEq] at h
        rw [← h.1] at hk
        exact hk hs
      have hin2 : (m, v) ∈ rest := by
        rcases List.mem_cons.mp hin with h | h
        · exact absurd h hne
        · exact h
      simp only [findMarker, hk, Bool.false_eq_true, if_false]
      exact ih (fun e he => hsub e (List.mem_cons_of_mem _ he)) hin2

/-- When the line contains no marker, the loop finds none, in whatever order the entries
are visited. -/
theorem findMarker_none (order : List (String × (String → Option String)))
    (hsub : ∀ e ∈ order, e ∈ Markers) (s : String)
    (hno : ∀ e ∈ Markers, Contains s e.1 = false) : findMarker order s = none := by
  induction order with
  | nil => rfl
  | cons e rest ih =>
    obtain ⟨k, f⟩ := e
    have hk := hno (k, f) (hsub _ (List.mem_cons_self _ _))
    simp only [findMarker, hk, Bool.false_eq_true, if_false]
    exact ih (fun e he => hsub e (List.mem_cons_of_mem _ he))

/-- C28. A line that contains exactly one of the markers of `Preparing`, `EndOfStream`,
`StorageUnmounting`, `StorageMounted` and no other marker makes `Parse` send that one
event to every subscriber and return no error, in whatever order the entries of `Markers`
are visited; `EndOfStream` and `PreparedTrack` return `"1"` exactly when their marker
occurs in the line, and `""` otherwise. -/
theorem Parse_nullary (order : List (String × (String → Option String)))
    (hperm : order.Perm Markers) (l : LogParser) (s : String) :
    ((Contains s PreparedTrackMarker = true ∧
        ∀ e ∈ Markers, e.1 ≠ PreparedTrackMarker → Contains s e.1 = false) →
      l.Parse order s =
        ParseResult.ret { subs := l.subs.map fun sub => sub ++ [Event.EventPreparing] }
          none) ∧
    ((Contains s EndOfStreamMarker = true ∧
        ∀ e ∈ Markers, e.1 ≠ EndOfStreamMarker → Contains s e.1 = false) →
      l.Parse order s =
        ParseResult.ret { subs := l.subs.map fun sub => sub ++ [Event.EventEndOfStream] }
          none) ∧
    ((Contains s StorageUnmountingMarker = true ∧
        ∀ e ∈ Markers, e.1 ≠ StorageUnmountingMarker → Contains s e.1 = false) →
      l.Parse order s =
        ParseResult.ret
          { subs := l.subs.map fun sub => sub ++ [Event.EventStorageUnmounting] } none) ∧
    ((Contains s StorageMountedMarker = true ∧
        ∀ e ∈ Markers, e.1 ≠ StorageMountedMarker → Contains s e.1 = false) →
      l.Parse order s =
        ParseResult.ret
          { subs := l.subs.map fun sub => sub ++ [Event.EventStorageMounted] } none) ∧
    (EndOfStream s = "1" ↔ Contains s EndOfStreamMarker = true) ∧
    (EndOfStream s = "" ↔ Contains s EndOfStreamMarker = false) ∧
    (PreparedTrack s = "1" ↔ Contains s PreparedTrackMarker = true) ∧
    (PreparedTrack s = "" ↔ Contains s PreparedTrackMarker = false) := by
  refine ⟨?_, ?_, ?_, ?_, ?_, ?_, ?_, ?_⟩
  · rintro ⟨hs, hno⟩
    have hf := findMarker_only order hperm s PreparedTrackMarker
      (fun s => some (PreparedTrack s)) (by simp [Markers]) hs hno
    simp [LogParser.Parse, parseLine, hf]
  · rintro ⟨hs, hno⟩
    have hf := findMarker_only order hperm s EndOfStreamMarker
      (fun s => some (EndOfStream s)) (by simp [Markers]) hs hno
    have h1 : EndOfStreamMarker ≠ PreparedTrackMarker := by decide
    have h2 : EndOfStreamMarker ≠ ContentURIMarker := by decide
    simp [LogParser.Parse, parseLine, hf, h1, h2]
  · rintro ⟨hs, hno⟩
    have hf := findMarker_only order hperm s StorageUnmountingMarker
      (fun s => some (StorageUnmounting s)) (by simp [Markers]) hs hno
    have h1 : StorageUnmountingMarker ≠ PreparedTrackMarker := by decide
    have h2 : StorageUnmountingMarker ≠ ContentURIMarker := by decide
    have h3 : StorageUnmountingMarker ≠ EndOfStreamMarker := by decide
    have h4 : StorageUnmountingMarker ≠ PlayerStateMarker := by decide
    have h5 : StorageUnmountingMarker ≠ StorageMountedMarker := by decide
    simp [LogParser.Parse, parseLine, hf, h1, h2, h3, h4, h5]
  · rintro ⟨hs, hno⟩
    have hf := findMarker_only order hperm s StorageMountedMarker
      (fun s => some (StorageMounted s)) (by simp [Markers]) hs hno
    have h1 : StorageMountedMarker ≠ PreparedTrackMarker := by decide
    have h2 : StorageMountedMarker ≠ ContentURIMarker := by decide
    have h3 : StorageMountedMarker ≠ EndOfStreamMarker := by decide
    have h4 : StorageMountedMarker ≠ PlayerStateMarker := by decide
    simp [LogParser.Parse, parseLine, hf, h1, h2, h3, h4]
  · unfold EndOfStream
    by_cases h : Contains s EndOfStreamMarker = true <;> simp [h]
  · unfold EndOfStream
    by_cases h : Contains s EndOfStreamMarker = true <;> simp [h]
  · unfold PreparedTrack
    by_cases h : Contains s PreparedTrackMarker = true <;> simp [h]
  · unfold PreparedTrack
    by_cases h : Contains s PreparedTrackMarker = true <;> simp [h]

/-- Witness of C28: the line of the test "end of stream event", the marker itself, with
the entries of `Markers` visited in the order of the source and in the reverse order. -/
theorem Parse_nullary_witness :
    List.Perm Markers.reverse Markers ∧
    LogParser.Parse Markers.reverse { subs := [[]] } EndOfStreamMarker =
      ParseResult.ret { subs := [[Event.EventEndOfStream]] } none :=
  ⟨List.reverse_perm _,
    (Parse_nullary Markers.reverse (List.reverse_perm _) { subs := [[]] }
      EndOfStreamMarker).2.1 (by decide)⟩

/-- A line without marker makes `Parse` return nil with nothing sent. -/
theorem Parse_of_unrecognized (order : List (String × (String → Option String)))
    (hsub : ∀ e ∈ order, e ∈ Markers) (l : LogParser) (s : String)
    (h : recognized s = false) : l.Parse order s = ParseResult.ret l none := by
  have hno : ∀ e ∈ Markers, Contains s e.1 = false := by
    unfold recognized at h
    rw [List.any_eq_false] at h
    intro e he
    simpa using h e he
  simp only [LogParser.Parse, parseLine, findMarker_none order hsub s hno]

/-- The loop over the lines shows the same as the loop over the lines that contain a
marker. -/
theorem ParseLines_filter
    (jobs : List (List (String × (String → Option String)) × String))
    (hsub : ∀ j ∈ jobs, ∀ e ∈ j.1, e ∈ Markers) (l : LogParser) :
    (ParseLines l jobs).observed =
      (ParseLines l (jobs.filter fun j => recognized j.2)).observed := by
  induction jobs generalizing l with
  | nil => rfl
  | cons j rest ih =>
    obtain ⟨order, s⟩ := j
    have hrest : ∀ j ∈ rest, ∀ e ∈ j.1, e ∈ Markers :=
      fun j hj => hsub j (List.mem_cons_of_mem _ hj)
    by_cases hr : recognized s = true
    · rw [List.filter_cons_of_pos (by simpa using hr)]
      simp only [ParseLines]
      cases hP : l.Parse order s with
      | panic => rfl
      | ret l1 err =>
        have := ih hrest l1
        simp only [ParseRun.observed, Prod.mk.injEq] at this ⊢
        obtain ⟨h1, h2, h3⟩ := this
        refine ⟨h1, ?_, h3⟩
        cases err with
        | none => simpa [List.filter] using h2
        | some e => simpa [List.filter] using h2
    · rw [List.filter_cons_of_neg (by simpa using hr)]
      have hP := Parse_of_unrecognized order
        (hsub (order, s) (List.mem_cons_self _ _)) l s (by simpa using hr)
      simp only [ParseLines, hP]
      rw [← ih hrest l]
      simp [ParseRun.observed, List.filter]

/-- C29. A line that contains none of the nine markers makes `Parse` return no error and
send no event, in whatever order the entries of `Markers` are visited.  Hence two lists
of lines that agree once the lines without marker are left out, as a list and the same
list with such lines inserted anywhere do, make the loop send the same events to every
subscriber and report the same errors; and an engine that consumes the channel of a
subscriber, with its ticks woven in by `weave`, has the same run and emits the same
verdicts. -/
theorem unrecognized_lines_are_ignored
    (jobs jobs2 : List (List (String × (String → Option String)) × String))
    (h1 : ∀ j ∈ jobs, ∀ e ∈ j.1, e ∈ Markers) (h2 : ∀ j ∈ jobs2, ∀ e ∈ j.1, e ∈ Markers)
    (hins : (jobs2.filter fun j => recognized j.2) = jobs.filter fun j => recognized j.2)
    (l : LogParser) :
    (∀ (order : List (String × (String → Option String))) (s : String),
      (∀ e ∈ order, e ∈ Markers) → (∀ e ∈ Markers, Contains s e.1 = false) →
      l.Parse order s = ParseResult.ret l none) ∧
    (ParseLines l jobs2).observed = (ParseLines l jobs).observed ∧
    (∀ (env : audioplayer.Env) (p : audioplayer.AudioPlayer)
      (weave : List Event → List audioplayer.Input),
      ((ParseLines l jobs2).logParser.subs.map fun ch =>
        audioplayer.Consume env p (weave ch)) =
      (ParseLines l jobs).logParser.subs.map fun ch =>
        audioplayer.Consume env p (weave ch)) := by
  have hobs : (ParseLines l jobs2).observed = (ParseLines l jobs).observed := by
    rw [ParseLines_filter jobs2 h2 l, ParseLines_filter jobs h1 l, hins]
  refine ⟨?_, hobs, ?_⟩
  · intro order s hsub hno
    simp only [LogParser.Parse, parseLine, findMarker_none order hsub s hno]
  · intro env p weave
    have : (ParseLines l jobs2).logParser = (ParseLines l jobs).logParser := by
      simp only [ParseRun.observed, Prod.mk.injEq] at hobs
      exact hobs.1
    rw [this]

/-- Witness of C29: two lines with a marker, and the same two among four lines without;
the subscriber receives `ContentURI` and `EndOfStream` in both runs. -/
theorem unrecognized_lines_are_ignored_witness :
    (ParseLines { subs := [[]] } noisyLines).observed =
      (ParseLines { subs := [[]] } cleanLines).observed ∧
    (ParseLines { subs := [[]] } cleanLines).logParser =
      { subs := [[Event.EventContentURI "/data/mnt/internal/MUSIC/1.flac",
          Event.EventEndOfStream]] } :=
  ⟨(unrecognized_lines_are_ignored cleanLines noisyLines
      (fun j hj e he => by
        simp only [cleanLines, List.mem_cons, List.mem_singleton, List.not_mem_nil,
          or_false] at hj
        rcases hj with rfl | rfl <;> exact he)
      (fun j hj e he => by
        simp only [noisyLines, List.mem_cons, List.mem_singleton, List.not_mem_nil,
          or_false] at hj
        rcases hj with rfl | rfl | rfl | rfl | rfl | rfl <;> exact he)
      (by rfl) { subs := [[]] }).2.1,
    by decide⟩

/-- C30 fails. The line of a uri whose file name contains `SLEEP FOR ` contains two
markers: with the entries of `Markers` visited in the order of the source `Parse` sends
`ContentURI`, and with the entries visited in the reverse order, where `SLEEP FOR ` comes
first, it sends nothing. -/
theorem Parse_depends_on_order :
    LogParser.Parse Markers { subs := [[]] }
        "[tid:2350] content URI: /data/mnt/internal/MUSIC/SLEEP FOR ME.mp3" =
      ParseResult.ret
        { subs := [[Event.EventContentURI "/data/mnt/internal/MUSIC/SLEEP FOR ME.mp3"]] }
        none ∧
    LogParser.Parse Markers.reverse { subs := [[]] }
        "[tid:2350] content URI: /data/mnt/internal/MUSIC/SLEEP FOR ME.mp3" =
      ParseResult.ret { subs := [[]] } none := by
  decide

/-- C30, amended. For every line and every order of the entries of `Markers`, `Parse`
sends at most one event to each subscriber; and for a line that contains at most one of
the nine markers, what `Parse` sends and returns does not depend on the order in which
the entries are visited. -/
theorem Parse_order_independent (order1 order2 : List (String × (String → Option String)))
    (hperm1 : order1.Perm Markers) (hperm2 : order2.Perm Markers) (l : LogParser)
    (s : String)
    (hone : ∀ e1 ∈ Markers, ∀ e2 ∈ Markers, Contains s e1.1 = true →
      Contains s e2.1 = true → e1.1 = e2.1) :
    l.Parse order1 s = l.Parse order2 s ∧
    (∀ (order : List (String × (String → Option String))) (l2 : LogParser)
      (err : Option ParseError), l.Parse order s = ParseResult.ret l2 err →
      l2 = l ∨ ∃ e, l2.subs = l.subs.map fun sub => sub ++ [e]) := by
  constructor
  · by_cases hr : recognized s = true
    · unfold recognized at hr
      rw [List.any_eq_true] at hr
      obtain ⟨⟨m, v⟩, hm, hs⟩ := hr
      have hno : ∀ e ∈ Markers, e.1 ≠ m → Contains s e.1 = false := by
        intro e he hne
        by_contra hc
        exact hne (hone e he (m, v) hm (by simpa using hc) hs)
      have f1 := findMarker_only order1 hperm1 s m v hm hs hno
      have f2 := findMarker_only order2 hperm2 s m v hm hs hno
      simp only [LogParser.Parse, parseLine, f1, f2]
    · have hr2 : recognized s = false := by simpa using hr
      rw [Parse_of_unrecognized order1 (fun e he => hperm1.mem_iff.mp he) l s hr2,
        Parse_of_unrecognized order2 (fun e he => hperm2.mem_iff.mp he) l s hr2]
  · intro order l2 err h
    unfold LogParser.Parse at h
    cases hp : parseLine order s with
    | event e =>
      rw [hp] at h
      simp only [ParseResult.ret.injEq] at h
      exact Or.inr ⟨e, by rw [← h.1]⟩
    | nothing =>
      rw [hp] at h
      simp only [ParseResult.ret.injEq] at h
      exact Or.inl h.1.symm
    | error e =>
      rw [hp] at h
      simp only [ParseResult.ret.injEq] at h
      exact Or.inl h.1.symm
    | panic =>
      rw [hp] at h
      exact absurd h (by simp)

/-- Witness of C30, amended: the line of the test "content uri event" in the order of the
source and in the reverse order. -/
theorem Parse_order_independent_witness :
    LogParser.Parse Markers { subs := [[]] } "] content URI: /content" =
      LogParser.Parse Markers.reverse { subs := [[]] } "] content URI: /content" :=
  (Parse_order_independent Markers Markers.reverse (List.Perm.refl _) (List.reverse_perm _)
    { subs := [[]] } "] content URI: /content"
    (by
      intro e1 h1 e2 h2
      simp only [Markers, List.mem_cons, List.mem_singleton, List.not_mem_nil,
        or_false] at h1 h2
      rcases h1 with rfl | rfl | rfl | rfl | rfl | rfl | rfl | rfl | rfl <;>
        rcases h2 with rfl | rfl | rfl | rfl | rfl | rfl | rfl | rfl | rfl <;>
        decide)).1

/-- When `m` occurs in `s`, `Index` is the length of the part of `s` before the first
occurrence. -/
theorem Index_first (s m : String) (h : Contains s m = true) :
    ∃ u v : String, s = u ++ m ++ v ∧ Index s m = len u ∧
      ∀ u2 v2 : String, s = u2 ++ m ++ v2 → u.length ≤ u2.length := by
  obtain ⟨u, v, hs, hi, hmin⟩ := (indexList_spec s.data m.data).2 h
  refine ⟨String.mk u, String.mk v, ?_, hi, ?_⟩
  · apply String.ext
    rw [data_append3]
    exact hs
  · intro u2 v2 h2
    have := hmin u2.data v2.data (by rw [h2, data_append3])
    exact this

/-- Two decompositions of a string at the first occurrence of `m` are the same. -/
theorem first_occurrence_unique (m u v u2 v2 : String)
    (h : u ++ m ++ v = u2 ++ m ++ v2) (hlen : u.length = u2.length) : v = v2 := by
  have hd : u.data ++ (m.data ++ v.data) = u2.data ++ (m.data ++ v2.data) := by
    have := congrArg String.data h
    rw [data_append3, data_append3, List.append_assoc, List.append_assoc] at this
    exact this
  have h2 := (List.append_inj hd hlen).2
  exact String.ext (List.append_cancel_left h2)

/-- C24. `GetContentPath(s)` is the empty string when the marker `] content URI: ` does
not occur in `s`, and otherwise the part of `s` after the first occurrence of the marker
(a first occurrence exists); for a line that contains this marker and no other, `Parse`
sends the one event `ContentURI` with that part to every subscriber and returns no error,
in whatever order the entries of `Markers` are visited. -/
theorem GetContentPath_suffix (s : String) :
    (Contains s ContentURIMarker = false → GetContentPath s = some "") ∧
    (∀ u v : String, s = u ++ ContentURIMarker ++ v →
      (∀ u2 v2 : String, s = u2 ++ ContentURIMarker ++ v2 → u.length ≤ u2.length) →
      GetContentPath s = some v) ∧
    (Contains s ContentURIMarker = true →
      ∃ u v : String, s = u ++ ContentURIMarker ++ v ∧
        (∀ u2 v2 : String, s = u2 ++ ContentURIMarker ++ v2 → u.length ≤ u2.length) ∧
        GetContentPath s = some v ∧
        ∀ (order : List (String × (String → Option String))) (l : LogParser),
          order.Perm Markers →
          (∀ e ∈ Markers, e.1 ≠ ContentURIMarker → Contains s e.1 = false) →
          l.Parse order s =
            ParseResult.ret
              { subs := l.subs.map fun sub => sub ++ [Event.EventContentURI v] } none) := by
  have hfirst : Contains s ContentURIMarker = true →
      ∃ u v : String, s = u ++ ContentURIMarker ++ v ∧
        (∀ u2 v2 : String, s = u2 ++ ContentURIMarker ++ v2 → u.length ≤ u2.length) ∧
        GetContentPath s = some v := by
    intro hc
    obtain ⟨u, v, hs, hi, hmin⟩ := Index_first s ContentURIMarker hc
    refine ⟨u, v, hs, hmin, ?_⟩
    unfold GetContentPath
    simp only [hc, Bool.not_true, Bool.false_eq_true, if_false]
    rw [hi]
    rw [hs]
    exact Slice_after u ContentURIMarker v
  refine ⟨?_, ?_, ?_⟩
  · intro h
    unfold GetContentPath
    simp [h]
  · intro u v hs hmin
    have hc : Contains s ContentURIMarker = true := by
      unfold Contains
      rw [containsList_iff, hs, data_append3]
      exact ⟨u.data, v.data, rfl⟩
    obtain ⟨u0, v0, hs0, hmin0, hg⟩ := hfirst hc
    have hlen : u.length = u0.length :=
      Nat.le_antisymm (hmin u0 v0 hs0) (hmin0 u v hs)
    have hv : v = v0 := first_occurrence_unique ContentURIMarker u v u0 v0
      (by rw [← hs, ← hs0]) hlen
    rw [hg, hv]
  · intro hc
    obtain ⟨u, v, hs, hmin, hg⟩ := hfirst hc
    refine ⟨u, v, hs, hmin, hg, ?_⟩
    intro order l hperm hno
    have hf := findMarker_only order hperm s ContentURIMarker GetContentPath
      (by simp [Markers]) hc hno
    have h1 : ContentURIMarker ≠ PreparedTrackMarker := by decide
    simp [LogParser.Parse, parseLine, hf, hg, h1]

/-! ### Split -/

/-- The scan skips the rest of a matched separator. -/
theorem splitList_skip (sep w y cur : List Char) :
    splitList sep w.length cur (w ++ y) = splitList sep 0 cur y := by
  induction w with
  | nil => rfl
  | cons a w ih =>
    simp only [List.length_cons, List.cons_append, splitList]
    exact ih

/-- Without an occurrence of the separator the scan gives one piece. -/
theorem splitList_no_sep (sep y cur : List Char) (h : containsList y sep = false) :
    splitList sep 0 cur y = [cur.reverse ++ y] := by
  induction y generalizing cur with
  | nil => simp [splitList]
  | cons a y ih =>
    obtain ⟨h1, h2⟩ := containsList_cons_false a y sep h
    simp only [splitList, h1, Bool.false_eq_true, if_false]
    rw [ih (a :: cur) h2, List.reverse_cons, List.append_assoc]
    rfl

/-- The scan closes the piece `x` at the separator that follows it, when the separator
has no border and does not occur in `x`. -/
theorem splitList_at_sep (sep x y cur : List Char) (hne : sep ≠ [])
    (hb : noBorder sep = true) (hx : containsList x sep = false) :
    splitList sep 0 cur (x ++ sep ++ y) = (cur.reverse ++ x) :: splitList sep 0 [] y := by
  induction x generalizing cur with
  | nil =>
    cases hs : sep with
    | nil => exact absurd hs hne
    | cons c t =>
      have hp : hasPrefixList (c :: (t ++ y)) (c :: t) = true :=
        (hasPrefixList_iff _ _).mpr ⟨y, rfl⟩
      have hl : (c :: t).length - 1 = t.length := by simp
      show splitList (c :: t) 0 cur (c :: (t ++ y)) =
        (cur.reverse ++ []) :: splitList (c :: t) 0 [] y
      rw [splitList, if_pos hp, hl, splitList_skip, List.append_nil]
  | cons a x ih =>
    obtain ⟨_, h2⟩ := containsList_cons_false a x sep hx
    have h1 := hasPrefixList_straddle (a :: x) sep y hb hx (List.cons_ne_nil _ _)
    simp only [List.cons_append] at h1 ⊢
    simp only [splitList, h1, Bool.false_eq_true, if_false]
    rw [ih (a :: cur) h2, List.reverse_cons, List.append_assoc]
    rfl

/-- A string without `->` is one piece. -/
theorem Split_one (y : String) (h : Contains y "->" = false) : Split y "->" = [y] := by
  unfold Split
  rw [splitList_no_sep _ _ _ h]
  rfl

/-- Two strings without `->`, joined by `->`, are the two pieces. -/
theorem Split_two (x y : String) (hx : Contains x "->" = false)
    (hy : Contains y "->" = false) : Split (x ++ "->" ++ y) "->" = [x, y] := by
  unfold Split
  rw [data_append3, splitList_at_sep _ _ _ _ (by decide) (by decide) hx,
    splitList_no_sep _ _ _ hy]
  rfl

/-- The brackets around a string without `->` add no occurrence of `->`. -/
theorem Contains_bracket (a : String) (h : Contains a "->" = false) :
    Contains ("[" ++ a ++ "]") "->" = false := by
  rw [Bool.eq_false_iff]
  intro hc
  unfold Contains at hc h
  rw [data_append3, containsList_iff] at hc
  have hd : ("[" : String).data ++ a.data ++ ("]" : String).data =
      '[' :: (a.data ++ [']']) := rfl
  rw [hd, List.infix_cons_iff] at hc
  rcases hc with hc | hc
  · have h2 : ("->" : String).data = '-' :: ['>'] := rfl
    rw [h2, List.cons_prefix_cons] at hc
    exact absurd hc.1 (by decide)
  · rw [List.infix_concat_iff] at hc
    rcases hc with hc | hc
    · rw [List.suffix_concat_iff] at hc
      rcases hc with hc | ⟨t, ht, _⟩
      · exact absurd hc (by decide)
      · have h2 : ("->" : String).data = ['-', '>'] := rfl
        rw [h2] at ht
        have hl := congrArg List.getLast? ht
        simp at hl
    · rw [← containsList_iff, h] at hc
      exact absurd hc (by decide)

/-- The slice `s[1 : len(s)-1]` of a bracketed string is the string between the
brackets. -/
theorem Slice_bracket (a : String) :
    Slice ("[" ++ a ++ "]") 1 (len ("[" ++ a ++ "]") - 1) = some a := by
  unfold Slice
  rw [data_append3]
  have h := sliceList_mid ("[" : String).data a.data ("]" : String).data 1
    (len ("[" ++ a ++ "]") - 1) rfl
    (by
      unfold len
      rw [data_append3, List.length_append, List.length_append]
      have h1 : ("[" : String).data.length = 1 := rfl
      have h2 : ("]" : String).data.length = 1 := rfl
      rw [h1, h2]
      push_cast
      omega)
  rw [h]
  rfl

/-- What `Parse` does with a line in which the loop finds the marker of the state change
and the value `value`. -/
theorem Parse_of_state_marker (order : List (String × (String → Option String)))
    (l : LogParser) (s value : String)
    (hf : findMarker order s = some (PlayerStateMarker, some value)) :
    l.Parse order s =
      (match stateChange value s with
        | .event e => ParseResult.ret { subs := l.subs.map fun sub => sub ++ [e] } none
        | .nothing => ParseResult.ret l none
        | .error e => ParseResult.ret l (some e)
        | .panic => ParseResult.panic) := by
  have h1 : PlayerStateMarker ≠ PreparedTrackMarker := by decide
  have h2 : PlayerStateMarker ≠ ContentURIMarker := by decide
  have h3 : PlayerStateMarker ≠ EndOfStreamMarker := by decide
  simp only [LogParser.Parse, parseLine, hf, h1, h2, h3, if_false, if_true]

/-- C25. For a line `p ++ "componentOnStateChange: " ++ "[A]->[B]"` in which `p` does not
contain the marker, `A` and `B` do not contain `->` and no other marker occurs,
`GetPlayerState` returns `"[A]->[B]"` and `Parse` sends the one event
`PlayerStateChange{Before: A, After: B}` to every subscriber and returns no error, in
whatever order the entries of `Markers` are visited; `GetPlayerState` returns the empty
string for a line without the marker. -/
theorem Parse_state_change (order : List (String × (String → Option String)))
    (hperm : order.Perm Markers) (l : LogParser) (p A B : String)
    (hp : Contains p PlayerStateMarker = false)
    (hA : Contains A "->" = false) (hB : Contains B "->" = false)
    (hno : ∀ e ∈ Markers, e.1 ≠ PlayerStateMarker →
      Contains (p ++ PlayerStateMarker ++ ("[" ++ A ++ "]" ++ "->" ++ ("[" ++ B ++ "]")))
        e.1 = false) :
    GetPlayerState (p ++ PlayerStateMarker ++ ("[" ++ A ++ "]" ++ "->" ++ ("[" ++ B ++ "]")))
      = some ("[" ++ A ++ "]" ++ "->" ++ ("[" ++ B ++ "]")) ∧
    l.Parse order (p ++ PlayerStateMarker ++ ("[" ++ A ++ "]" ++ "->" ++ ("[" ++ B ++ "]")))
      = ParseResult.ret
          { subs := l.subs.map fun sub => sub ++ [Event.EventPlayerStateChange A B] } none ∧
    (∀ s : String, Contains s PlayerStateMarker = false → GetPlayerState s = some "") := by
  have hc : Contains (p ++ PlayerStateMarker ++
      ("[" ++ A ++ "]" ++ "->" ++ ("[" ++ B ++ "]"))) PlayerStateMarker = true := by
    unfold Contains
    rw [containsList_iff, data_append3]
    exact List.infix_append _ _ _
  have hg : GetPlayerState (p ++ PlayerStateMarker ++
      ("[" ++ A ++ "]" ++ "->" ++ ("[" ++ B ++ "]"))) =
      some ("[" ++ A ++ "]" ++ "->" ++ ("[" ++ B ++ "]")) := by
    unfold GetPlayerState
    simp only [hc, Bool.not_true, Bool.false_eq_true, if_false]
    rw [Index_after p PlayerStateMarker _ (by decide) hp]
    exact Slice_after p PlayerStateMarker _
  refine ⟨hg, ?_, ?_⟩
  · have hf := findMarker_only order hperm _ PlayerStateMarker GetPlayerState
      (by simp [Markers]) hc hno
    rw [hg] at hf
    rw [Parse_of_state_marker order l _ _ hf]
    simp only [stateChange, Split_two _ _ (Contains_bracket A hA) (Contains_bracket B hB),
      Slice_bracket]
  · intro s h
    unfold GetPlayerState
    simp [h]

/-- Witness of C25: the line of the test "player state change event" behind a prefix of
the log. -/
theorem Parse_state_change_witness :
    LogParser.Parse Markers { subs := [[]] }
      ("[tid:1675] " ++ PlayerStateMarker ++
        ("[" ++ "OMX_StateExecuting" ++ "]" ++ "->" ++ ("[" ++ "OMX_StatePause" ++ "]"))) =
    ParseResult.ret
      { subs := [[Event.EventPlayerStateChange "OMX_StateExecuting" "OMX_StatePause"]] }
      none :=
  (Parse_state_change Markers (List.Perm.refl _) { subs := [[]] } "[tid:1675] "
    "OMX_StateExecuting" "OMX_StatePause" (by decide) (by decide) (by decide)
    (by
      intro e he
      simp only [Markers, List.mem_cons, List.mem_singleton, List.not_mem_nil,
        or_false] at he
      rcases he with rfl | rfl | rfl | rfl | rfl | rfl | rfl | rfl | rfl <;> decide)).2.1

/-- C26 fails. The text `(OMX_StateIdle)->(OMX_StateLoaded)` after the marker is not two
bracketed state names, yet `Parse` returns no error and sends a state change, with the
first and the last byte of each part removed; and for the text `->` `Parse` returns no
error either: the slice of an empty part panics. -/
theorem Parse_state_change_without_brackets :
    LogParser.Parse Markers { subs := [[]] }
        "componentOnStateChange: (OMX_StateIdle)->(OMX_StateLoaded)" =
      ParseResult.ret
        { subs := [[Event.EventPlayerStateChange "OMX_StateIdle" "OMX_StateLoaded"]] }
        none ∧
    LogParser.Parse Markers { subs := [[]] } "componentOnStateChange: ->" =
      ParseResult.panic := by
  decide

/-- The slice `s[1 : len(s)-1]` of a string of at least two bytes: the string without its
first and its last byte. -/
theorem Slice_inner (s : String) (h : 2 ≤ len s) :
    Slice s 1 (len s - 1) = some (String.mk s.data.tail.dropLast) := by
  have hl : 2 ≤ s.data.length := by
    unfold len at h
    omega
  unfold Slice sliceList len
  rw [if_pos (by omega)]
  have h1 : ((s.data.length : Int) - 1).toNat = s.data.length - 1 := by omega
  have h2 : (1 : Int).toNat = 1 := rfl
  rw [h1, h2]
  have ht : ∀ (l : List Char) (k : Nat), (l.take (k + 1)).drop 1 = l.tail.take k := by
    intro l k
    cases l <;> simp
  have h3 : s.data.length - 1 = (s.data.length - 2) + 1 := by omega
  rw [h3, ht, List.dropLast_eq_take, List.length_tail]
  rfl

/-- The state change of a text outside ASCII, which Go holds in its UTF-8 form.  The two
parts of `é->é` have two bytes each, and both names are empty; the first part of `éa->bc`
has three bytes, of which the second, the byte 169, is the name. -/
theorem stateChange_of_utf8 :
    (utf8 "\u00e9->\u00e9").data.map Char.toNat = [195, 169, 45, 62, 195, 169] ∧
    stateChange (utf8 "\u00e9->\u00e9") "" =
      Outcome.event (Event.EventPlayerStateChange "" "") ∧
    stateChange (utf8 "\u00e9a->bc") "" =
      Outcome.event (Event.EventPlayerStateChange (String.mk [Char.ofNat 169]) "") := by
  refine ⟨by decide, ?_, ?_⟩ <;> decide

set_option maxRecDepth 8000 in
/-- The track id of a line outside ASCII without `] Track[`: the offsets 7 and 8 of the
extractors count the two bytes of `é`. -/
theorem TrackDestroyed_of_utf8 :
    TrackDestroyed (utf8 "\u00e9] has been destroyed]") = some " been destroyed" ∧
    TrackCreated (utf8 "\u00e9] has been created]") = some " been created" := by
  constructor <;> decide

/-- A text of ASCII is its own UTF-8 form. -/
theorem utf8_of_ascii (s : String) (h : ∀ c ∈ s.data, c.toNat < 128) : utf8 s = s := by
  apply String.ext
  show utf8List s.data = s.data
  generalize s.data = l at h
  induction l with
  | nil => rfl
  | cons c t ih =>
    have hc := h c (List.mem_cons_self _ _)
    have ht := ih (fun x hx => h x (List.mem_cons_of_mem _ hx))
    simp only [utf8List, ht, utf8Bytes, hc, if_true, List.map_cons, List.map_nil,
      List.singleton_append, Char.ofNat_toNat]

/-- C26, amended. For a line that contains the marker of the state change and no other
marker, with `value` the text that `GetPlayerState` returns: when `value` does not split
by `->` in exactly two parts, in particular when it contains no `->`, `Parse` returns an
error and sends nothing; when it splits in two parts of at least two bytes each, `Parse`
returns no error and sends the state change of the two parts, each without its first and
its last byte, whether or not these are brackets. -/
theorem Parse_state_change_malformed (order : List (String × (String → Option String)))
    (hperm : order.Perm Markers) (l : LogParser) (s value : String)
    (hs : Contains s PlayerStateMarker = true)
    (hno : ∀ e ∈ Markers, e.1 ≠ PlayerStateMarker → Contains s e.1 = false)
    (hv : GetPlayerState s = some value) :
    ((Split value "->").length ≠ 2 →
      l.Parse order s = ParseResult.ret l (some (ParseError.cannotSplit value s))) ∧
    (Contains value "->" = false →
      l.Parse order s = ParseResult.ret l (some (ParseError.cannotSplit value s))) ∧
    (∀ s0 s1 : String, Split value "->" = [s0, s1] → 2 ≤ len s0 → 2 ≤ len s1 →
      l.Parse order s =
        ParseResult.ret
          { subs := l.subs.map fun sub =>
              sub ++ [Event.EventPlayerStateChange (String.mk s0.data.tail.dropLast)
                (String.mk s1.data.tail.dropLast)] } none) := by
  have hf := findMarker_only order hperm s PlayerStateMarker GetPlayerState
    (by simp [Markers]) hs hno
  rw [hv] at hf
  have hP := Parse_of_state_marker order l s value hf
  have herr : (Split value "->").length ≠ 2 →
      l.Parse order s = ParseResult.ret l (some (ParseError.cannotSplit value s)) := by
    intro hlen
    have hsc : stateChange value s = Outcome.error (ParseError.cannotSplit value s) := by
      unfold stateChange
      split
      · rename_i s0 s1 heq
        rw [heq] at hlen
        exact absurd rfl hlen
      · rfl
    rw [hP, hsc]
  refine ⟨herr, ?_, ?_⟩
  · intro hc
    apply herr
    rw [Split_one value hc]
    simp
  · intro s0 s1 h0 h1 h2
    rw [hP]
    simp only [stateChange, h0, Slice_inner s0 h1, Slice_inner s1 h2]

/-- Witness of C26, amended: a state change with three states. -/
theorem Parse_state_change_malformed_witness :
    LogParser.Parse Markers { subs := [[]] } "componentOnStateChange: [A]->[B]->[C]" =
      ParseResult.ret { subs := [[]] }
        (some (ParseError.cannotSplit "[A]->[B]->[C]"
          "componentOnStateChange: [A]->[B]->[C]")) :=
  (Parse_state_change_malformed Markers (List.Perm.refl _) { subs := [[]] }
    "componentOnStateChange: [A]->[B]->[C]" "[A]->[B]->[C]" (by decide)
    (by
      intro e he
      simp only [Markers, List.mem_cons, List.mem_singleton, List.not_mem_nil,
        or_false] at he
      rcases he with rfl | rfl | rfl | rfl | rfl | rfl | rfl | rfl | rfl <;> decide)
    (by decide)).1 (by decide)

/-! ### The track id -/

/-- The computation of `TrackDestroyed` and `TrackCreated` on a line
`p ++ "] Track[" ++ id ++ m ++ q`, where `p` does not contain `] Track[`, the non-empty
`id` contains no `]` and `m` begins with `]`: the position after `] Track[`, the rest of
the line one byte further, the position of the next `]` in it, and the slice
between the two positions, which is `id`. -/
theorem track_token (p id m q : String) (c : Char) (t m2 : List Char)
    (hid : id.data = c :: t) (hm : m.data = ']' :: m2)
    (hp : Contains p SoundServiceTrackSubstring = false)
    (hno : Contains id "]" = false) :
    Index (p ++ SoundServiceTrackSubstring ++ id ++ m ++ q) SoundServiceTrackSubstring
      = len p ∧
    Slice (p ++ SoundServiceTrackSubstring ++ id ++ m ++ q)
        (len p + len SoundServiceTrackSubstring + 1)
        (len (p ++ SoundServiceTrackSubstring ++ id ++ m ++ q)) =
      some (String.mk (t ++ m.data ++ q.data)) ∧
    Index (String.mk (t ++ m.data ++ q.data)) "]" = (t.length : Int) ∧
    Slice (p ++ SoundServiceTrackSubstring ++ id ++ m ++ q)
        (len p + len SoundServiceTrackSubstring)
        ((t.length : Int) + (len p + len SoundServiceTrackSubstring) + 1) = some id := by
  have hd : (p ++ SoundServiceTrackSubstring ++ id ++ m ++ q).data =
      p.data ++ SoundServiceTrackSubstring.data ++ id.data ++ m.data ++ q.data := by
    simp only [String.data_append]
  refine ⟨?_, ?_, ?_, ?_⟩
  · have e : p ++ SoundServiceTrackSubstring ++ id ++ m ++ q =
        p ++ SoundServiceTrackSubstring ++ (id ++ m ++ q) := by
      apply String.ext
      simp only [String.data_append, List.append_assoc]
    rw [e]
    exact Index_after p SoundServiceTrackSubstring _ (by decide) hp
  · unfold Slice
    have h := sliceList_mid (p.data ++ SoundServiceTrackSubstring.data ++ [c])
      (t ++ m.data ++ q.data) [] (len p + len SoundServiceTrackSubstring + 1)
      (len (p ++ SoundServiceTrackSubstring ++ id ++ m ++ q))
      (by unfold len; simp only [List.length_append, List.length_singleton]; push_cast; rfl)
      (by
        unfold len
        rw [hd, hid]
        simp only [List.length_append, List.length_cons, List.length_nil]
        push_cast
        omega)
    have e : p.data ++ SoundServiceTrackSubstring.data ++ [c] ++ (t ++ m.data ++ q.data) ++ []
        = p.data ++ SoundServiceTrackSubstring.data ++ id.data ++ m.data ++ q.data := by
      rw [hid]
      simp only [List.append_assoc, List.append_nil, List.singleton_append,
        List.cons_append, List.nil_append]
    rw [e] at h
    rw [hd, h]
    rfl
  · have hnt : containsList t [']'] = false :=
      (containsList_cons_false c t [']'] (by
        have := hno
        unfold Contains at this
        rw [hid] at this
        exact this)).2
    have h := indexList_after t [']'] (m2 ++ q.data) (by decide) hnt
    unfold Index
    have e : (String.mk (t ++ m.data ++ q.data)).data = t ++ [']'] ++ (m2 ++ q.data) := by
      show t ++ m.data ++ q.data = _
      rw [hm]
      simp only [List.append_assoc, List.singleton_append, List.cons_append,
        List.nil_append]
    rw [e]
    exact h
  · unfold Slice
    have h := sliceList_mid (p.data ++ SoundServiceTrackSubstring.data) id.data
      (m.data ++ q.data) (len p + len SoundServiceTrackSubstring)
      ((t.length : Int) + (len p + len SoundServiceTrackSubstring) + 1)
      (by unfold len; simp only [List.length_append]; push_cast; rfl)
      (by
        unfold len
        rw [hid]
        simp only [List.length_append, List.length_cons]
        push_cast
        omega)
    have e : p.data ++ SoundServiceTrackSubstring.data ++ id.data ++ (m.data ++ q.data) =
        p.data ++ SoundServiceTrackSubstring.data ++ id.data ++ m.data ++ q.data := by
      simp only [List.append_assoc]
    rw [e] at h
    rw [hd, h]
    rfl

set_option maxRecDepth 4000 in
/-- C27 fails for the empty id. In the line `[x] Track[] has been destroyed [y]` the token
between `] Track[` and the next `]` is empty; `TrackDestroyed` looks for the next `]` one
byte further and returns the text up to the `]` of `[y]`, and `Parse` sends it. -/
theorem TrackDestroyed_of_empty_id :
    Contains "[x" SoundServiceTrackSubstring = false ∧ Contains "" "]" = false ∧
    "[x] Track[] has been destroyed [y]" =
      "[x" ++ SoundServiceTrackSubstring ++ "" ++ TrackDestroyedMarker ++ " [y]" ∧
    TrackDestroyed "[x] Track[] has been destroyed [y]" = some "] has been destroyed [y" ∧
    LogParser.Parse Markers { subs := [[]] } "[x] Track[] has been destroyed [y]" =
      ParseResult.ret
        { subs := [[Event.EventTrackDestroyed "] has been destroyed [y"]] } none := by
  decide

/-- C27, amended. For a line `p ++ "] Track[" ++ id ++ "] has been destroyed" ++ q`
(respectively with `] has been created`) in which `p` does not contain `] Track[` and the
non-empty `id` contains no `]`, `TrackDestroyed` (respectively `TrackCreated`) returns
`id`; and when the line holds no other marker `Parse` sends the one event
`TrackDestroyed{id}` (respectively `TrackCreated{id}`) to every subscriber and returns no
error, in whatever order the entries of `Markers` are visited. -/
theorem TrackDestroyed_token (order : List (String × (String → Option String)))
    (hperm : order.Perm Markers) (l : LogParser) (p id q : String)
    (hp : Contains p SoundServiceTrackSubstring = false)
    (hid : Contains id "]" = false) (hne : id ≠ "") :
    TrackDestroyed (p ++ SoundServiceTrackSubstring ++ id ++ TrackDestroyedMarker ++ q)
      = some id ∧
    TrackCreated (p ++ SoundServiceTrackSubstring ++ id ++ TrackCreatedMarker ++ q)
      = some id ∧
    ((∀ e ∈ Markers, e.1 ≠ TrackDestroyedMarker →
        Contains (p ++ SoundServiceTrackSubstring ++ id ++ TrackDestroyedMarker ++ q) e.1
          = false) →
      l.Parse order (p ++ SoundServiceTrackSubstring ++ id ++ TrackDestroyedMarker ++ q) =
        ParseResult.ret
          { subs := l.subs.map fun sub => sub ++ [Event.EventTrackDestroyed id] } none) ∧
    ((∀ e ∈ Markers, e.1 ≠ TrackCreatedMarker →
        Contains (p ++ SoundServiceTrackSubstring ++ id ++ TrackCreatedMarker ++ q) e.1
          = false) →
      l.Parse order (p ++ SoundServiceTrackSubstring ++ id ++ TrackCreatedMarker ++ q) =
        ParseResult.ret
          { subs := l.subs.map fun sub => sub ++ [Event.EventTrackCreated id] } none) := by
  obtain ⟨c, t, hc⟩ : ∃ c t, id.data = c :: t := by
    cases h : id.data with
    | nil => exact absurd (String.ext h) hne
    | cons c t => exact ⟨c, t, rfl⟩
  have hcont : ∀ m : String,
      Contains (p ++ SoundServiceTrackSubstring ++ id ++ m ++ q) m = true := by
    intro m
    unfold Contains
    rw [containsList_iff, data_append3]
    exact List.infix_append _ _ _
  have hD : TrackDestroyed
      (p ++ SoundServiceTrackSubstring ++ id ++ TrackDestroyedMarker ++ q) = some id := by
    obtain ⟨h1, h2, h3, h4⟩ := track_token p id TrackDestroyedMarker q c t
      TrackDestroyedMarker.data.tail hc rfl hp hid
    unfold TrackDestroyed
    simp only [hcont, Bool.not_true, Bool.false_eq_true, if_false, h1, h2, h3, h4]
  have hC : TrackCreated
      (p ++ SoundServiceTrackSubstring ++ id ++ TrackCreatedMarker ++ q) = some id := by
    obtain ⟨h1, h2, h3, h4⟩ := track_token p id TrackCreatedMarker q c t
      TrackCreatedMarker.data.tail hc rfl hp hid
    unfold TrackCreated
    simp only [hcont, Bool.not_true, Bool.false_eq_true, if_false, h1, h2, h3, h4]
  refine ⟨hD, hC, ?_, ?_⟩
  · intro hno
    have hf := findMarker_only order hperm _ TrackDestroyedMarker TrackDestroyed
      (by simp [Markers]) (hcont TrackDestroyedMarker) hno
    rw [hD] at hf
    have h1 : TrackDestroyedMarker ≠ PreparedTrackMarker := by decide
    have h2 : TrackDestroyedMarker ≠ ContentURIMarker := by decide
    have h3 : TrackDestroyedMarker ≠ EndOfStreamMarker := by decide
    have h4 : TrackDestroyedMarker ≠ PlayerStateMarker := by decide
    have h5 : TrackDestroyedMarker ≠ StorageMountedMarker := by decide
    have h6 : TrackDestroyedMarker ≠ StorageUnmountingMarker := by decide
    simp only [LogParser.Parse, parseLine, hf, h1, h2, h3, h4, h5, h6, if_false, if_true]
  · intro hno
    have hf := findMarker_only order hperm _ TrackCreatedMarker TrackCreated
      (by simp [Markers]) (hcont TrackCreatedMarker) hno
    rw [hC] at hf
    have h1 : TrackCreatedMarker ≠ PreparedTrackMarker := by decide
    have h2 : TrackCreatedMarker ≠ ContentURIMarker := by decide
    have h3 : TrackCreatedMarker ≠ EndOfStreamMarker := by decide
    have h4 : TrackCreatedMarker ≠ PlayerStateMarker := by decide
    have h5 : TrackCreatedMarker ≠ StorageMountedMarker := by decide
    have h6 : TrackCreatedMarker ≠ StorageUnmountingMarker := by decide
    have h7 : TrackCreatedMarker ≠ TrackDestroyedMarker := by decide
    simp only [LogParser.Parse, parseLine, hf, h1, h2, h3, h4, h5, h6, h7, if_false,
      if_true]

/-- Witness of C27, amended: the line of the test "track created". -/
theorem TrackDestroyed_token_witness :
    TrackCreated ("asdasd" ++ SoundServiceTrackSubstring ++ "trackID" ++ TrackCreatedMarker
      ++ "") = some "trackID" :=
  (TrackDestroyed_token Markers (List.Perm.refl _) { subs := [[]] } "asdasd" "trackID" ""
    (by decide) (by decide) (by decide)).2.1

/-! ### The track id: lines on which the extractors panic -/

/-- C40 fails. On a line that contains `] has been destroyed` and ends with its only
occurrence of `] Track[`, the position `start` after `] Track[` is the length of the line,
the slice `s[start+1:]` is out of range and `TrackDestroyed` panics; `TrackCreated` does
the same on such a line with `] has been created`; and `Parse` panics on a line of this
kind that holds no other marker, in whatever order the entries of `Markers` are
visited. -/
theorem TrackDestroyed_panics (order : List (String × (String → Option String)))
    (hperm : order.Perm Markers) (l : LogParser) (p : String)
    (hp : Contains p SoundServiceTrackSubstring = false) :
    (Contains p TrackDestroyedMarker = true →
      TrackDestroyed (p ++ SoundServiceTrackSubstring) = none ∧
      ((∀ e ∈ Markers, e.1 ≠ TrackDestroyedMarker →
          Contains (p ++ SoundServiceTrackSubstring) e.1 = false) →
        l.Parse order (p ++ SoundServiceTrackSubstring) = ParseResult.panic)) ∧
    (Contains p TrackCreatedMarker = true →
      TrackCreated (p ++ SoundServiceTrackSubstring) = none ∧
      ((∀ e ∈ Markers, e.1 ≠ TrackCreatedMarker →
          Contains (p ++ SoundServiceTrackSubstring) e.1 = false) →
        l.Parse order (p ++ SoundServiceTrackSubstring) = ParseResult.panic)) := by
  have he : p ++ SoundServiceTrackSubstring = p ++ SoundServiceTrackSubstring ++ "" := by
    apply String.ext
    simp [String.data_append]
  have hidx : Index (p ++ SoundServiceTrackSubstring) SoundServiceTrackSubstring = len p := by
    rw [he]
    exact Index_after p SoundServiceTrackSubstring "" (by decide) hp
  have hslice : Slice (p ++ SoundServiceTrackSubstring)
      (len p + len SoundServiceTrackSubstring + 1) (len (p ++ SoundServiceTrackSubstring))
      = none := by
    unfold Slice
    rw [sliceList_none]
    · rfl
    · right
      left
      have := len_append p SoundServiceTrackSubstring
      unfold len at this ⊢
      omega
  have hcont : ∀ m : String, Contains p m = true →
      Contains (p ++ SoundServiceTrackSubstring) m = true := by
    intro m hm
    unfold Contains at hm ⊢
    rw [containsList_iff] at hm ⊢
    rw [String.data_append]
    exact List.IsInfix.trans hm (List.infix_append' [] p.data _)
  constructor
  · intro hm
    have hD : TrackDestroyed (p ++ SoundServiceTrackSubstring) = none := by
      unfold TrackDestroyed
      simp only [hcont _ hm, Bool.not_true, Bool.false_eq_true, if_false, hidx, hslice]
    refine ⟨hD, ?_⟩
    intro hno
    have hf := findMarker_only order hperm _ TrackDestroyedMarker TrackDestroyed
      (by simp [Markers]) (hcont _ hm) hno
    rw [hD] at hf
    simp only [LogParser.Parse, parseLine, hf]
  · intro hm
    have hC : TrackCreated (p ++ SoundServiceTrackSubstring) = none := by
      unfold TrackCreated
      simp only [hcont _ hm, Bool.not_true, Bool.false_eq_true, if_false, hidx, hslice]
    refine ⟨hC, ?_⟩
    intro hno
    have hf := findMarker_only order hperm _ TrackCreatedMarker TrackCreated
      (by simp [Markers]) (hcont _ hm) hno
    rw [hC] at hf
    simp only [LogParser.Parse, parseLine, hf]

/-- Witness of C40: the line `] has been destroyed] Track[`. -/
theorem TrackDestroyed_panics_witness :
    TrackDestroyed ("] has been destroyed" ++ SoundServiceTrackSubstring) = none ∧
    LogParser.Parse Markers { subs := [[]] }
      ("] has been destroyed" ++ SoundServiceTrackSubstring) = ParseResult.panic :=
  ⟨((TrackDestroyed_panics Markers (List.Perm.refl _) { subs := [[]] }
      "] has been destroyed" (by decide)).1 (by decide)).1,
    ((TrackDestroyed_panics Markers (List.Perm.refl _) { subs := [[]] }
      "] has been destroyed" (by decide)).1 (by decide)).2
      (by
        intro e he
        simp only [Markers, List.mem_cons, List.mem_singleton, List.not_mem_nil,
          or_false] at he
        rcases he with rfl | rfl | rfl | rfl | rfl | rfl | rfl | rfl | rfl <;> decide)⟩

end parser

/-! ## Theorems about the other packages -/

/-! ### The line of a descriptor -/

namespace resolver

/-- No decimal digit is a tab. -/
theorem digitChar_ne_tab (n : Nat) : Nat.digitChar (n % 10) ≠ '\t' := by
  have h : n % 10 < 10 := Nat.mod_lt _ (by decide)
  generalize n % 10 = d at h
  interval_cases d <;> decide

/-- The digits that `Nat.toDigitsCore` puts before a list without tab hold no tab. -/
theorem toDigitsCore_no_tab (fuel n : Nat) (ds : List Char) (h : '\t' ∉ ds) :
    '\t' ∉ Nat.toDigitsCore 10 fuel n ds := by
  induction fuel generalizing n ds with
  | zero => exact h
  | succ fuel ih =>
    have hd : '\t' ∉ Nat.digitChar (n % 10) :: ds := by
      intro hm
      rcases List.mem_cons.mp hm with e | e
      · exact digitChar_ne_tab _ e.symm
      · exact h e
    unfold Nat.toDigitsCore
    simp only
    split
    · exact hd
    · exact ih _ _ hd

/-- The decimal digits of a number hold no tab. -/
theorem formatNat_no_tab (n : Nat) : '\t' ∉ (formatNat n).data :=
  toDigitsCore_no_tab _ _ [] (List.not_mem_nil _)

/-- The decimal form of an integer holds no tab. -/
theorem formatInt_no_tab (i : Int) : '\t' ∉ (formatInt i).data := by
  cases i with
  | ofNat n => exact formatNat_no_tab n
  | negSucc n =>
    show '\t' ∉ ("-" ++ formatNat (n + 1)).data
    rw [String.data_append]
    intro hm
    rcases List.mem_append.mp hm with e | e
    · exact absurd e (by decide)
    · exact formatNat_no_tab _ e

/-- Nothing is left of the tabs of a string after `removeTabs`. -/
theorem removeTabs_no_tab (s : String) : '\t' ∉ (removeTabs s).data := by
  intro hm
  have := (List.mem_filter.mp hm).2
  simp at this

/-- A byte occurs in a list exactly when the list of that one byte does. -/
theorem containsList_single (x : List Char) (c : Char) (h : c ∉ x) :
    containsList x [c] = false := by
  induction x with
  | nil => rfl
  | cons a x ih =>
    have h1 : a ≠ c := fun e => h (e ▸ List.mem_cons_self _ _)
    have h2 : c ∉ x := fun e => h (List.mem_cons_of_mem _ e)
    simp [containsList, hasPrefixList, h1, ih h2]

/-- A string without tab does not contain the string `"\t"`. -/
theorem Contains_tab (s : String) (h : '\t' ∉ s.data) : Contains s "\t" = false :=
  containsList_single s.data '\t' h

/-- The first piece of a string that begins with a piece without tab and a tab. -/
theorem Split_tab (x y : String) (h : '\t' ∉ x.data) :
    Split (x ++ "\t" ++ y) "\t" = x :: Split y "\t" := by
  unfold Split
  rw [parser.data_append3,
    parser.splitList_at_sep _ _ _ _ (by decide) (by decide) (Contains_tab x h)]
  rfl

/-- The line of a descriptor splits on the tab in eight pieces, the last of them empty. -/
theorem String_split (c : Content) :
    Split c.String "\t" =
      [removeTabs c.Artist, removeTabs c.Album, removeTabs c.Track,
        removeTabs c.TrackNumber, formatNat c.Duration,
        (if c.Rating then "L" else "S"), formatInt c.StartedAt, ""] := by
  have hr : '\t' ∉ (if c.Rating then Listened else Skipped).data := by
    cases c.Rating <;> decide
  have e : c.String =
      removeTabs c.Artist ++ "\t" ++ (removeTabs c.Album ++ "\t" ++ (removeTabs c.Track ++ "\t" ++
        (removeTabs c.TrackNumber ++ "\t" ++ (formatNat c.Duration ++ "\t" ++
          ((if c.Rating then Listened else Skipped) ++ "\t" ++
            (formatInt c.StartedAt ++ "\t" ++ "")))))) := by
    apply String.ext
    simp only [Content.String, String.data_append, List.append_assoc]
    rfl
  rw [e, Split_tab _ _ (removeTabs_no_tab _), Split_tab _ _ (removeTabs_no_tab _),
    Split_tab _ _ (removeTabs_no_tab _), Split_tab _ _ (removeTabs_no_tab _),
    Split_tab _ _ (formatNat_no_tab _), Split_tab _ _ hr,
    Split_tab _ _ (formatInt_no_tab _)]
  cases c.Rating <;> rfl

/-- C32 fails in its eighth field. The descriptor `taggedContent` has a MusicBrainz track id,
and its line ends with the tab after `StartedAt`: the eighth field is empty. -/
theorem String_without_MusicBrainzTID :
    taggedContent.MusicBrainzTID = "62c2e20a-559e-422f-a44c-9afa7882f0c4" ∧
    taggedContent.String = "Metallica\tMetallica\tEnterSandman\t1\t365\tL\t1143374412\t" := by
  decide

/-- C32, amended. The line of a descriptor splits on the tab in exactly eight fields: the
artist, the album, the title and the track number, each with its tabs removed, the
duration in decimal, `"L"` when the rating flag is true and `"S"` otherwise, `StartedAt` in
decimal, and an empty eighth field, whatever the MusicBrainz track id of the descriptor
is. -/
theorem String_fields (c : Content) :
    Split c.String "\t" =
      [removeTabs c.Artist, removeTabs c.Album, removeTabs c.Track,
        removeTabs c.TrackNumber, formatNat c.Duration,
        (if c.Rating then "L" else "S"), formatInt c.StartedAt, ""] ∧
    (∀ m : String, ({ c with MusicBrainzTID := m } : Content).String = c.String) ∧
    (∀ s : String, (removeTabs s).data = s.data.filter fun ch => ch != '\t') ∧
    formatNat 365 = "365" ∧ formatInt 1143374412 = "1143374412" ∧
    formatInt (-1) = "-1" :=
  ⟨String_split c, fun _ => rfl, fun _ => rfl, by decide, by decide, by decide⟩

/-- C37. Whatever its strings contain, the line of a descriptor holds exactly seven tabs and
splits on the tab in exactly eight fields. -/
theorem String_tabs (c : Content) :
    c.String.data.count '\t' = 7 ∧ (Split c.String "\t").length = 8 := by
  constructor
  · have h1 := List.count_eq_zero_of_not_mem (removeTabs_no_tab c.Artist)
    have h2 := List.count_eq_zero_of_not_mem (removeTabs_no_tab c.Album)
    have h3 := List.count_eq_zero_of_not_mem (removeTabs_no_tab c.Track)
    have h4 := List.count_eq_zero_of_not_mem (removeTabs_no_tab c.TrackNumber)
    have h5 := List.count_eq_zero_of_not_mem (formatNat_no_tab c.Duration)
    have h6 := List.count_eq_zero_of_not_mem (formatInt_no_tab c.StartedAt)
    have h7 : (if c.Rating then Listened else Skipped).data.count '\t' = 0 := by
      cases c.Rating <;> decide
    have h8 : ("\t" : String).data.count '\t' = 1 := by decide
    simp only [Content.String, String.data_append, List.count_append, h1, h2, h3, h4, h5,
      h6, h7, h8]
  · rw [String_split]
    rfl

end resolver

/-! ### The status server -/

namespace server

open audioplayer

set_option maxRecDepth 8000 in
/-- C33 fails. For a fresh engine the client receives, for the status request, the
documented block and one more `OK` after it. -/
theorem reply_has_second_OK :
    reply New "noidle\ncommand_list_begin\nstatus\ncurrentsong\ncommand_list_end\nidle\n" =
      "OK\nvolume: 50\nstate: stop\nelapsed: 0\nbitrate: 0\nduration: 0\nfile: \n" ++
        "audio: 0:0:0\nArtist: \nAlbum: \nTitle: \nTrack: \nOK\n" ++ "OK\n" := by
  decide

/-- The string `res` for a given word of the state. -/
theorem statusBlock_of_state (p : AudioPlayer) (st : String)
    (h : (match StateByID p.State with
      | some s => s
      | none => "stop") = st) :
    statusBlock p =
      "OK\nvolume: 50\nstate: " ++ st ++
      "\nelapsed: " ++ formatInt p.CurrentTrack.PlayingFor ++
      "\nbitrate: " ++ formatInt (goDiv p.CurrentContent.Bitrate 1000) ++
      "\nduration: " ++ formatNat p.CurrentContent.Duration ++
      "\nfile: " ++ p.CurrentTrack.ContentURI ++
      "\naudio: " ++ formatInt p.CurrentContent.SampleRate ++ ":" ++
        formatInt p.CurrentContent.BitDepth ++ ":" ++ formatInt p.CurrentContent.Channels ++
      "\nArtist: " ++ p.CurrentContent.Artist ++
      "\nAlbum: " ++ p.CurrentContent.Album ++
      "\nTitle: " ++ p.CurrentContent.Track ++
      "\nTrack: " ++ p.CurrentContent.TrackNumber ++ "\nOK\n" := by
  have h50 : formatInt 50 = "50" := by decide
  apply String.ext
  simp only [statusBlock, h, h50, String.data_append, List.append_assoc]
  rfl

/-- C33, amended. For every engine state, the client receives for the exact status request
the documented block, with `state` the word `play` exactly in `Executing`, `pause` exactly
in `Pause` and `stop` in every other state, and with the bitrate divided by 1000, followed
by one more `OK\n`; every other non-empty input receives `OK\n` only. -/
theorem reply_to_status_request (p : AudioPlayer) :
    CMDStatusBatchAll =
      "noidle\ncommand_list_begin\nstatus\ncurrentsong\ncommand_list_end\nidle\n" ∧
    respond p CMDStatusBatchAll = [statusBlock p, "OK\n"] ∧
    reply p CMDStatusBatchAll = statusBlock p ++ "OK\n" ∧
    (∃ st : String,
      ((st = "play" ∧ p.State = StateExecuting) ∨ (st = "pause" ∧ p.State = StatePause) ∨
        (st = "stop" ∧ p.State ≠ StateExecuting ∧ p.State ≠ StatePause)) ∧
      statusBlock p =
        "OK\nvolume: 50\nstate: " ++ st ++
        "\nelapsed: " ++ formatInt p.CurrentTrack.PlayingFor ++
        "\nbitrate: " ++ formatInt (goDiv p.CurrentContent.Bitrate 1000) ++
        "\nduration: " ++ formatNat p.CurrentContent.Duration ++
        "\nfile: " ++ p.CurrentTrack.ContentURI ++
        "\naudio: " ++ formatInt p.CurrentContent.SampleRate ++ ":" ++
          formatInt p.CurrentContent.BitDepth ++ ":" ++
          formatInt p.CurrentContent.Channels ++
        "\nArtist: " ++ p.CurrentContent.Artist ++
        "\nAlbum: " ++ p.CurrentContent.Album ++
        "\nTitle: " ++ p.CurrentContent.Track ++
        "\nTrack: " ++ p.CurrentContent.TrackNumber ++ "\nOK\n") ∧
    (∀ input : String, input ≠ "" → input ≠ CMDStatusBatchAll → reply p input = "OK\n") := by
  have hcmd : ¬ (CMDStatusBatchAll.length < 1) := by decide
  have hresp : respond p CMDStatusBatchAll = [statusBlock p, "OK\n"] := by
    unfold respond
    rw [if_neg hcmd, if_pos rfl]
    rfl
  refine ⟨by decide, hresp, ?_, ?_, ?_⟩
  · unfold reply
    rw [hresp]
    apply String.ext
    simp [String.join, String.data_append]
  · by_cases hE : p.State = StateExecuting
    · refine ⟨"play", Or.inl ⟨rfl, hE⟩, statusBlock_of_state p "play" ?_⟩
      rw [hE]
      rfl
    · by_cases hP : p.State = StatePause
      · refine ⟨"pause", Or.inr (Or.inl ⟨rfl, hP⟩), statusBlock_of_state p "pause" ?_⟩
        rw [hP]
        rfl
      · refine ⟨"stop", Or.inr (Or.inr ⟨rfl, hE, hP⟩), statusBlock_of_state p "stop" ?_⟩
        unfold StateByID
        rw [if_neg hP, if_neg hE]
  · intro input hne hcmd2
    have hlen : ¬ (input.length < 1) := by
      have : input.data ≠ [] := fun h => hne (String.ext h)
      have : 0 < input.data.length := List.length_pos.mpr this
      show ¬ (input.data.length < 1)
      omega
    unfold reply respond
    rw [if_neg hlen, if_neg hcmd2]
    rfl

end server

/-! ### The frame reader -/

namespace logreader

theorem trimRight_zeros (n : Nat) : trimRight (List.replicate n 0) = [] := by
  induction n with
  | zero => rfl
  | succ n ih => simp [List.replicate_succ, trimRight, ih]

theorem trimRight_append_nil (xs ys : List Nat) (h : trimRight ys = []) :
    trimRight (xs ++ ys) = trimRight xs := by
  induction xs with
  | nil => simpa using h
  | cons x xs ih => simp [trimRight, ih]

theorem trimRight_append_of_ne (xs ys : List Nat) (h : trimRight ys ≠ []) :
    trimRight (xs ++ ys) = xs ++ trimRight ys := by
  induction xs with
  | nil => simp
  | cons x xs ih => simp [trimRight, ih, h]

theorem trimRight_length_le (xs : List Nat) : (trimRight xs).length ≤ xs.length := by
  induction xs with
  | nil => simp [trimRight]
  | cons x xs ih =>
    unfold trimRight
    split
    · simp
    · simpa using ih

theorem trimRight_of_length (xs : List Nat) (h : (trimRight xs).length = xs.length) :
    trimRight xs = xs := by
  induction xs with
  | nil => rfl
  | cons x xs ih =>
    unfold trimRight at h ⊢
    split at h
    · simp at h
    · rename_i hc
      rw [if_neg hc, ih (by simpa using h)]

theorem trimRight_frame (hdr payload : List Nat) (pad : Nat) :
    trimRight (frame hdr payload pad) = trimRight (hdr ++ payload) := by
  unfold frame
  exact trimRight_append_nil _ _ (trimRight_zeros pad)

theorem trimLeft_head (b : List Nat) :
    trimLeft b = [] ∨ ∃ c t, trimLeft b = c :: t ∧ c ≠ 0 ∧ c ∈ b := by
  induction b with
  | nil => exact Or.inl rfl
  | cons x xs ih =>
    unfold trimLeft
    split
    · rcases ih with h | ⟨c, t, h, hc, hm⟩
      · exact Or.inl h
      · exact Or.inr ⟨c, t, h, hc, List.mem_cons_of_mem _ hm⟩
    · rename_i hx
      exact Or.inr ⟨x, xs, rfl, hx, List.mem_cons_self _ _⟩

theorem uint16LE_pos (c d : Nat) (hc : c ≠ 0) (h256 : c < 256) : 0 < uint16LE c d := by
  unfold uint16LE
  omega

/-- What the reader does with trimmed bytes that begin with a byte that is not zero: a line of
what follows the first twenty bytes, or the error of a short header. -/
theorem handle_trimmed (b : List Nat) (c : Nat) (t : List Nat) (hb : 0 < b.length)
    (ht : Trim b = c :: t) (hc : c ≠ 0) (h256 : c < 256) :
    handle b =
      if HeaderLength ≤ (c :: t).length then
        Handled.line (ReplaceAll (ReplaceAll ((c :: t).drop HeaderLength) 10 32) 0 9)
      else Handled.error ReadError.ErrUnexpectedEOF := by
  unfold handle
  rw [if_pos hb]
  simp only [ht]
  by_cases hl : HeaderLength ≤ (c :: t).length
  · have hr : readHeader (c :: t) = .ok
        { Length := uint16LE c (t.getD 0 0)
          Pad := uint16LE ((c :: t).getD 2 0) ((c :: t).getD 3 0)
          Pid := int32LE ((c :: t).getD 4 0) ((c :: t).getD 5 0) ((c :: t).getD 6 0)
            ((c :: t).getD 7 0)
          Tid := int32LE ((c :: t).getD 8 0) ((c :: t).getD 9 0) ((c :: t).getD 10 0)
            ((c :: t).getD 11 0)
          Sec := int32LE ((c :: t).getD 12 0) ((c :: t).getD 13 0) ((c :: t).getD 14 0)
            ((c :: t).getD 15 0)
          NSec := int32LE ((c :: t).getD 16 0) ((c :: t).getD 17 0) ((c :: t).getD 18 0)
            ((c :: t).getD 19 0) } := by
      unfold readHeader
      rw [if_neg (by simp), if_neg (by omega)]
      rfl
    rw [hr, if_pos hl]
    simp only [uint16LE_pos c _ hc h256, if_true]
  · have hr : readHeader (c :: t) = .error ReadError.ErrUnexpectedEOF := by
      unfold readHeader
      rw [if_neg (by simp), if_pos (by omega)]
    rw [hr, if_neg hl]

/-- The test of the length never discards a message: only the empty message, which the
reader skips, passes without a line and without an error. -/
theorem handle_nothing_iff (b : List Nat) (hbytes : ∀ x ∈ b, x < 256) :
    handle b = Handled.nothing ↔ b = [] := by
  constructor
  · intro h
    by_contra hne
    have hb : 0 < b.length := List.length_pos.mpr hne
    have hl := trimLeft_head b
    rcases hl with hl | ⟨c, t, hl, hc, hm⟩
    · have ht : Trim b = [] := by unfold Trim; rw [hl]; rfl
      unfold handle at h
      rw [if_pos hb] at h
      simp only [ht] at h
      have hr : readHeader [] = .error ReadError.EOF := rfl
      rw [hr] at h
      exact Handled.noConfusion h
    · have ht : Trim b = c :: trimRight t := by
        unfold Trim
        rw [hl]
        simp [trimRight, hc]
      rw [handle_trimmed b c _ hb ht hc (hbytes c hm)] at h
      split at h <;> exact Handled.noConfusion h
  · rintro rfl
    rfl

/-- An entry of 256 bytes loses the low byte of its length and the first byte of its
payload. -/
theorem handle_of_length_256 : handle (entry 256 [65, 66] 40) = Handled.line [66] := by
  decide

/-- An entry with the length 0 is not discarded: its header is read short. -/
theorem handle_of_length_zero :
    handle (entry 0 [] 40) = Handled.error ReadError.ErrUnexpectedEOF := by
  decide

theorem handle_of_first (b : List Nat) (c : Nat) (t : List Nat) (hb : b = c :: t) (hc : c ≠ 0)
    (h256 : c < 256) :
    handle b =
      if HeaderLength ≤ (trimRight b).length then
        Handled.line (ReplaceAll (ReplaceAll ((trimRight b).drop HeaderLength) 10 32) 0 9)
      else Handled.error ReadError.ErrUnexpectedEOF := by
  subst hb
  have hr : trimRight (c :: t) = c :: trimRight t := by simp [trimRight, hc]
  have ht : Trim (c :: t) = c :: trimRight t := by
    unfold Trim
    simp [trimLeft, hc, hr]
  rw [handle_trimmed (c :: t) c _ (by simp) ht hc h256, hr]

/-- C31 fails on an entry whose payload is a null byte. The header has the length 1 and the
nsec 4, so the bytes of the entry end with the byte 4 and four zero bytes: the reader trims
them with the padding before it reads the header, seventeen bytes remain, and it reports the
error of a short header instead of a line. -/
theorem Read_reports_short_header :
    entry 1 [0] 40 = frame (headerBytes 1) [0] 40 ∧
    (headerBytes 1).length = HeaderLength ∧
    (∃ l, readHeader (headerBytes 1) = .ok l ∧ l.Length = 1 ∧ l.NSec = 4) ∧
    (Trim (entry 1 [0] 40)).length = 17 ∧
    handle (entry 1 [0] 40) = Handled.error ReadError.ErrUnexpectedEOF := by
  refine ⟨rfl, rfl, ⟨_, rfl, rfl, rfl⟩, ?_, ?_⟩ <;> decide

/-- C31, amended: for a header of twenty bytes whose first byte, the low byte of the length,
is not zero, followed by a payload and by zero bytes. The length of the header is not zero.
When the payload has a byte that is not zero the reader emits one line: the payload without
its trailing zero bytes, every newline replaced by a space and every null byte by a tab.
When the payload has none, the reader emits the empty line if the header does not end with a
zero byte, and reports the error of a short header if it does. -/
theorem Read_frame (hdr payload : List Nat) (pad : Nat) (hlen : hdr.length = HeaderLength)
    (hfirst : hdr.getD 0 0 ≠ 0) (h256 : hdr.getD 0 0 < 256) :
    (∃ l, readHeader hdr = .ok l ∧ 0 < l.Length) ∧
    (trimRight payload ≠ [] →
      handle (frame hdr payload pad) =
        Handled.line (ReplaceAll (ReplaceAll (trimRight payload) 10 32) 0 9)) ∧
    (trimRight payload = [] → trimRight hdr = hdr →
      handle (frame hdr payload pad) = Handled.line []) ∧
    (trimRight payload = [] → trimRight hdr ≠ hdr →
      handle (frame hdr payload pad) = Handled.error ReadError.ErrUnexpectedEOF) := by
  have h20 : HeaderLength = 20 := rfl
  obtain ⟨c, t, rfl⟩ : ∃ c t, hdr = c :: t := by
    cases hdr with
    | nil => simp [h20] at hlen
    | cons c t => exact ⟨c, t, rfl⟩
  have hc : c ≠ 0 := by simpa using hfirst
  have hc256 : c < 256 := by simpa using h256
  have hf : frame (c :: t) payload pad = c :: (t ++ payload ++ List.replicate pad 0) := by
    simp [frame]
  have hh := handle_of_first (frame (c :: t) payload pad) c _ hf hc hc256
  rw [trimRight_frame] at hh
  refine ⟨?_, ?_, ?_, ?_⟩
  · have hr : ∃ l, readHeader (c :: t) = .ok l ∧ l.Length = uint16LE c (t.getD 0 0) := by
      unfold readHeader
      rw [if_neg (by simp), if_neg (by omega)]
      exact ⟨_, rfl, rfl⟩
    obtain ⟨l, hl, hL⟩ := hr
    exact ⟨l, hl, by rw [hL]; exact uint16LE_pos c _ hc hc256⟩
  · intro hp
    have hle : HeaderLength ≤ (c :: t ++ trimRight payload).length := by
      rw [List.length_append, hlen]
      omega
    rw [hh, trimRight_append_of_ne _ _ hp, if_pos hle]
    have hd : List.drop HeaderLength (c :: t ++ trimRight payload) = trimRight payload := by
      rw [← hlen]
      exact List.drop_left _ _
    rw [hd]
  · intro hp hd
    rw [hh, trimRight_append_nil _ _ hp, hd, if_pos (by omega)]
    have : List.drop HeaderLength (c :: t) = [] := by
      rw [← hlen]
      exact List.drop_length _
    rw [this]
    rfl
  · intro hp hd
    have hlt : (trimRight (c :: t)).length < HeaderLength := by
      have h1 := trimRight_length_le (c :: t)
      have h2 : (trimRight (c :: t)).length ≠ (c :: t).length :=
        fun h => hd (trimRight_of_length _ h)
      omega
    rw [hh, trimRight_append_nil _ _ hp, if_neg (by omega)]

/-- Witness of C31, amended: an entry with a null byte and a newline in its payload. -/
theorem Read_frame_witness :
    (headerBytes 5).length = HeaderLength ∧ (headerBytes 5).getD 0 0 ≠ 0 ∧
    (headerBytes 5).getD 0 0 < 256 ∧ trimRight [65, 0, 66, 10, 67, 0] ≠ [] ∧
    handle (frame (headerBytes 5) [65, 0, 66, 10, 67, 0] 40) =
      Handled.line (ReplaceAll (ReplaceAll (trimRight [65, 0, 66, 10, 67, 0]) 10 32) 0 9) :=
  ⟨rfl, by decide, by decide, by decide,
    (Read_frame (headerBytes 5) [65, 0, 66, 10, 67, 0] 40 rfl (by decide) (by decide)).2.1
      (by decide)⟩

end logreader
